import Mathlib

/-!
# Peggo orchestrator: the Ethereum oracle loop and the relayer

A shallow embedding of `orchestrator/oracle.go`, followed by a model of the relayer
duties, whose sources are not among the files and which is taken from the specification.

* `uint64` values are natural numbers; every `uint64` operation of the source that can
  wrap is written with an explicit `% 2 ^ 64`.
* The two injected wire clients (`s.ethereum`, `s.injective`) are records of functions
  over an explicit world state `σ`; every wire call takes the world and returns the
  response together with the next world.
* Every function that talks to a client also returns the list of wire calls it made,
  each with its arguments and its response, in call order.
* Logging and metrics reporting have no effect on the values computed and are left out.
-/

namespace Peggo

/-! ## Machine integers -/

/-- The low 64 bits of a non-negative big integer: `(*big.Int).Uint64()`. -/
def Uint64 (x : Nat) : Nat := x % 2 ^ 64

/-- Subtraction of two `uint64` values, wrapping around below zero. -/
def subU64 (a b : Nat) : Nat := (a % 2 ^ 64 + 2 ^ 64 - b % 2 ^ 64) % 2 ^ 64

/-- Addition of two `uint64` values, wrapping around at `2 ^ 64`. -/
def addU64 (a b : Nat) : Nat := (a + b) % 2 ^ 64

/-! ## Constants (`oracle.go`, lines 19-22) -/

def ethBlockConfirmationDelay : Nat := 12

def defaultBlocksToSearch : Nat := 20

/-- The resync period `48*time.Hour`, in nanoseconds (the unit of `time.Duration`). -/
def resyncInterval : Int := 48 * (3600 * 1000000000)

/-! ## Data model -/

/-- Errors are represented by their message. -/
abbrev Error := String

deriving instance DecidableEq for Except

/-- The message of `errors.Wrap(err, msg)`. -/
def errorsWrap (err : Error) (msg : String) : Error := msg ++ ": " ++ err

/-- Modelled from the spec: the generated contract bindings (package `wrappers`) are not
among the sources. An event carries its `EventNonce` (a big integer in the bindings, read
by the oracle through `.Uint64()`), the height of the Ethereum block it was emitted in, and
a payload specific to its kind, which the oracle never inspects. -/
structure PeggySendToCosmosEvent where
  EventNonce : Nat
  BlockHeight : Nat
  Payload : String
  deriving DecidableEq, Repr

/-- Modelled from the spec: the deposit event of the bindings, see `PeggySendToCosmosEvent`. -/
structure PeggySendToInjectiveEvent where
  EventNonce : Nat
  BlockHeight : Nat
  Payload : String
  deriving DecidableEq, Repr

/-- Modelled from the spec: the withdrawal event of the bindings, see
`PeggySendToCosmosEvent`. -/
structure PeggyTransactionBatchExecutedEvent where
  EventNonce : Nat
  BlockHeight : Nat
  Payload : String
  deriving DecidableEq, Repr

/-- Modelled from the spec: the token deployment event of the bindings, see
`PeggySendToCosmosEvent`. -/
structure PeggyERC20DeployedEvent where
  EventNonce : Nat
  BlockHeight : Nat
  Payload : String
  deriving DecidableEq, Repr

/-- Modelled from the spec: the validator set event of the bindings, see
`PeggySendToCosmosEvent`. The relayer reads `NewValsetNonce`, the nonce of the validator set
the event installed (a field `relayer_test.go` sets). -/
structure PeggyValsetUpdatedEvent where
  EventNonce : Nat
  BlockHeight : Nat
  Payload : String
  NewValsetNonce : Nat
  deriving DecidableEq, Repr

/-- An Ethereum block header; the oracle reads only `Number` (a big integer). -/
structure Header where
  Number : Nat
  deriving DecidableEq, Repr

/-- The last claim recorded on the Injective chain for this orchestrator; both fields are
`uint64`. -/
structure LastClaimEvent where
  EthereumEventNonce : Nat
  EthereumEventHeight : Nat
  deriving DecidableEq, Repr

/-- The parameters of the peggy module on the Injective chain; the oracle reads only the
start height of the bridge contract (`uint64`). -/
structure PeggyParams where
  BridgeContractStartHeight : Nat
  deriving DecidableEq, Repr

/-! ## Wire clients -/

/-- The Ethereum client, as far as the oracle uses it. -/
structure EthereumNetwork (σ : Type) where
  HeaderByNumber : σ → Except Error Header × σ
  GetSendToCosmosEvents : Nat → Nat → σ → Except Error (List PeggySendToCosmosEvent) × σ
  GetSendToInjectiveEvents :
    Nat → Nat → σ → Except Error (List PeggySendToInjectiveEvent) × σ
  GetTransactionBatchExecutedEvents :
    Nat → Nat → σ → Except Error (List PeggyTransactionBatchExecutedEvent) × σ
  GetPeggyERC20DeployedEvents :
    Nat → Nat → σ → Except Error (List PeggyERC20DeployedEvent) × σ
  GetValsetUpdatedEvents : Nat → Nat → σ → Except Error (List PeggyValsetUpdatedEvent) × σ

/-- The Injective client, as far as the oracle loop uses it.
`SendEthereumClaims` answers `none` when the claim was accepted. -/
structure InjectiveNetwork (σ : Type) where
  PeggyParams : σ → Except Error PeggyParams × σ
  LastClaimEvent : σ → Except Error LastClaimEvent × σ
  SendEthereumClaims :
    Nat → List PeggySendToCosmosEvent → List PeggySendToInjectiveEvent →
      List PeggyTransactionBatchExecutedEvent → List PeggyERC20DeployedEvent →
      List PeggyValsetUpdatedEvent → σ → Option Error × σ

/-- The fields of the orchestrator the oracle loop uses. -/
structure PeggyOrchestrator (σ : Type) where
  injective : InjectiveNetwork σ
  ethereum : EthereumNetwork σ
  maxAttempts : Nat

/-- One wire call: the method, its arguments and its response. -/
inductive Call where
  | HeaderByNumber (res : Except Error Header)
  | GetSendToCosmosEvents (startBlock endBlock : Nat)
      (res : Except Error (List PeggySendToCosmosEvent))
  | GetSendToInjectiveEvents (startBlock endBlock : Nat)
      (res : Except Error (List PeggySendToInjectiveEvent))
  | GetTransactionBatchExecutedEvents (startBlock endBlock : Nat)
      (res : Except Error (List PeggyTransactionBatchExecutedEvent))
  | GetPeggyERC20DeployedEvents (startBlock endBlock : Nat)
      (res : Except Error (List PeggyERC20DeployedEvent))
  | GetValsetUpdatedEvents (startBlock endBlock : Nat)
      (res : Except Error (List PeggyValsetUpdatedEvent))
  | LastClaimEvent (res : Except Error LastClaimEvent)
  | PeggyParams (res : Except Error PeggyParams)
  | SendEthereumClaims (lastClaimEvent : Nat)
      (oldDeposits : List PeggySendToCosmosEvent)
      (deposits : List PeggySendToInjectiveEvent)
      (withdraws : List PeggyTransactionBatchExecutedEvent)
      (erc20Deployed : List PeggyERC20DeployedEvent)
      (valsetUpdates : List PeggyValsetUpdatedEvent)
      (res : Option Error)
  deriving DecidableEq, Repr

/-- The block range of an event fetch; `none` for the other calls. -/
def Call.fetchRange : Call → Option (Nat × Nat)
  | .GetSendToCosmosEvents a b _ => some (a, b)
  | .GetSendToInjectiveEvents a b _ => some (a, b)
  | .GetTransactionBatchExecutedEvents a b _ => some (a, b)
  | .GetPeggyERC20DeployedEvents a b _ => some (a, b)
  | .GetValsetUpdatedEvents a b _ => some (a, b)
  | _ => none

/-- Whether the call is an event fetch that was answered with an error. -/
def Call.fetchFailed : Call → Bool
  | .GetSendToCosmosEvents _ _ (.error _) => true
  | .GetSendToInjectiveEvents _ _ (.error _) => true
  | .GetTransactionBatchExecutedEvents _ _ (.error _) => true
  | .GetPeggyERC20DeployedEvents _ _ (.error _) => true
  | .GetValsetUpdatedEvents _ _ (.error _) => true
  | _ => false

/-- Whether the call is a claim submission. -/
def Call.isSendEthereumClaims : Call → Bool
  | .SendEthereumClaims _ _ _ _ _ _ _ => true
  | _ => false

/-! ## The nonce filters (`oracle.go`, lines 251-323) -/

def filterSendToCosmosEventsByNonce (events : List PeggySendToCosmosEvent) (nonce : Nat) :
    List PeggySendToCosmosEvent :=
  events.foldl (fun res ev => if Uint64 ev.EventNonce > nonce then res ++ [ev] else res) []

def filterSendToInjectiveEventsByNonce (events : List PeggySendToInjectiveEvent)
    (nonce : Nat) : List PeggySendToInjectiveEvent :=
  events.foldl (fun res ev => if Uint64 ev.EventNonce > nonce then res ++ [ev] else res) []

def filterTransactionBatchExecutedEventsByNonce
    (events : List PeggyTransactionBatchExecutedEvent) (nonce : Nat) :
    List PeggyTransactionBatchExecutedEvent :=
  events.foldl (fun res ev => if Uint64 ev.EventNonce > nonce then res ++ [ev] else res) []

def filterERC20DeployedEventsByNonce (events : List PeggyERC20DeployedEvent) (nonce : Nat) :
    List PeggyERC20DeployedEvent :=
  events.foldl (fun res ev => if Uint64 ev.EventNonce > nonce then res ++ [ev] else res) []

def filterValsetUpdateEventsByNonce (events : List PeggyValsetUpdatedEvent) (nonce : Nat) :
    List PeggyValsetUpdatedEvent :=
  events.foldl (fun res ev => if Uint64 ev.EventNonce > nonce then res ++ [ev] else res) []

/-- The one generic routine the specification asks for in place of the five filters:
keep, in order, the events whose nonce (read through `nonceOf`) exceeds `nonce`. -/
def filterEventsByNonce {α : Type} (nonceOf : α → Nat) (events : List α) (nonce : Nat) :
    List α :=
  events.filter (fun ev => decide (nonce < nonceOf ev))

/-! ## One scan of the Ethereum chain (`oracle.go`, lines 128-249) -/

/-- What a call of `relayEthEvents` leaves behind: the two returned values (`height`,
`err`), the world after the call and the wire calls made, in order. -/
structure RelayResult (σ : Type) where
  height : Nat
  err : Option Error
  world : σ
  calls : List Call

/-- The function `relayEthEvents`: `startingBlock` is the cursor handed in by the loop. -/
def relayEthEvents {σ : Type} (s : PeggyOrchestrator σ) (startingBlock : Nat) (w0 : σ) :
    RelayResult σ :=
  match s.ethereum.HeaderByNumber w0 with
  | (.error err, w1) =>
    ⟨0, some (errorsWrap err "failed to get latest ethereum header"), w1,
      [.HeaderByNumber (.error err)]⟩
  | (.ok latestHeader, w1) =>
    let currentBlock := subU64 (Uint64 latestHeader.Number) ethBlockConfirmationDelay
    if currentBlock < startingBlock then
      ⟨currentBlock, none, w1, [.HeaderByNumber (.ok latestHeader)]⟩
    else
      let currentBlock :=
        if currentBlock > addU64 startingBlock defaultBlocksToSearch then
          addU64 startingBlock defaultBlocksToSearch
        else currentBlock
      match s.ethereum.GetSendToCosmosEvents startingBlock currentBlock w1 with
      | (.error err, w2) =>
        ⟨0, some (errorsWrap err "failed to get SendToCosmos events"), w2,
          [.HeaderByNumber (.ok latestHeader),
            .GetSendToCosmosEvents startingBlock currentBlock (.error err)]⟩
      | (.ok legacyDeposits, w2) =>
      match s.ethereum.GetSendToInjectiveEvents startingBlock currentBlock w2 with
      | (.error err, w3) =>
        ⟨0, some (errorsWrap err "failed to get SendToInjective events"), w3,
          [.HeaderByNumber (.ok latestHeader),
            .GetSendToCosmosEvents startingBlock currentBlock (.ok legacyDeposits),
            .GetSendToInjectiveEvents startingBlock currentBlock (.error err)]⟩
      | (.ok deposits, w3) =>
      match s.ethereum.GetTransactionBatchExecutedEvents startingBlock currentBlock w3 with
      | (.error err, w4) =>
        ⟨0, some (errorsWrap err "failed to get TransactionBatchExecuted events"), w4,
          [.HeaderByNumber (.ok latestHeader),
            .GetSendToCosmosEvents startingBlock currentBlock (.ok legacyDeposits),
            .GetSendToInjectiveEvents startingBlock currentBlock (.ok deposits),
            .GetTransactionBatchExecutedEvents startingBlock currentBlock (.error err)]⟩
      | (.ok withdrawals, w4) =>
      match s.ethereum.GetPeggyERC20DeployedEvents startingBlock currentBlock w4 with
      | (.error err, w5) =>
        ⟨0, some (errorsWrap err "failed to get ERC20Deployed events"), w5,
          [.HeaderByNumber (.ok latestHeader),
            .GetSendToCosmosEvents startingBlock currentBlock (.ok legacyDeposits),
            .GetSendToInjectiveEvents startingBlock currentBlock (.ok deposits),
            .GetTransactionBatchExecutedEvents startingBlock currentBlock (.ok withdrawals),
            .GetPeggyERC20DeployedEvents startingBlock currentBlock (.error err)]⟩
      | (.ok erc20Deployments, w5) =>
      match s.ethereum.GetValsetUpdatedEvents startingBlock currentBlock w5 with
      | (.error err, w6) =>
        ⟨0, some (errorsWrap err "failed to get ValsetUpdated events"), w6,
          [.HeaderByNumber (.ok latestHeader),
            .GetSendToCosmosEvents startingBlock currentBlock (.ok legacyDeposits),
            .GetSendToInjectiveEvents startingBlock currentBlock (.ok deposits),
            .GetTransactionBatchExecutedEvents startingBlock currentBlock (.ok withdrawals),
            .GetPeggyERC20DeployedEvents startingBlock currentBlock (.ok erc20Deployments),
            .GetValsetUpdatedEvents startingBlock currentBlock (.error err)]⟩
      | (.ok valsetUpdates, w6) =>
      let reads : List Call :=
        [.HeaderByNumber (.ok latestHeader),
          .GetSendToCosmosEvents startingBlock currentBlock (.ok legacyDeposits),
          .GetSendToInjectiveEvents startingBlock currentBlock (.ok deposits),
          .GetTransactionBatchExecutedEvents startingBlock currentBlock (.ok withdrawals),
          .GetPeggyERC20DeployedEvents startingBlock currentBlock (.ok erc20Deployments),
          .GetValsetUpdatedEvents startingBlock currentBlock (.ok valsetUpdates)]
      match s.injective.LastClaimEvent w6 with
      | (.error err, w7) =>
        ⟨0, some "failed to query last claim event from Injective", w7,
          reads ++ [.LastClaimEvent (.error err)]⟩
      | (.ok lastClaimEvent, w7) =>
        let legacyDeposits :=
          filterSendToCosmosEventsByNonce legacyDeposits lastClaimEvent.EthereumEventNonce
        let deposits :=
          filterSendToInjectiveEventsByNonce deposits lastClaimEvent.EthereumEventNonce
        let withdrawals :=
          filterTransactionBatchExecutedEventsByNonce withdrawals
            lastClaimEvent.EthereumEventNonce
        let erc20Deployments :=
          filterERC20DeployedEventsByNonce erc20Deployments lastClaimEvent.EthereumEventNonce
        let valsetUpdates :=
          filterValsetUpdateEventsByNonce valsetUpdates lastClaimEvent.EthereumEventNonce
        if legacyDeposits.length > 0 ∨ deposits.length > 0 ∨ withdrawals.length > 0 ∨
            erc20Deployments.length > 0 ∨ valsetUpdates.length > 0 then
          match s.injective.SendEthereumClaims lastClaimEvent.EthereumEventNonce
              legacyDeposits deposits withdrawals erc20Deployments valsetUpdates w7 with
          | (some err, w8) =>
            ⟨0, some (errorsWrap err "failed to send event claims to Injective"), w8,
              reads ++ [.LastClaimEvent (.ok lastClaimEvent),
                .SendEthereumClaims lastClaimEvent.EthereumEventNonce legacyDeposits deposits
                  withdrawals erc20Deployments valsetUpdates (some err)]⟩
          | (none, w8) =>
            ⟨currentBlock, none, w8,
              reads ++ [.LastClaimEvent (.ok lastClaimEvent),
                .SendEthereumClaims lastClaimEvent.EthereumEventNonce legacyDeposits deposits
                  withdrawals erc20Deployments valsetUpdates none]⟩
        else
          ⟨currentBlock, none, w7, reads ++ [.LastClaimEvent (.ok lastClaimEvent)]⟩

/-! ## The cursor read (`oracle.go`, lines 111-124) -/

/-- The function `getLastConfirmedEthHeight`: the returned height, the returned error, the
world after the call and the wire call made. -/
def getLastConfirmedEthHeight {σ : Type} (s : PeggyOrchestrator σ) (w0 : σ) :
    RelayResult σ :=
  match s.injective.LastClaimEvent w0 with
  | (.error err, w1) => ⟨0, some err, w1, [.LastClaimEvent (.error err)]⟩
  | (.ok lastClaimEvent, w1) =>
    ⟨lastClaimEvent.EthereumEventHeight, none, w1, [.LastClaimEvent (.ok lastClaimEvent)]⟩

/-! ## Bounded retry (`retry.Do` of the retry library, as the loop configures it)

The loop passes the attempt bound `s.maxAttempts` and keeps the other defaults: every
error is retried, and the errors of all attempts are returned together. The function is
run until it succeeds or the attempts are used up; with a bound of zero it is never run and
the (empty) collection of errors is returned. Waiting between attempts and cancellation of
the context are not modelled: the context is taken to stay live. -/

/-- The attempts of `retry.Do` still to be made: `st` is everything the retried closure
reads and writes, `errorLog` the errors of the attempts made so far. -/
def retryLoop {S : Type} (fn : S → Option Error × S) :
    Nat → List Error → S → Option (List Error) × S
  | 0, errorLog, st => (some errorLog, st)
  | n + 1, errorLog, st =>
    match fn st with
    | (none, st1) => (none, st1)
    | (some err, st1) => retryLoop fn n (errorLog ++ [err]) st1

/-- The call `retry.Do(fn, retry.Context(ctx), retry.Attempts(attempts), ...)`. -/
def retryDo {S : Type} (fn : S → Option Error × S) (attempts : Nat) (st : S) :
    Option (List Error) × S :=
  retryLoop fn attempts [] st

/-! ## The loop body (`oracle.go`, lines 59-108) -/

/-- The variables of `EthOracleMainLoop` that live across ticks; `lastResync` is a point
in time, in nanoseconds. -/
structure LoopState where
  lastConfirmedEthHeight : Nat
  lastResync : Int
  deriving DecidableEq, Repr

/-- What one tick leaves behind: the error returned by the body, the loop variables, the
world and the wire calls made, in order. -/
structure TickResult (σ : Type) where
  err : Option (List Error)
  state : LoopState
  world : σ
  calls : List Call

/-- The closure retried at lines 64-67: it runs `relayEthEvents` from the cursor and
assigns the returned height to `currentHeight` (first component of the closure state). -/
def relayAttempt {σ : Type} (s : PeggyOrchestrator σ) (lastConfirmedEthHeight : Nat)
    (st : Nat × σ × List Call) : Option Error × (Nat × σ × List Call) :=
  let r := relayEthEvents s lastConfirmedEthHeight st.2.1
  (r.err, (r.height, r.world, st.2.2 ++ r.calls))

/-- The closure retried at lines 89-92: it assigns the result of
`getLastConfirmedEthHeight` to `lastConfirmedEthHeight` (first component of the closure
state), also when the read failed. -/
def resyncAttempt {σ : Type} (s : PeggyOrchestrator σ) (st : Nat × σ × List Call) :
    Option Error × (Nat × σ × List Call) :=
  let r := getLastConfirmedEthHeight s st.2.1
  (r.err, (r.height, r.world, st.2.2 ++ r.calls))

/-- The function handed to `loops.RunLoop`: one tick of the oracle. `timeNow` is the
clock (`time.Now()`, in nanoseconds), read from the world like a wire call. -/
def loopBody {σ : Type} (s : PeggyOrchestrator σ) (timeNow : σ → Int × σ)
    (st : LoopState) (w0 : σ) : TickResult σ :=
  match retryDo (relayAttempt s st.lastConfirmedEthHeight) s.maxAttempts (0, w0, []) with
  | (some err, (_, w1, calls)) => ⟨some err, st, w1, calls⟩
  | (none, (currentHeight, w1, calls)) =>
    let lastConfirmedEthHeight := currentHeight
    match timeNow w1 with
    | (now, w2) =>
      if now - st.lastResync ≥ resyncInterval then
        match retryDo (resyncAttempt s) s.maxAttempts (lastConfirmedEthHeight, w2, calls) with
        | (some err, (lastConfirmedEthHeight, w3, calls)) =>
          ⟨some err, ⟨lastConfirmedEthHeight, st.lastResync⟩, w3, calls⟩
        | (none, (lastConfirmedEthHeight, w3, calls)) =>
          match timeNow w3 with
          | (now, w4) => ⟨none, ⟨lastConfirmedEthHeight, now⟩, w4, calls⟩
      else
        ⟨none, ⟨lastConfirmedEthHeight, st.lastResync⟩, w2, calls⟩

/-! ## Scripted clients

A chain with a fixed head and a fixed list of deposit events (no event of the other four
kinds), an Injective node with a fixed last claim that accepts every claim and has no
module parameters to give, and a clock that stands still. The world state is trivial. -/

/-- The events of `events` emitted in the inclusive block range. -/
def depositsInRange (events : List PeggySendToInjectiveEvent) (startBlock endBlock : Nat) :
    List PeggySendToInjectiveEvent :=
  events.filter (fun ev => decide (startBlock ≤ ev.BlockHeight ∧ ev.BlockHeight ≤ endBlock))

/-- An orchestrator wired to the scripted clients, with a single attempt per retry. -/
def scriptedOrchestrator (head : Nat) (deposits : List PeggySendToInjectiveEvent)
    (lastClaim : LastClaimEvent) : PeggyOrchestrator Unit where
  injective :=
    { PeggyParams := fun w => (.error "no params", w)
      LastClaimEvent := fun w => (.ok lastClaim, w)
      SendEthereumClaims := fun _ _ _ _ _ _ w => (none, w) }
  ethereum :=
    { HeaderByNumber := fun w => (.ok ⟨head⟩, w)
      GetSendToCosmosEvents := fun _ _ w => (.ok [], w)
      GetSendToInjectiveEvents := fun a b w => (.ok (depositsInRange deposits a b), w)
      GetTransactionBatchExecutedEvents := fun _ _ w => (.ok [], w)
      GetPeggyERC20DeployedEvents := fun _ _ w => (.ok [], w)
      GetValsetUpdatedEvents := fun _ _ w => (.ok [], w) }
  maxAttempts := 1

/-- A clock that always shows the same time. -/
def fixedClock (now : Int) : Unit → Int × Unit := fun w => (now, w)

/-- The two deposits of the seed scenario: nonce 10 in block 905, nonce 11 in block 908. -/
def seedDeposits : List PeggySendToInjectiveEvent :=
  [⟨10, 905, "a"⟩, ⟨11, 908, "b"⟩]

/-! ## Vocabulary for the statements -/

/-- The six reads of a scan that got past all of them, as logged. -/
def readsLog (hdr : Header) (start cur : Nat) (l1 : List PeggySendToCosmosEvent)
    (l2 : List PeggySendToInjectiveEvent) (l3 : List PeggyTransactionBatchExecutedEvent)
    (l4 : List PeggyERC20DeployedEvent) (l5 : List PeggyValsetUpdatedEvent) : List Call :=
  [.HeaderByNumber (.ok hdr), .GetSendToCosmosEvents start cur (.ok l1),
    .GetSendToInjectiveEvents start cur (.ok l2),
    .GetTransactionBatchExecutedEvents start cur (.ok l3),
    .GetPeggyERC20DeployedEvents start cur (.ok l4),
    .GetValsetUpdatedEvents start cur (.ok l5)]

/-- A fetch function answers only with events emitted in the inclusive block range it was
asked for. -/
def AnswersWithinRange {σ α : Type} (blockOf : α → Nat)
    (fetch : Nat → Nat → σ → Except Error (List α) × σ) : Prop :=
  ∀ a b w evs w1, fetch a b w = (.ok evs, w1) → ∀ ev ∈ evs, a ≤ blockOf ev ∧ blockOf ev ≤ b

/-- The highest of a list of nonces (0 for the empty list). -/
def highestNonce (nonces : List Nat) : Nat := nonces.foldl max 0

/-- The nonces, read as `uint64`, of the events of the five lists of a claim. -/
def claimNonces (l1 : List PeggySendToCosmosEvent) (l2 : List PeggySendToInjectiveEvent)
    (l3 : List PeggyTransactionBatchExecutedEvent) (l4 : List PeggyERC20DeployedEvent)
    (l5 : List PeggyValsetUpdatedEvent) : List Nat :=
  l1.map (fun ev => Uint64 ev.EventNonce) ++ l2.map (fun ev => Uint64 ev.EventNonce) ++
    l3.map (fun ev => Uint64 ev.EventNonce) ++ l4.map (fun ev => Uint64 ev.EventNonce) ++
    l5.map (fun ev => Uint64 ev.EventNonce)

/-- Whether the call is one of the six reads of a scan and was answered with an error. -/
def Call.readFailed : Call → Bool
  | .HeaderByNumber (.error _) => true
  | .GetSendToCosmosEvents _ _ (.error _) => true
  | .GetSendToInjectiveEvents _ _ (.error _) => true
  | .GetTransactionBatchExecutedEvents _ _ (.error _) => true
  | .GetPeggyERC20DeployedEvents _ _ (.error _) => true
  | .GetValsetUpdatedEvents _ _ (.error _) => true
  | .LastClaimEvent (.error _) => true
  | _ => false

/-- Whether the call is a header read; every scan starts with exactly one. -/
def Call.isHeaderByNumber : Call → Bool
  | .HeaderByNumber _ => true
  | _ => false

/-- Whether the call is a claim submission that was rejected. -/
def Call.sendRejected : Call → Bool
  | .SendEthereumClaims _ _ _ _ _ _ (some _) => true
  | _ => false

/-! ## The start of the loop (`oracle.go`, lines 26-57) -/

/-- What the closure `retryFn` reads and writes: the cursor it assigns, the world and the
wire calls made. `exited` records that `logger.Fatalln` was reached: the process has
ended and nothing after it runs. -/
structure StartState (σ : Type) where
  lastConfirmedEthHeight : Nat
  exited : Bool
  world : σ
  calls : List Call

/-- The closure `retryFn` of lines 31-46. An error of the last claim read is only logged;
a height of zero makes the closure read the module parameters, and a failure of that read
ends the process (`Fatalln`), which the model records in `exited` before handing control
back. The closure never returns an error. -/
def retryFn {σ : Type} (s : PeggyOrchestrator σ) (st : StartState σ) :
    Option Error × StartState σ :=
  let r := getLastConfirmedEthHeight s st.world
  let height := r.height
  if height = 0 then
    match s.injective.PeggyParams r.world with
    | (.error err, w2) =>
      (none, ⟨st.lastConfirmedEthHeight, true, w2,
        st.calls ++ r.calls ++ [.PeggyParams (.error err)]⟩)
    | (.ok peggyParams, w2) =>
      (none, ⟨peggyParams.BridgeContractStartHeight, st.exited, w2,
        st.calls ++ r.calls ++ [.PeggyParams (.ok peggyParams)]⟩)
  else
    (none, ⟨height, st.exited, r.world, st.calls ++ r.calls⟩)

/-- How the start of `EthOracleMainLoop` ends: the process has exited in `Fatalln`, the
function has returned the error of the retry ("got error, loop exits"), or
`loops.RunLoop` is entered with the loop variables `state`. -/
inductive StartResult (σ : Type) where
  | exited (world : σ) (calls : List Call)
  | failed (err : List Error) (world : σ) (calls : List Call)
  | looping (state : LoopState) (world : σ) (calls : List Call)

/-- The function `EthOracleMainLoop` up to its call of `loops.RunLoop` (lines 26-58):
`lastResync` is set to the time of the start and the cursor by the retried `retryFn`. -/
def EthOracleMainLoop {σ : Type} (s : PeggyOrchestrator σ) (timeNow : σ → Int × σ)
    (w0 : σ) : StartResult σ :=
  match timeNow w0 with
  | (lastResync, w1) =>
    match retryDo (retryFn s) s.maxAttempts ⟨0, false, w1, []⟩ with
    | (some err, st) => .failed err st.world st.calls
    | (none, st) =>
      if st.exited then .exited st.world st.calls
      else .looping ⟨st.lastConfirmedEthHeight, lastResync⟩ st.world st.calls

/-! ## The tick driver -/

/-- What a run of the tick driver leaves behind: the error it returned (`none` when it
was cancelled), the number of ticks it ran, and the loop variables and the world at its
end. -/
structure RunResult (σ : Type) where
  err : Option (List Error)
  ticks : Nat
  state : LoopState
  world : σ

/-- Modelled from the spec: the tick driver `loops.RunLoop` is not among the sources.
Section 4.5 of the specification: the driver invokes the body, awaits its completion and
re-arms; a returned error is logged; cancellation makes the driver return before the next
tick. Whether the driver goes on after a logged error or returns it is said both ways
(section 4.5 "log and continue", section 4.1 "the loop exits"; the log line of the oracle
body says "got error, loop exits"), so it is the parameter `exitOnError`; the driver sees
of a tick only the error it returned. `budget` is the number of ticks until cancellation,
`ticks` the number of ticks run so far. -/
def RunLoop {σ : Type} (exitOnError : Bool) (fn : LoopState → σ → TickResult σ) :
    Nat → Nat → LoopState → σ → RunResult σ
  | 0, ticks, st, w => ⟨none, ticks, st, w⟩
  | budget + 1, ticks, st, w =>
    let r := fn st w
    match r.err with
    | some err =>
      if exitOnError then ⟨some err, ticks + 1, r.state, r.world⟩
      else RunLoop exitOnError fn budget (ticks + 1) r.state r.world
    | none => RunLoop exitOnError fn budget (ticks + 1) r.state r.world

/-! ## Scripted clients for the start and for failures -/

/-- An orchestrator whose Injective node answers the last claim read and the parameter
read as scripted (the Ethereum side is that of `scriptedOrchestrator` at head 1000). -/
def startOrchestrator (lastClaim : Except Error LastClaimEvent)
    (params : Except Error PeggyParams) (maxAttempts : Nat) : PeggyOrchestrator Unit where
  injective :=
    { PeggyParams := fun w => (params, w)
      LastClaimEvent := fun w => (lastClaim, w)
      SendEthereumClaims := fun _ _ _ _ _ _ w => (none, w) }
  ethereum := (scriptedOrchestrator 1000 [] ⟨0, 0⟩).ethereum
  maxAttempts := maxAttempts

/-- The seed scenario with an Injective node that rejects every claim. -/
def rejectingOrchestrator (maxAttempts : Nat) : PeggyOrchestrator Unit where
  injective :=
    { PeggyParams := fun w => (.error "no params", w)
      LastClaimEvent := fun w => (.ok ⟨9, 0⟩, w)
      SendEthereumClaims := fun _ _ _ _ _ _ w => (some "rejected", w) }
  ethereum := (scriptedOrchestrator 1000 seedDeposits ⟨9, 0⟩).ethereum
  maxAttempts := maxAttempts

/-- The seed scenario with an Ethereum node whose deposit fetch fails. -/
def failingOrchestrator (maxAttempts : Nat) : PeggyOrchestrator Unit where
  injective := (scriptedOrchestrator 1000 seedDeposits ⟨9, 0⟩).injective
  ethereum :=
    { HeaderByNumber := fun w => (.ok ⟨1000⟩, w)
      GetSendToCosmosEvents := fun _ _ w => (.ok [], w)
      GetSendToInjectiveEvents := fun _ _ w => (.error "timeout", w)
      GetTransactionBatchExecutedEvents := fun _ _ w => (.ok [], w)
      GetPeggyERC20DeployedEvents := fun _ _ w => (.ok [], w)
      GetValsetUpdatedEvents := fun _ _ w => (.ok [], w) }
  maxAttempts := maxAttempts

/-! ## The relayer: data and wire clients

The relayer itself is not among the source files; `relayer_test.go` calls its two entry
points `relayValsets` and `relayBatches` and scripts the wire calls they make. -/

/-- Modelled from the spec: a validator set of the Injective chain (section 3), with the
height of the Injective block it was created in (section 4.2a, step 7). -/
structure Valset where
  Nonce : Nat
  Members : List String
  Powers : List Nat
  Height : Nat
  RewardAmount : Nat
  RewardToken : String
  deriving DecidableEq, Repr

/-- Modelled from the spec: a signature of an orchestrator over a validator set. -/
structure MsgValsetConfirm where
  Nonce : Nat
  Orchestrator : String
  EthAddress : String
  Signature : String
  deriving DecidableEq, Repr

/-- Modelled from the spec: an outgoing transaction batch (section 3); `Block` is the
height of the Injective block it was created in. -/
structure OutgoingTxBatch where
  BatchNonce : Nat
  TokenContract : String
  Transactions : List String
  BatchTimeout : Nat
  Block : Nat
  deriving DecidableEq, Repr

/-- Modelled from the spec: a signature of an orchestrator over a batch. -/
structure MsgConfirmBatch where
  Orchestrator : String
  EthSigner : String
  Signature : String
  deriving DecidableEq, Repr

/-- A block of the Injective chain; the relayer reads only its time, in nanoseconds. -/
structure ResultBlock where
  Time : Int
  deriving DecidableEq, Repr

/-- The settings of the relayer that `relayer_test.go` sets; the two offsets are
durations in nanoseconds. -/
structure relayer where
  retries : Nat
  valsetRelaying : Bool
  batchRelaying : Bool
  relayValsetOffsetDur : Int
  relayBatchOffsetDur : Int
  deriving DecidableEq, Repr

/-- The Injective client, as far as the relayer uses it (the scripted calls of
`relayer_test.go`; section 6.2). -/
structure RelayerInjectiveNetwork (σ : Type) where
  LatestValsets : σ → Except Error (List Valset) × σ
  AllValsetConfirms : Nat → σ → Except Error (List MsgValsetConfirm) × σ
  ValsetAt : Nat → σ → Except Error Valset × σ
  GetBlock : Nat → σ → Except Error ResultBlock × σ
  LatestTransactionBatches : σ → Except Error (List OutgoingTxBatch) × σ
  TransactionBatchSignatures : Nat → String → σ → Except Error (List MsgConfirmBatch) × σ

/-- The Ethereum client, as far as the relayer uses it (the scripted calls of
`relayer_test.go`; section 6.1). The two submissions answer `none` when the transaction
was sent. -/
structure RelayerEthereumNetwork (σ : Type) where
  HeaderByNumber : σ → Except Error Header × σ
  GetValsetNonce : σ → Except Error Nat × σ
  GetValsetUpdatedEvents : Nat → Nat → σ → Except Error (List PeggyValsetUpdatedEvent) × σ
  GetTxBatchNonce : String → σ → Except Error Nat × σ
  SendEthValsetUpdate : Valset → Valset → List MsgValsetConfirm → σ → Option Error × σ
  SendTransactionBatch : Valset → OutgoingTxBatch → List MsgConfirmBatch → σ → Option Error × σ

/-- One step of the relayer that reaches outside: a wire call with its arguments and its
response, or a reading of the clock. -/
inductive RelayerCall where
  | LatestValsets (res : Except Error (List Valset))
  | AllValsetConfirms (nonce : Nat) (res : Except Error (List MsgValsetConfirm))
  | ValsetAt (nonce : Nat) (res : Except Error Valset)
  | GetBlock (height : Nat) (res : Except Error ResultBlock)
  | LatestTransactionBatches (res : Except Error (List OutgoingTxBatch))
  | TransactionBatchSignatures (nonce : Nat) (tokenContract : String)
      (res : Except Error (List MsgConfirmBatch))
  | HeaderByNumber (res : Except Error Header)
  | GetValsetNonce (res : Except Error Nat)
  | GetValsetUpdatedEvents (startBlock endBlock : Nat)
      (res : Except Error (List PeggyValsetUpdatedEvent))
  | GetTxBatchNonce (tokenContract : String) (res : Except Error Nat)
  | SendEthValsetUpdate (newValset signingValset : Valset) (confirms : List MsgValsetConfirm)
      (res : Option Error)
  | SendTransactionBatch (signingValset : Valset) (batch : OutgoingTxBatch)
      (confirms : List MsgConfirmBatch) (res : Option Error)
  | TimeNow (now : Int)
  deriving DecidableEq, Repr

/-- Whether the step is a call of the Ethereum client. -/
def RelayerCall.onEthereum : RelayerCall → Bool
  | .HeaderByNumber _ => true
  | .GetValsetNonce _ => true
  | .GetValsetUpdatedEvents _ _ _ => true
  | .GetTxBatchNonce _ _ => true
  | .SendEthValsetUpdate _ _ _ _ => true
  | .SendTransactionBatch _ _ _ _ => true
  | _ => false

/-- Whether the step is a submission to the bridge contract. -/
def RelayerCall.isSubmission : RelayerCall → Bool
  | .SendEthValsetUpdate _ _ _ _ => true
  | .SendTransactionBatch _ _ _ _ => true
  | _ => false

/-- What a tick of a relayer duty leaves behind: the error returned, the world and the
steps made, in order. -/
structure RelayerResult (σ : Type) where
  err : Option Error
  world : σ
  calls : List RelayerCall

/-- What a stage of a relayer duty leaves behind: its value or error, the world and the
steps it made, in order. -/
structure Stage (σ α : Type) where
  val : Except Error α
  world : σ
  calls : List RelayerCall

/-! ## The relayer: the two duties, from the specification -/

/-- Modelled from the spec: section 4.2a, step 2. The valsets are taken in the order the
Injective chain returned them (newest first); the confirms of each are fetched; a valset
without confirms is skipped; the first valset with confirms is the candidate. A failed
fetch ends the stage with the error. -/
def firstConfirmedValset {σ : Type} (inj : RelayerInjectiveNetwork σ) :
    List Valset → σ → Stage σ (Option (Valset × List MsgValsetConfirm))
  | [], w => ⟨.ok none, w, []⟩
  | set :: rest, w =>
    match inj.AllValsetConfirms set.Nonce w with
    | (.error err, w1) => ⟨.error err, w1, [.AllValsetConfirms set.Nonce (.error err)]⟩
    | (.ok sigs, w1) =>
      if sigs.length = 0 then
        let next := firstConfirmedValset inj rest w1
        ⟨next.val, next.world, .AllValsetConfirms set.Nonce (.ok sigs) :: next.calls⟩
      else
        ⟨.ok (some (set, sigs)), w1, [.AllValsetConfirms set.Nonce (.ok sigs)]⟩

/-- Modelled from the spec: section 4.2b, step 2, the mirror of `firstConfirmedValset`
for batches, whose confirms are fetched by batch nonce and token contract. -/
def firstConfirmedBatch {σ : Type} (inj : RelayerInjectiveNetwork σ) :
    List OutgoingTxBatch → σ → Stage σ (Option (OutgoingTxBatch × List MsgConfirmBatch))
  | [], w => ⟨.ok none, w, []⟩
  | batch :: rest, w =>
    match inj.TransactionBatchSignatures batch.BatchNonce batch.TokenContract w with
    | (.error err, w1) =>
      ⟨.error err, w1,
        [.TransactionBatchSignatures batch.BatchNonce batch.TokenContract (.error err)]⟩
    | (.ok sigs, w1) =>
      if sigs.length = 0 then
        let next := firstConfirmedBatch inj rest w1
        ⟨next.val, next.world,
          .TransactionBatchSignatures batch.BatchNonce batch.TokenContract (.ok sigs) ::
            next.calls⟩
      else
        ⟨.ok (some (batch, sigs)), w1,
          [.TransactionBatchSignatures batch.BatchNonce batch.TokenContract (.ok sigs)]⟩

/-- The event with the highest `NewValsetNonce` (the earliest such event if several share
it); `none` for the empty list. -/
def highestValsetEvent : List PeggyValsetUpdatedEvent → Option PeggyValsetUpdatedEvent
  | [] => none
  | ev :: rest =>
    some (rest.foldl (fun best e => if best.NewValsetNonce < e.NewValsetNonce then e else best)
      ev)

/-- Modelled from the spec: section 4.2a, steps 3 to 5 (used again in 4.2b, step 5). The
head of the Ethereum chain and the valset nonce of the contract are read, then the
Injective valset at that nonce (the previous valset, whose members sign), then the
`ValsetUpdated` events of a backward window ending at the head; the event with the highest
nonce is the latest valset on Ethereum. The specification leaves the width of the window
open (`window`) and does not say what happens if the window holds no event; the stage then
ends with an error. -/
def latestValsetOnEth {σ : Type} (window : Nat) (inj : RelayerInjectiveNetwork σ)
    (eth : RelayerEthereumNetwork σ) (w : σ) : Stage σ (Valset × PeggyValsetUpdatedEvent) :=
  match eth.HeaderByNumber w with
  | (.error err, w1) => ⟨.error err, w1, [.HeaderByNumber (.error err)]⟩
  | (.ok header, w1) =>
    match eth.GetValsetNonce w1 with
    | (.error err, w2) =>
      ⟨.error err, w2, [.HeaderByNumber (.ok header), .GetValsetNonce (.error err)]⟩
    | (.ok valsetNonce, w2) =>
      match inj.ValsetAt valsetNonce w2 with
      | (.error err, w3) =>
        ⟨.error err, w3, [.HeaderByNumber (.ok header), .GetValsetNonce (.ok valsetNonce),
          .ValsetAt valsetNonce (.error err)]⟩
      | (.ok previous, w3) =>
        match eth.GetValsetUpdatedEvents (Uint64 header.Number - window)
            (Uint64 header.Number) w3 with
        | (.error err, w4) =>
          ⟨.error err, w4, [.HeaderByNumber (.ok header), .GetValsetNonce (.ok valsetNonce),
            .ValsetAt valsetNonce (.ok previous),
            .GetValsetUpdatedEvents (Uint64 header.Number - window) (Uint64 header.Number)
              (.error err)]⟩
        | (.ok events, w4) =>
          ⟨match highestValsetEvent events with
            | none => .error "no valset update found on Ethereum"
            | some latest => .ok (previous, latest),
            w4, [.HeaderByNumber (.ok header), .GetValsetNonce (.ok valsetNonce),
              .ValsetAt valsetNonce (.ok previous),
              .GetValsetUpdatedEvents (Uint64 header.Number - window) (Uint64 header.Number)
                (.ok events)]⟩

/-- Modelled from the spec: the offset gate (section 4.2a, step 7; section 4.2b, step 6).
The Injective block of the given height is fetched and the clock is read; the gate is open
(`true`) unless `now - block.time < offset`. -/
def offsetElapsed {σ : Type} (inj : RelayerInjectiveNetwork σ) (timeNow : σ → Int × σ)
    (height : Nat) (offset : Int) (w : σ) : Stage σ Bool :=
  match inj.GetBlock height w with
  | (.error err, w1) => ⟨.error err, w1, [.GetBlock height (.error err)]⟩
  | (.ok block, w1) =>
    match timeNow w1 with
    | (now, w2) =>
      ⟨.ok (decide (¬ now - block.Time < offset)), w2,
        [.GetBlock height (.ok block), .TimeNow now]⟩

/-- Modelled from the spec: the valset duty of the relayer, section 4.2a. The latest
valsets are fetched (step 1), the candidate is chosen (step 2; no candidate, no-op), the
state of the contract is read (steps 3 to 5), the candidate is dropped if its nonce is not
above the nonce of the latest valset on Ethereum (step 6) or if the offset since its
creation has not elapsed (step 7), and otherwise it is submitted with the previous valset
and its confirms (step 8). Every failed call is the error of the tick. -/
def relayValsets {σ : Type} (r : relayer) (window : Nat) (inj : RelayerInjectiveNetwork σ)
    (eth : RelayerEthereumNetwork σ) (timeNow : σ → Int × σ) (w0 : σ) : RelayerResult σ :=
  match inj.LatestValsets w0 with
  | (.error err, w1) => ⟨some err, w1, [.LatestValsets (.error err)]⟩
  | (.ok latestValsets, w1) =>
    let chosen := firstConfirmedValset inj latestValsets w1
    let calls1 := RelayerCall.LatestValsets (.ok latestValsets) :: chosen.calls
    match chosen.val with
    | .error err => ⟨some err, chosen.world, calls1⟩
    | .ok none => ⟨none, chosen.world, calls1⟩
    | .ok (some (candidate, confirms)) =>
      let onEth := latestValsetOnEth window inj eth chosen.world
      match onEth.val with
      | .error err => ⟨some err, onEth.world, calls1 ++ onEth.calls⟩
      | .ok (previous, latest) =>
        if candidate.Nonce ≤ latest.NewValsetNonce then
          ⟨none, onEth.world, calls1 ++ onEth.calls⟩
        else
          let gate := offsetElapsed inj timeNow candidate.Height r.relayValsetOffsetDur
            onEth.world
          match gate.val with
          | .error err => ⟨some err, gate.world, calls1 ++ onEth.calls ++ gate.calls⟩
          | .ok false => ⟨none, gate.world, calls1 ++ onEth.calls ++ gate.calls⟩
          | .ok true =>
            match eth.SendEthValsetUpdate candidate previous confirms gate.world with
            | (res, w5) =>
              ⟨res, w5, calls1 ++ onEth.calls ++ gate.calls ++
                [.SendEthValsetUpdate candidate previous confirms res]⟩

/-- Modelled from the spec: the batch duty of the relayer, section 4.2b. The latest
batches are fetched (step 1), the candidate is chosen (step 2; no candidate, no-op), the
batch nonce of the contract for the token of the candidate is read (step 3), the candidate
is dropped if its nonce is not above it (step 4), the state of the contract is read
(step 5), the candidate is dropped if the offset since its creation has not elapsed
(step 6), and otherwise it is submitted with the signing valset and its confirms
(step 7). Every failed call is the error of the tick. -/
def relayBatches {σ : Type} (r : relayer) (window : Nat) (inj : RelayerInjectiveNetwork σ)
    (eth : RelayerEthereumNetwork σ) (timeNow : σ → Int × σ) (w0 : σ) : RelayerResult σ :=
  match inj.LatestTransactionBatches w0 with
  | (.error err, w1) => ⟨some err, w1, [.LatestTransactionBatches (.error err)]⟩
  | (.ok latestBatches, w1) =>
    let chosen := firstConfirmedBatch inj latestBatches w1
    let calls1 := RelayerCall.LatestTransactionBatches (.ok latestBatches) :: chosen.calls
    match chosen.val with
    | .error err => ⟨some err, chosen.world, calls1⟩
    | .ok none => ⟨none, chosen.world, calls1⟩
    | .ok (some (candidate, confirms)) =>
      match eth.GetTxBatchNonce candidate.TokenContract chosen.world with
      | (.error err, w2) =>
        ⟨some err, w2, calls1 ++ [.GetTxBatchNonce candidate.TokenContract (.error err)]⟩
      | (.ok onChainNonce, w2) =>
        let calls2 := calls1 ++ [.GetTxBatchNonce candidate.TokenContract (.ok onChainNonce)]
        if candidate.BatchNonce ≤ onChainNonce then ⟨none, w2, calls2⟩
        else
          let onEth := latestValsetOnEth window inj eth w2
          match onEth.val with
          | .error err => ⟨some err, onEth.world, calls2 ++ onEth.calls⟩
          | .ok (valset, _) =>
            let gate := offsetElapsed inj timeNow candidate.Block r.relayBatchOffsetDur
              onEth.world
            match gate.val with
            | .error err => ⟨some err, gate.world, calls2 ++ onEth.calls ++ gate.calls⟩
            | .ok false => ⟨none, gate.world, calls2 ++ onEth.calls ++ gate.calls⟩
            | .ok true =>
              match eth.SendTransactionBatch valset candidate confirms gate.world with
              | (res, w5) =>
                ⟨res, w5, calls2 ++ onEth.calls ++ gate.calls ++
                  [.SendTransactionBatch valset candidate confirms res]⟩

/-! ## Scripted clients for the relayer

The clients of `relayer_test.go`: one valset or batch on the Injective chain, one confirm
(or none), the candidate's block at a scripted time, and a contract whose latest
`ValsetUpdated` event and batch nonce are scripted. -/

/-- A valset with the given nonce, as in the tests (reward 1000). -/
def testValset (nonce : Nat) : Valset :=
  ⟨nonce, [], [], 0, 1000, "0xfafafafafafafafa"⟩

/-- The single confirm of the tests. -/
def testValsetConfirm : MsgValsetConfirm := ⟨5, "orch", "eth", "sig"⟩

/-- A batch of the token `tokenContract` with the given nonce, as in the tests. -/
def testBatch (nonce : Nat) : OutgoingTxBatch := ⟨nonce, "tokenContract", [], 0, 0⟩

/-- The Injective node of the tests: one valset and one batch, each with the scripted
confirms, the valset 333 at every nonce asked for, and blocks of the scripted time. -/
def testInjective (valsetNonce batchNonce : Nat) (valsetConfirms : List MsgValsetConfirm)
    (batchConfirms : List MsgConfirmBatch) (blockTime : Int) :
    RelayerInjectiveNetwork Unit where
  LatestValsets := fun w => (.ok [testValset valsetNonce], w)
  AllValsetConfirms := fun _ w => (.ok valsetConfirms, w)
  ValsetAt := fun _ w => (.ok (testValset 333), w)
  GetBlock := fun _ w => (.ok ⟨blockTime⟩, w)
  LatestTransactionBatches := fun w => (.ok [testBatch batchNonce], w)
  TransactionBatchSignatures := fun _ _ w => (.ok batchConfirms, w)

/-- The Ethereum node of the tests: head 123, contract valset nonce 100, one
`ValsetUpdated` event with the scripted nonce, the scripted batch nonce, and submissions
that are accepted. -/
def testEthereum (eventValsetNonce txBatchNonce : Nat) : RelayerEthereumNetwork Unit where
  HeaderByNumber := fun w => (.ok ⟨123⟩, w)
  GetValsetNonce := fun w => (.ok 100, w)
  GetValsetUpdatedEvents := fun _ _ w => (.ok [⟨0, 0, "", eventValsetNonce⟩], w)
  GetTxBatchNonce := fun _ w => (.ok txBatchNonce, w)
  SendEthValsetUpdate := fun _ _ _ w => (none, w)
  SendTransactionBatch := fun _ _ _ w => (none, w)

/-- An Ethereum node that answers every call with an error. -/
def downEthereum : RelayerEthereumNetwork Unit where
  HeaderByNumber := fun w => (.error "down", w)
  GetValsetNonce := fun w => (.error "down", w)
  GetValsetUpdatedEvents := fun _ _ w => (.error "down", w)
  GetTxBatchNonce := fun _ w => (.error "down", w)
  SendEthValsetUpdate := fun _ _ _ w => (some "down", w)
  SendTransactionBatch := fun _ _ _ w => (some "down", w)

/-- The relayer of the tests: both duties on, both offsets five seconds. -/
def testRelayer : relayer := ⟨1, true, true, 5000000000, 5000000000⟩

/-! ## Scripted clients for the resync

An Injective node that is down for some of its last claim reads: the world state counts the
last claim reads made so far, and the reads whose number is listed in `down` fail. The
chain has its head at 1000 and no events. -/

/-- An orchestrator whose last claim reads fail when their number (from 0) is in `down`
and answer with nonce 9 and height 905 otherwise. -/
def flakyOrchestrator (down : List Nat) (maxAttempts : Nat) : PeggyOrchestrator Nat where
  injective :=
    { PeggyParams := fun w => (.ok ⟨800⟩, w)
      LastClaimEvent := fun w => (if w ∈ down then .error "down" else .ok ⟨9, 905⟩, w + 1)
      SendEthereumClaims := fun _ _ _ _ _ _ w => (none, w) }
  ethereum :=
    { HeaderByNumber := fun w => (.ok ⟨1000⟩, w)
      GetSendToCosmosEvents := fun _ _ w => (.ok [], w)
      GetSendToInjectiveEvents := fun _ _ w => (.ok [], w)
      GetTransactionBatchExecutedEvents := fun _ _ w => (.ok [], w)
      GetPeggyERC20DeployedEvents := fun _ _ w => (.ok [], w)
      GetValsetUpdatedEvents := fun _ _ w => (.ok [], w) }
  maxAttempts := maxAttempts

/-- A clock that always shows the same time, over the counting world. -/
def countingClock (now : Int) : Nat → Int × Nat := fun w => (now, w)

/-! ## Vocabulary for the algebra of the filters -/

/-- The laws of a nonce filter `filter` over events whose nonce is read by `nonceOf`:
filtering by `n` and then by `m` is filtering by the larger of the two; filtering twice by
the same nonce is filtering once; a higher nonce keeps a sublist of what a lower one keeps;
a nonce that no event exceeds leaves nothing; a nonce that every event exceeds leaves the
list as it is. -/
def NonceFilterLaws {α : Type} (nonceOf : α → Nat) (filter : List α → Nat → List α) : Prop :=
  ∀ (xs : List α) (n m : Nat),
    filter (filter xs n) m = filter xs (max n m) ∧
    filter (filter xs n) n = filter xs n ∧
    (n ≤ m → (filter xs m).Sublist (filter xs n)) ∧
    ((∀ ev ∈ xs, nonceOf ev ≤ n) → filter xs n = []) ∧
    ((∀ ev ∈ xs, n < nonceOf ev) → filter xs n = xs)

/-! ## Lemmas on the filters -/

/-- The accumulating loop of the five filters computes `List.filter`. -/
lemma foldl_keep_eq_filter {α : Type} (p : α → Prop) [DecidablePred p] (xs acc : List α) :
    xs.foldl (fun res ev => if p ev then res ++ [ev] else res) acc
      = acc ++ xs.filter (fun ev => decide (p ev)) := by
  induction xs generalizing acc with
  | nil => simp
  | cons x xs ih =>
    by_cases hx : p x
    · simp [List.foldl_cons, ih, hx]
    · simp [List.foldl_cons, ih, hx]

lemma filterSendToCosmosEventsByNonce_eq (xs : List PeggySendToCosmosEvent) (n : Nat) :
    filterSendToCosmosEventsByNonce xs n
      = xs.filter (fun ev => decide (n < Uint64 ev.EventNonce)) := by
  unfold filterSendToCosmosEventsByNonce
  rw [foldl_keep_eq_filter (fun ev : PeggySendToCosmosEvent => Uint64 ev.EventNonce > n)]
  simp

lemma filterSendToInjectiveEventsByNonce_eq (xs : List PeggySendToInjectiveEvent) (n : Nat) :
    filterSendToInjectiveEventsByNonce xs n
      = xs.filter (fun ev => decide (n < Uint64 ev.EventNonce)) := by
  unfold filterSendToInjectiveEventsByNonce
  rw [foldl_keep_eq_filter (fun ev : PeggySendToInjectiveEvent => Uint64 ev.EventNonce > n)]
  simp

lemma filterTransactionBatchExecutedEventsByNonce_eq
    (xs : List PeggyTransactionBatchExecutedEvent) (n : Nat) :
    filterTransactionBatchExecutedEventsByNonce xs n
      = xs.filter (fun ev => decide (n < Uint64 ev.EventNonce)) := by
  unfold filterTransactionBatchExecutedEventsByNonce
  rw [foldl_keep_eq_filter
    (fun ev : PeggyTransactionBatchExecutedEvent => Uint64 ev.EventNonce > n)]
  simp

lemma filterERC20DeployedEventsByNonce_eq (xs : List PeggyERC20DeployedEvent) (n : Nat) :
    filterERC20DeployedEventsByNonce xs n
      = xs.filter (fun ev => decide (n < Uint64 ev.EventNonce)) := by
  unfold filterERC20DeployedEventsByNonce
  rw [foldl_keep_eq_filter (fun ev : PeggyERC20DeployedEvent => Uint64 ev.EventNonce > n)]
  simp

lemma filterValsetUpdateEventsByNonce_eq (xs : List PeggyValsetUpdatedEvent) (n : Nat) :
    filterValsetUpdateEventsByNonce xs n
      = xs.filter (fun ev => decide (n < Uint64 ev.EventNonce)) := by
  unfold filterValsetUpdateEventsByNonce
  rw [foldl_keep_eq_filter (fun ev : PeggyValsetUpdatedEvent => Uint64 ev.EventNonce > n)]
  simp

/-! ## Lemmas on the `uint64` arithmetic of the scan window -/

lemma Uint64_lt (x : Nat) : Uint64 x < 2 ^ 64 := Nat.mod_lt _ (by norm_num)

lemma subU64_delay_of_le (h : Nat) (h12 : 12 ≤ h) (hlt : h < 2 ^ 64) :
    subU64 h ethBlockConfirmationDelay = h - 12 := by
  unfold subU64 ethBlockConfirmationDelay
  rw [Nat.mod_eq_of_lt hlt]
  omega

lemma addU64_le (a b : Nat) : addU64 a b ≤ a + b := Nat.mod_le _ _

lemma addU64_search_of_lt (s : Nat) (hs : s + 20 < 2 ^ 64) :
    addU64 s defaultBlocksToSearch = s + 20 := by
  unfold addU64 defaultBlocksToSearch
  exact Nat.mod_eq_of_lt hs

/-! ## The runs of `relayEthEvents` -/

/-- The upper end of the scan window: the confirmed head, clipped to the search width. -/
lemma window_end_le (cur start : Nat) :
    (if cur > addU64 start defaultBlocksToSearch then addU64 start defaultBlocksToSearch
      else cur) ≤ cur ∧
    (if cur > addU64 start defaultBlocksToSearch then addU64 start defaultBlocksToSearch
      else cur) ≤ start + 20 := by
  have h := addU64_le start defaultBlocksToSearch
  unfold defaultBlocksToSearch at *
  split <;> omega

/-- The part of `relayEthEvents` after the five event fetches have succeeded. -/
lemma relayEthEvents_fetched {σ : Type} (s : PeggyOrchestrator σ) (start : Nat)
    (w w1 w2 w3 w4 w5 w6 : σ) (hdr : Header) (cur : Nat)
    (l1 : List PeggySendToCosmosEvent) (l2 : List PeggySendToInjectiveEvent)
    (l3 : List PeggyTransactionBatchExecutedEvent) (l4 : List PeggyERC20DeployedEvent)
    (l5 : List PeggyValsetUpdatedEvent)
    (h0 : s.ethereum.HeaderByNumber w = (.ok hdr, w1))
    (hlag : ¬ subU64 (Uint64 hdr.Number) ethBlockConfirmationDelay < start)
    (hcur : cur = if subU64 (Uint64 hdr.Number) ethBlockConfirmationDelay
        > addU64 start defaultBlocksToSearch then addU64 start defaultBlocksToSearch
      else subU64 (Uint64 hdr.Number) ethBlockConfirmationDelay)
    (h1 : s.ethereum.GetSendToCosmosEvents start cur w1 = (.ok l1, w2))
    (h2 : s.ethereum.GetSendToInjectiveEvents start cur w2 = (.ok l2, w3))
    (h3 : s.ethereum.GetTransactionBatchExecutedEvents start cur w3 = (.ok l3, w4))
    (h4 : s.ethereum.GetPeggyERC20DeployedEvents start cur w4 = (.ok l4, w5))
    (h5 : s.ethereum.GetValsetUpdatedEvents start cur w5 = (.ok l5, w6)) :
    relayEthEvents s start w =
      match s.injective.LastClaimEvent w6 with
      | (.error err, w7) =>
        ⟨0, some "failed to query last claim event from Injective", w7,
          readsLog hdr start cur l1 l2 l3 l4 l5 ++ [.LastClaimEvent (.error err)]⟩
      | (.ok lc, w7) =>
        if filterSendToCosmosEventsByNonce l1 lc.EthereumEventNonce ≠ [] ∨
            filterSendToInjectiveEventsByNonce l2 lc.EthereumEventNonce ≠ [] ∨
            filterTransactionBatchExecutedEventsByNonce l3 lc.EthereumEventNonce ≠ [] ∨
            filterERC20DeployedEventsByNonce l4 lc.EthereumEventNonce ≠ [] ∨
            filterValsetUpdateEventsByNonce l5 lc.EthereumEventNonce ≠ [] then
          match s.injective.SendEthereumClaims lc.EthereumEventNonce
              (filterSendToCosmosEventsByNonce l1 lc.EthereumEventNonce)
              (filterSendToInjectiveEventsByNonce l2 lc.EthereumEventNonce)
              (filterTransactionBatchExecutedEventsByNonce l3 lc.EthereumEventNonce)
              (filterERC20DeployedEventsByNonce l4 lc.EthereumEventNonce)
              (filterValsetUpdateEventsByNonce l5 lc.EthereumEventNonce) w7 with
          | (res, w8) =>
            ⟨if res = none then cur else 0,
              res.map (fun err => errorsWrap err "failed to send event claims to Injective"),
              w8,
              readsLog hdr start cur l1 l2 l3 l4 l5 ++ [.LastClaimEvent (.ok lc),
                .SendEthereumClaims lc.EthereumEventNonce
                  (filterSendToCosmosEventsByNonce l1 lc.EthereumEventNonce)
                  (filterSendToInjectiveEventsByNonce l2 lc.EthereumEventNonce)
                  (filterTransactionBatchExecutedEventsByNonce l3 lc.EthereumEventNonce)
                  (filterERC20DeployedEventsByNonce l4 lc.EthereumEventNonce)
                  (filterValsetUpdateEventsByNonce l5 lc.EthereumEventNonce) res]⟩
        else
          ⟨cur, none, w7, readsLog hdr start cur l1 l2 l3 l4 l5 ++ [.LastClaimEvent (.ok lc)]⟩ := by
  unfold relayEthEvents
  simp only [h0]
  rw [← hcur]
  simp only [hlag, if_false, h1, h2, h3, h4, h5, readsLog]
  rcases h6 : s.injective.LastClaimEvent w6 with ⟨err | lc, w7⟩
  · rfl
  · simp only [List.length_pos, ne_eq]
    split
    · rcases h7 : s.injective.SendEthereumClaims lc.EthereumEventNonce
        (filterSendToCosmosEventsByNonce l1 lc.EthereumEventNonce)
        (filterSendToInjectiveEventsByNonce l2 lc.EthereumEventNonce)
        (filterTransactionBatchExecutedEventsByNonce l3 lc.EthereumEventNonce)
        (filterERC20DeployedEventsByNonce l4 lc.EthereumEventNonce)
        (filterValsetUpdateEventsByNonce l5 lc.EthereumEventNonce) w7 with ⟨_ | err, w8⟩
      · simp [h7]
      · simp [h7]
    · rfl

/-- Every run of `relayEthEvents` is one of ten: the header read fails, the confirmed
head lies below the cursor, one of the five event fetches fails, the last claim read fails,
nothing passes the nonce filter, or a claim is submitted. -/
lemma relayEthEvents_cases {σ : Type} (s : PeggyOrchestrator σ) (start : Nat) (w : σ) :
    (∃ err w1, s.ethereum.HeaderByNumber w = (.error err, w1) ∧
      relayEthEvents s start w =
        ⟨0, some (errorsWrap err "failed to get latest ethereum header"), w1,
          [.HeaderByNumber (.error err)]⟩) ∨
    (∃ hdr w1, s.ethereum.HeaderByNumber w = (.ok hdr, w1) ∧
      subU64 (Uint64 hdr.Number) ethBlockConfirmationDelay < start ∧
      relayEthEvents s start w =
        ⟨subU64 (Uint64 hdr.Number) ethBlockConfirmationDelay, none, w1,
          [.HeaderByNumber (.ok hdr)]⟩) ∨
    (∃ hdr w1 cur, s.ethereum.HeaderByNumber w = (.ok hdr, w1) ∧
      ¬ subU64 (Uint64 hdr.Number) ethBlockConfirmationDelay < start ∧
      (cur = if subU64 (Uint64 hdr.Number) ethBlockConfirmationDelay
          > addU64 start defaultBlocksToSearch then addU64 start defaultBlocksToSearch
        else subU64 (Uint64 hdr.Number) ethBlockConfirmationDelay) ∧
      ((∃ err w2, s.ethereum.GetSendToCosmosEvents start cur w1 = (.error err, w2) ∧
          relayEthEvents s start w =
            ⟨0, some (errorsWrap err "failed to get SendToCosmos events"), w2,
              [.HeaderByNumber (.ok hdr), .GetSendToCosmosEvents start cur (.error err)]⟩) ∨
       (∃ l1 w2 err w3, s.ethereum.GetSendToCosmosEvents start cur w1 = (.ok l1, w2) ∧
          s.ethereum.GetSendToInjectiveEvents start cur w2 = (.error err, w3) ∧
          relayEthEvents s start w =
            ⟨0, some (errorsWrap err "failed to get SendToInjective events"), w3,
              [.HeaderByNumber (.ok hdr), .GetSendToCosmosEvents start cur (.ok l1),
                .GetSendToInjectiveEvents start cur (.error err)]⟩) ∨
       (∃ l1 w2 l2 w3 err w4, s.ethereum.GetSendToCosmosEvents start cur w1 = (.ok l1, w2) ∧
          s.ethereum.GetSendToInjectiveEvents start cur w2 = (.ok l2, w3) ∧
          s.ethereum.GetTransactionBatchExecutedEvents start cur w3 = (.error err, w4) ∧
          relayEthEvents s start w =
            ⟨0, some (errorsWrap err "failed to get TransactionBatchExecuted events"), w4,
              [.HeaderByNumber (.ok hdr), .GetSendToCosmosEvents start cur (.ok l1),
                .GetSendToInjectiveEvents start cur (.ok l2),
                .GetTransactionBatchExecutedEvents start cur (.error err)]⟩) ∨
       (∃ l1 w2 l2 w3 l3 w4 err w5,
          s.ethereum.GetSendToCosmosEvents start cur w1 = (.ok l1, w2) ∧
          s.ethereum.GetSendToInjectiveEvents start cur w2 = (.ok l2, w3) ∧
          s.ethereum.GetTransactionBatchExecutedEvents start cur w3 = (.ok l3, w4) ∧
          s.ethereum.GetPeggyERC20DeployedEvents start cur w4 = (.error err, w5) ∧
          relayEthEvents s start w =
            ⟨0, some (errorsWrap err "failed to get ERC20Deployed events"), w5,
              [.HeaderByNumber (.ok hdr), .GetSendToCosmosEvents start cur (.ok l1),
                .GetSendToInjectiveEvents start cur (.ok l2),
                .GetTransactionBatchExecutedEvents start cur (.ok l3),
                .GetPeggyERC20DeployedEvents start cur (.error err)]⟩) ∨
       (∃ l1 w2 l2 w3 l3 w4 l4 w5 err w6,
          s.ethereum.GetSendToCosmosEvents start cur w1 = (.ok l1, w2) ∧
          s.ethereum.GetSendToInjectiveEvents start cur w2 = (.ok l2, w3) ∧
          s.ethereum.GetTransactionBatchExecutedEvents start cur w3 = (.ok l3, w4) ∧
          s.ethereum.GetPeggyERC20DeployedEvents start cur w4 = (.ok l4, w5) ∧
          s.ethereum.GetValsetUpdatedEvents start cur w5 = (.error err, w6) ∧
          relayEthEvents s start w =
            ⟨0, some (errorsWrap err "failed to get ValsetUpdated events"), w6,
              [.HeaderByNumber (.ok hdr), .GetSendToCosmosEvents start cur (.ok l1),
                .GetSendToInjectiveEvents start cur (.ok l2),
                .GetTransactionBatchExecutedEvents start cur (.ok l3),
                .GetPeggyERC20DeployedEvents start cur (.ok l4),
                .GetValsetUpdatedEvents start cur (.error err)]⟩) ∨
       (∃ l1 w2 l2 w3 l3 w4 l4 w5 l5 w6,
          s.ethereum.GetSendToCosmosEvents start cur w1 = (.ok l1, w2) ∧
          s.ethereum.GetSendToInjectiveEvents start cur w2 = (.ok l2, w3) ∧
          s.ethereum.GetTransactionBatchExecutedEvents start cur w3 = (.ok l3, w4) ∧
          s.ethereum.GetPeggyERC20DeployedEvents start cur w4 = (.ok l4, w5) ∧
          s.ethereum.GetValsetUpdatedEvents start cur w5 = (.ok l5, w6) ∧
          ((∃ err w7, s.injective.LastClaimEvent w6 = (.error err, w7) ∧
              relayEthEvents s start w =
                ⟨0, some "failed to query last claim event from Injective", w7,
                  readsLog hdr start cur l1 l2 l3 l4 l5 ++ [.LastClaimEvent (.error err)]⟩) ∨
           (∃ lc w7, s.injective.LastClaimEvent w6 = (.ok lc, w7) ∧
              ¬ (filterSendToCosmosEventsByNonce l1 lc.EthereumEventNonce ≠ [] ∨
                filterSendToInjectiveEventsByNonce l2 lc.EthereumEventNonce ≠ [] ∨
                filterTransactionBatchExecutedEventsByNonce l3 lc.EthereumEventNonce ≠ [] ∨
                filterERC20DeployedEventsByNonce l4 lc.EthereumEventNonce ≠ [] ∨
                filterValsetUpdateEventsByNonce l5 lc.EthereumEventNonce ≠ []) ∧
              relayEthEvents s start w =
                ⟨cur, none, w7,
                  readsLog hdr start cur l1 l2 l3 l4 l5 ++ [.LastClaimEvent (.ok lc)]⟩) ∨
           (∃ lc w7 res w8, s.injective.LastClaimEvent w6 = (.ok lc, w7) ∧
              (filterSendToCosmosEventsByNonce l1 lc.EthereumEventNonce ≠ [] ∨
                filterSendToInjectiveEventsByNonce l2 lc.EthereumEventNonce ≠ [] ∨
                filterTransactionBatchExecutedEventsByNonce l3 lc.EthereumEventNonce ≠ [] ∨
                filterERC20DeployedEventsByNonce l4 lc.EthereumEventNonce ≠ [] ∨
                filterValsetUpdateEventsByNonce l5 lc.EthereumEventNonce ≠ []) ∧
              s.injective.SendEthereumClaims lc.EthereumEventNonce
                (filterSendToCosmosEventsByNonce l1 lc.EthereumEventNonce)
                (filterSendToInjectiveEventsByNonce l2 lc.EthereumEventNonce)
                (filterTransactionBatchExecutedEventsByNonce l3 lc.EthereumEventNonce)
                (filterERC20DeployedEventsByNonce l4 lc.EthereumEventNonce)
                (filterValsetUpdateEventsByNonce l5 lc.EthereumEventNonce) w7 = (res, w8) ∧
              relayEthEvents s start w =
                ⟨if res = none then cur else 0,
                  res.map (fun err => errorsWrap err "failed to send event claims to Injective"),
                  w8,
                  readsLog hdr start cur l1 l2 l3 l4 l5 ++ [.LastClaimEvent (.ok lc),
                    .SendEthereumClaims lc.EthereumEventNonce
                      (filterSendToCosmosEventsByNonce l1 lc.EthereumEventNonce)
                      (filterSendToInjectiveEventsByNonce l2 lc.EthereumEventNonce)
                      (filterTransactionBatchExecutedEventsByNonce l3 lc.EthereumEventNonce)
                      (filterERC20DeployedEventsByNonce l4 lc.EthereumEventNonce)
                      (filterValsetUpdateEventsByNonce l5 lc.EthereumEventNonce) res]⟩))))) := by
  rcases h0 : s.ethereum.HeaderByNumber w with ⟨err | hdr, w1⟩
  · left
    exact ⟨err, w1, rfl, by unfold relayEthEvents; simp only [h0]⟩
  right
  by_cases hlag : subU64 (Uint64 hdr.Number) ethBlockConfirmationDelay < start
  · left
    exact ⟨hdr, w1, rfl, hlag, by unfold relayEthEvents; simp only [h0, hlag, if_true]⟩
  right
  refine ⟨hdr, w1, _, rfl, hlag, rfl, ?_⟩
  generalize hcur : (if subU64 (Uint64 hdr.Number) ethBlockConfirmationDelay
      > addU64 start defaultBlocksToSearch then addU64 start defaultBlocksToSearch
    else subU64 (Uint64 hdr.Number) ethBlockConfirmationDelay) = cur
  rcases h1 : s.ethereum.GetSendToCosmosEvents start cur w1 with ⟨err | l1, w2⟩
  · left
    refine ⟨err, w2, rfl, ?_⟩
    unfold relayEthEvents
    simp only [h0, hlag, if_false, hcur, h1]
  right
  rcases h2 : s.ethereum.GetSendToInjectiveEvents start cur w2 with ⟨err | l2, w3⟩
  · left
    refine ⟨l1, w2, err, w3, rfl, h2, ?_⟩
    unfold relayEthEvents
    simp only [h0, hlag, if_false, hcur, h1, h2]
  right
  rcases h3 : s.ethereum.GetTransactionBatchExecutedEvents start cur w3 with ⟨err | l3, w4⟩
  · left
    refine ⟨l1, w2, l2, w3, err, w4, rfl, h2, h3, ?_⟩
    unfold relayEthEvents
    simp only [h0, hlag, if_false, hcur, h1, h2, h3]
  right
  rcases h4 : s.ethereum.GetPeggyERC20DeployedEvents start cur w4 with ⟨err | l4, w5⟩
  · left
    refine ⟨l1, w2, l2, w3, l3, w4, err, w5, rfl, h2, h3, h4, ?_⟩
    unfold relayEthEvents
    simp only [h0, hlag, if_false, hcur, h1, h2, h3, h4]
  right
  rcases h5 : s.ethereum.GetValsetUpdatedEvents start cur w5 with ⟨err | l5, w6⟩
  · left
    refine ⟨l1, w2, l2, w3, l3, w4, l4, w5, err, w6, rfl, h2, h3, h4, h5, ?_⟩
    unfold relayEthEvents
    simp only [h0, hlag, if_false, hcur, h1, h2, h3, h4, h5]
  right
  refine ⟨l1, w2, l2, w3, l3, w4, l4, w5, l5, w6, rfl, h2, h3, h4, h5, ?_⟩
  have hrun := relayEthEvents_fetched s start w w1 w2 w3 w4 w5 w6 hdr cur l1 l2 l3 l4 l5
    h0 hlag hcur.symm h1 h2 h3 h4 h5
  rcases h6 : s.injective.LastClaimEvent w6 with ⟨err | lc, w7⟩
  · left
    refine ⟨err, w7, rfl, ?_⟩
    rw [hrun, h6]
  right
  rw [h6] at hrun
  by_cases hany : filterSendToCosmosEventsByNonce l1 lc.EthereumEventNonce ≠ [] ∨
      filterSendToInjectiveEventsByNonce l2 lc.EthereumEventNonce ≠ [] ∨
      filterTransactionBatchExecutedEventsByNonce l3 lc.EthereumEventNonce ≠ [] ∨
      filterERC20DeployedEventsByNonce l4 lc.EthereumEventNonce ≠ [] ∨
      filterValsetUpdateEventsByNonce l5 lc.EthereumEventNonce ≠ []
  · right
    rcases h7 : s.injective.SendEthereumClaims lc.EthereumEventNonce
      (filterSendToCosmosEventsByNonce l1 lc.EthereumEventNonce)
      (filterSendToInjectiveEventsByNonce l2 lc.EthereumEventNonce)
      (filterTransactionBatchExecutedEventsByNonce l3 lc.EthereumEventNonce)
      (filterERC20DeployedEventsByNonce l4 lc.EthereumEventNonce)
      (filterValsetUpdateEventsByNonce l5 lc.EthereumEventNonce) w7 with ⟨res, w8⟩
    refine ⟨lc, w7, res, w8, rfl, hany, h7, ?_⟩
    rw [hrun]
    simp only [hany, if_true, h7]
  · left
    refine ⟨lc, w7, rfl, hany, ?_⟩
    rw [hrun]
    simp only [hany, if_false]

/-- The window end written with `min`. -/
lemma window_end_eq_min (cur lim : Nat) : (if cur > lim then lim else cur) = min cur lim := by
  split <;> omega

/-- A scan that returns no error returns the confirmed head if that lies below the cursor,
and the end of the scan window otherwise. -/
lemma relayEthEvents_height_of_ok {σ : Type} (s : PeggyOrchestrator σ) (start : Nat) (w : σ)
    (hok : (relayEthEvents s start w).err = none) :
    ∃ hdr w1, s.ethereum.HeaderByNumber w = (.ok hdr, w1) ∧
      (relayEthEvents s start w).height =
        if subU64 (Uint64 hdr.Number) ethBlockConfirmationDelay < start then
          subU64 (Uint64 hdr.Number) ethBlockConfirmationDelay
        else min (subU64 (Uint64 hdr.Number) ethBlockConfirmationDelay)
          (addU64 start defaultBlocksToSearch) := by
  rcases relayEthEvents_cases s start w with
    ⟨err, w1, h0, hr⟩ | ⟨hdr, w1, h0, hlag, hr⟩ | ⟨hdr, w1, cur, h0, hlag, hcur, hrest⟩
  · rw [hr] at hok; simp at hok
  · exact ⟨hdr, w1, h0, by rw [hr]; simp [hlag]⟩
  · refine ⟨hdr, w1, h0, ?_⟩
    rw [window_end_eq_min] at hcur
    rw [if_neg hlag, ← hcur]
    rcases hrest with ⟨err, w2, _, hr⟩ | ⟨l1, w2, err, w3, _, _, hr⟩ |
      ⟨l1, w2, l2, w3, err, w4, _, _, _, hr⟩ |
      ⟨l1, w2, l2, w3, l3, w4, err, w5, _, _, _, _, hr⟩ |
      ⟨l1, w2, l2, w3, l3, w4, l4, w5, err, w6, _, _, _, _, _, hr⟩ |
      ⟨l1, w2, l2, w3, l3, w4, l4, w5, l5, w6, _, _, _, _, _, hlast⟩
    · rw [hr] at hok; simp at hok
    · rw [hr] at hok; simp at hok
    · rw [hr] at hok; simp at hok
    · rw [hr] at hok; simp at hok
    · rw [hr] at hok; simp at hok
    · rcases hlast with ⟨err, w7, _, hr⟩ | ⟨lc, w7, _, _, hr⟩ | ⟨lc, w7, res, w8, _, _, _, hr⟩
      · rw [hr] at hok; simp at hok
      · rw [hr]
      · rw [hr] at hok ⊢
        cases res with
        | none => simp
        | some e => simp at hok

/-! ## Lemmas on the retry and the loop body -/

/-- A retry that ends without error ends with a successful run of the retried function. -/
lemma retryLoop_ok {S : Type} (fn : S → Option Error × S) (n : Nat) (errorLog : List Error)
    (st st1 : S) (h : retryLoop fn n errorLog st = (none, st1)) :
    ∃ st0, fn st0 = (none, st1) := by
  induction n generalizing errorLog st with
  | zero => simp [retryLoop] at h
  | succ n ih =>
    rcases hf : fn st with ⟨_ | err, st2⟩
    · simp only [retryLoop, hf] at h
      exact ⟨st, by rw [hf, (Prod.mk.inj h).2]⟩
    · simp only [retryLoop, hf] at h
      exact ih _ _ h

/-- With at least one attempt allowed, a first run that succeeds ends the retry. -/
lemma retryDo_first_ok {S : Type} (fn : S → Option Error × S) (n : Nat) (hn : 0 < n)
    (st st1 : S) (h : fn st = (none, st1)) : retryDo fn n st = (none, st1) := by
  obtain ⟨k, rfl⟩ : ∃ k, n = k + 1 := ⟨n - 1, by omega⟩
  simp [retryDo, retryLoop, h]

/-- A tick on which the clock never shows the resync as due and which returns no error
leaves the cursor at the height returned by a scan that succeeded from the old cursor. -/
lemma loopBody_ok_no_resync {σ : Type} (s : PeggyOrchestrator σ) (timeNow : σ → Int × σ)
    (st : LoopState) (w : σ)
    (hfresh : ∀ w1, (timeNow w1).1 - st.lastResync < resyncInterval)
    (hok : (loopBody s timeNow st w).err = none) :
    ∃ w0, (relayEthEvents s st.lastConfirmedEthHeight w0).err = none ∧
      (loopBody s timeNow st w).state.lastConfirmedEthHeight =
        (relayEthEvents s st.lastConfirmedEthHeight w0).height ∧
      (loopBody s timeNow st w).state.lastResync = st.lastResync := by
  unfold loopBody at hok ⊢
  rcases hr : retryDo (relayAttempt s st.lastConfirmedEthHeight) s.maxAttempts (0, w, [])
    with ⟨_ | errs, cur, w1, calls⟩
  · obtain ⟨st0, hst0⟩ := retryLoop_ok _ _ _ _ _ hr
    have hnot : ¬ (timeNow w1).1 - st.lastResync ≥ resyncInterval := by
      have := hfresh w1
      omega
    refine ⟨st0.2.1, ?_, ?_, ?_⟩
    · have := congrArg Prod.fst hst0
      simpa [relayAttempt] using this
    · have := congrArg (fun p => p.2.1) hst0
      simp only [relayAttempt] at this
      simp only [hnot, if_false]
      exact this.symm
    · simp only [hnot, if_false]
  · rw [hr] at hok
    simp at hok

/-! ## Claims on the oracle loop -/

/-- C1: with a head below the confirmation depth the scan is not a no-op. At head 5 and
cursor 0, with a deposit of nonce 1 in block 3 and a last claim of nonce 0, the wrapped
difference `5 - 12` passes the guard and is clipped to 20: all five event fetches are
issued for the blocks 0 to 20, the deposit of block 3 is submitted as a claim, and the
height 20 is returned. -/
theorem relayEthEvents_head_below_delay_scans :
    relayEthEvents (scriptedOrchestrator 5 [⟨1, 3, "d"⟩] ⟨0, 0⟩) 0 () =
      ⟨20, none, (),
        [.HeaderByNumber (.ok ⟨5⟩), .GetSendToCosmosEvents 0 20 (.ok []),
          .GetSendToInjectiveEvents 0 20 (.ok [⟨1, 3, "d"⟩]),
          .GetTransactionBatchExecutedEvents 0 20 (.ok []),
          .GetPeggyERC20DeployedEvents 0 20 (.ok []),
          .GetValsetUpdatedEvents 0 20 (.ok []),
          .LastClaimEvent (.ok ⟨0, 0⟩),
          .SendEthereumClaims 0 [] [⟨1, 3, "d"⟩] [] [] [] none]⟩ := by
  rfl

/-- C2, as stated, fails: at head 100 and cursor 900, with the resync not due (the clock
shows 5, the last resync was at 0), the tick returns no error and moves the cursor down
to 88. -/
theorem loopBody_cursor_can_decrease :
    (5 : Int) - 0 < resyncInterval ∧
    (loopBody (scriptedOrchestrator 100 [] ⟨0, 0⟩) (fixedClock 5) ⟨900, 0⟩ ()).err = none ∧
    (loopBody (scriptedOrchestrator 100 [] ⟨0, 0⟩) (fixedClock 5)
      ⟨900, 0⟩ ()).state.lastConfirmedEthHeight = 88 ∧
    ¬ (900 ≤ (loopBody (scriptedOrchestrator 100 [] ⟨0, 0⟩) (fixedClock 5)
      ⟨900, 0⟩ ()).state.lastConfirmedEthHeight) := by
  decide

/-- C2, amended: take a tick on which the clock never shows the resync as due and whose
body returns no error. If every head the Ethereum node reports is at least 12 and its
confirmed height `head - 12` is not below the cursor, and the cursor plus 20 fits in 64
bits, then the cursor after the tick is at least the cursor before. If instead the node
reports a head `h ≥ 12` with `h - 12` below the cursor, the cursor after the tick is
`h - 12`. -/
theorem loopBody_cursor_monotone {σ : Type} (s : PeggyOrchestrator σ)
    (timeNow : σ → Int × σ) (st : LoopState) (w : σ)
    (hfresh : ∀ w1, (timeNow w1).1 - st.lastResync < resyncInterval)
    (hok : (loopBody s timeNow st w).err = none) :
    ((∀ w0 hdr w1, s.ethereum.HeaderByNumber w0 = (.ok hdr, w1) →
        12 ≤ Uint64 hdr.Number ∧ st.lastConfirmedEthHeight ≤ Uint64 hdr.Number - 12) →
      st.lastConfirmedEthHeight + 20 < 2 ^ 64 →
      st.lastConfirmedEthHeight ≤ (loopBody s timeNow st w).state.lastConfirmedEthHeight) ∧
    (∀ h, 12 ≤ h → h - 12 < st.lastConfirmedEthHeight →
      (∀ w0 hdr w1, s.ethereum.HeaderByNumber w0 = (.ok hdr, w1) → Uint64 hdr.Number = h) →
      (loopBody s timeNow st w).state.lastConfirmedEthHeight = h - 12) := by
  obtain ⟨w0, hok0, hcur, -⟩ := loopBody_ok_no_resync s timeNow st w hfresh hok
  obtain ⟨hdr, w1, h0, hheight⟩ := relayEthEvents_height_of_ok s _ w0 hok0
  rw [hcur, hheight]
  constructor
  · intro hhead hrep
    obtain ⟨h12, hge⟩ := hhead w0 hdr w1 h0
    rw [subU64_delay_of_le _ h12 (Uint64_lt _), addU64_search_of_lt _ hrep]
    split <;> omega
  · intro h h12 hlt hhead
    have hh := hhead w0 hdr w1 h0
    have hbound : h < 2 ^ 64 := hh ▸ Uint64_lt _
    rw [hh, subU64_delay_of_le _ h12 hbound, if_pos hlt]

/-- The amended C2 at concrete ticks: at head 1000 the cursor 900 does not decrease, and at
head 500 the cursor 900 becomes 488. -/
theorem loopBody_cursor_monotone_witness :
    900 ≤ (loopBody (scriptedOrchestrator 1000 seedDeposits ⟨9, 0⟩) (fixedClock 5)
      ⟨900, 0⟩ ()).state.lastConfirmedEthHeight ∧
    (loopBody (scriptedOrchestrator 500 seedDeposits ⟨9, 0⟩) (fixedClock 5)
      ⟨900, 0⟩ ()).state.lastConfirmedEthHeight = 488 :=
  ⟨(loopBody_cursor_monotone (scriptedOrchestrator 1000 seedDeposits ⟨9, 0⟩) (fixedClock 5)
      ⟨900, 0⟩ () (fun _ => by simp [fixedClock, resyncInterval]) (by decide)).1
      (fun _ hdr _ h0 => by
        have hh : hdr = ⟨1000⟩ := by
          simpa [scriptedOrchestrator] using (congrArg Prod.fst h0).symm
        subst hh
        decide)
      (by norm_num),
    (loopBody_cursor_monotone (scriptedOrchestrator 500 seedDeposits ⟨9, 0⟩) (fixedClock 5)
      ⟨900, 0⟩ () (fun _ => by simp [fixedClock, resyncInterval]) (by decide)).2 500 (by decide) (by decide)
      (fun _ hdr _ h0 => by
        have hh : hdr = ⟨500⟩ := by
          simpa [scriptedOrchestrator] using (congrArg Prod.fst h0).symm
        subst hh
        decide)⟩

/-- C3: whenever a call of `relayEthEvents` submits a claim, the expected nonce it passes
is the `EthereumEventNonce` of the last claim read in that same call, and every event of
each of the five submitted lists has a nonce (read as `uint64`, hence also as an integer)
strictly greater than it. -/
theorem relayEthEvents_claims_above_expected_nonce {σ : Type} (s : PeggyOrchestrator σ)
    (start : Nat) (w : σ) (n : Nat) (l1 : List PeggySendToCosmosEvent)
    (l2 : List PeggySendToInjectiveEvent) (l3 : List PeggyTransactionBatchExecutedEvent)
    (l4 : List PeggyERC20DeployedEvent) (l5 : List PeggyValsetUpdatedEvent)
    (res : Option Error)
    (hsend : Call.SendEthereumClaims n l1 l2 l3 l4 l5 res ∈ (relayEthEvents s start w).calls) :
    (∃ lc, Call.LastClaimEvent (.ok lc) ∈ (relayEthEvents s start w).calls ∧
      lc.EthereumEventNonce = n) ∧
    (∀ ev ∈ l1, n < Uint64 ev.EventNonce ∧ n < ev.EventNonce) ∧
    (∀ ev ∈ l2, n < Uint64 ev.EventNonce ∧ n < ev.EventNonce) ∧
    (∀ ev ∈ l3, n < Uint64 ev.EventNonce ∧ n < ev.EventNonce) ∧
    (∀ ev ∈ l4, n < Uint64 ev.EventNonce ∧ n < ev.EventNonce) ∧
    (∀ ev ∈ l5, n < Uint64 ev.EventNonce ∧ n < ev.EventNonce) := by
  have hle : ∀ x : Nat, Uint64 x ≤ x := fun x => Nat.mod_le _ _
  rcases relayEthEvents_cases s start w with
    ⟨err, w1, h0, hr⟩ | ⟨hdr, w1, h0, hlag, hr⟩ | ⟨hdr, w1, cur, h0, hlag, hcur, hrest⟩
  · rw [hr] at hsend; simp at hsend
  · rw [hr] at hsend; simp at hsend
  · rcases hrest with ⟨err, w2, _, hr⟩ | ⟨k1, w2, err, w3, _, _, hr⟩ |
      ⟨k1, w2, k2, w3, err, w4, _, _, _, hr⟩ |
      ⟨k1, w2, k2, w3, k3, w4, err, w5, _, _, _, _, hr⟩ |
      ⟨k1, w2, k2, w3, k3, w4, k4, w5, err, w6, _, _, _, _, _, hr⟩ |
      ⟨k1, w2, k2, w3, k3, w4, k4, w5, k5, w6, _, _, _, _, _, hlast⟩
    · rw [hr] at hsend; simp at hsend
    · rw [hr] at hsend; simp at hsend
    · rw [hr] at hsend; simp at hsend
    · rw [hr] at hsend; simp at hsend
    · rw [hr] at hsend; simp at hsend
    · rcases hlast with ⟨err, w7, _, hr⟩ | ⟨lc, w7, _, _, hr⟩ | ⟨lc, w7, res1, w8, _, _, _, hr⟩
      · rw [hr] at hsend; simp [readsLog] at hsend
      · rw [hr] at hsend; simp [readsLog] at hsend
      · rw [hr] at hsend ⊢
        simp only [readsLog, List.mem_append, List.mem_cons, List.mem_singleton,
          List.not_mem_nil, or_false, reduceCtorEq, false_or, Call.SendEthereumClaims.injEq]
          at hsend
        obtain ⟨rfl, rfl, rfl, rfl, rfl, rfl, -⟩ := hsend
        refine ⟨⟨lc, by simp, rfl⟩, ?_, ?_, ?_, ?_, ?_⟩
        · intro ev hev
          rw [filterSendToCosmosEventsByNonce_eq] at hev
          have hgt : lc.EthereumEventNonce < Uint64 ev.EventNonce := by
            simpa using (List.mem_filter.1 hev).2
          exact ⟨hgt, lt_of_lt_of_le hgt (hle _)⟩
        · intro ev hev
          rw [filterSendToInjectiveEventsByNonce_eq] at hev
          have hgt : lc.EthereumEventNonce < Uint64 ev.EventNonce := by
            simpa using (List.mem_filter.1 hev).2
          exact ⟨hgt, lt_of_lt_of_le hgt (hle _)⟩
        · intro ev hev
          rw [filterTransactionBatchExecutedEventsByNonce_eq] at hev
          have hgt : lc.EthereumEventNonce < Uint64 ev.EventNonce := by
            simpa using (List.mem_filter.1 hev).2
          exact ⟨hgt, lt_of_lt_of_le hgt (hle _)⟩
        · intro ev hev
          rw [filterERC20DeployedEventsByNonce_eq] at hev
          have hgt : lc.EthereumEventNonce < Uint64 ev.EventNonce := by
            simpa using (List.mem_filter.1 hev).2
          exact ⟨hgt, lt_of_lt_of_le hgt (hle _)⟩
        · intro ev hev
          rw [filterValsetUpdateEventsByNonce_eq] at hev
          have hgt : lc.EthereumEventNonce < Uint64 ev.EventNonce := by
            simpa using (List.mem_filter.1 hev).2
          exact ⟨hgt, lt_of_lt_of_le hgt (hle _)⟩

/-- C3 at the seed scenario with last claim nonce 10: the claim is submitted with expected
nonce 10, the nonce of the last claim read, and carries only the deposit of nonce 11. -/
theorem relayEthEvents_claims_above_expected_nonce_witness :
    Call.SendEthereumClaims 10 [] [⟨11, 908, "b"⟩] [] [] [] none ∈
      (relayEthEvents (scriptedOrchestrator 1000 seedDeposits ⟨10, 0⟩) 900 ()).calls ∧
    (∃ lc, Call.LastClaimEvent (.ok lc) ∈
        (relayEthEvents (scriptedOrchestrator 1000 seedDeposits ⟨10, 0⟩) 900 ()).calls ∧
      lc.EthereumEventNonce = 10) ∧
    (10 < Uint64 (⟨11, 908, "b"⟩ : PeggySendToInjectiveEvent).EventNonce ∧
      10 < (⟨11, 908, "b"⟩ : PeggySendToInjectiveEvent).EventNonce) :=
  have h := relayEthEvents_claims_above_expected_nonce
    (scriptedOrchestrator 1000 seedDeposits ⟨10, 0⟩) 900 () 10 [] [⟨11, 908, "b"⟩] [] [] []
    none (by decide)
  ⟨by decide, h.1, h.2.2.1 ⟨11, 908, "b"⟩ (by decide)⟩

/-- C4: each of the five filters returns exactly the events whose nonce is strictly
greater than the given one, in their original order (it is `List.filter` with that test),
so each is the generic `filterEventsByNonce` at the nonce accessor of its event kind; the
result is a sublist of the input, an event is in it exactly when it is in the input with a
greater nonce, and of two events with nonces 10 and 11 only the second passes the nonce
10. -/
theorem filters_eq_filterEventsByNonce :
    (∀ (xs : List PeggySendToCosmosEvent) (n : Nat),
      filterSendToCosmosEventsByNonce xs n
        = filterEventsByNonce (fun ev => Uint64 ev.EventNonce) xs n) ∧
    (∀ (xs : List PeggySendToInjectiveEvent) (n : Nat),
      filterSendToInjectiveEventsByNonce xs n
        = filterEventsByNonce (fun ev => Uint64 ev.EventNonce) xs n) ∧
    (∀ (xs : List PeggyTransactionBatchExecutedEvent) (n : Nat),
      filterTransactionBatchExecutedEventsByNonce xs n
        = filterEventsByNonce (fun ev => Uint64 ev.EventNonce) xs n) ∧
    (∀ (xs : List PeggyERC20DeployedEvent) (n : Nat),
      filterERC20DeployedEventsByNonce xs n
        = filterEventsByNonce (fun ev => Uint64 ev.EventNonce) xs n) ∧
    (∀ (xs : List PeggyValsetUpdatedEvent) (n : Nat),
      filterValsetUpdateEventsByNonce xs n
        = filterEventsByNonce (fun ev => Uint64 ev.EventNonce) xs n) ∧
    (∀ (α : Type) [DecidableEq α] (nonceOf : α → Nat) (xs : List α) (n : Nat),
      filterEventsByNonce nonceOf xs n = xs.filter (fun ev => decide (n < nonceOf ev)) ∧
      (filterEventsByNonce nonceOf xs n).Sublist xs ∧
      (∀ ev, ev ∈ filterEventsByNonce nonceOf xs n ↔ ev ∈ xs ∧ n < nonceOf ev) ∧
      (∀ ev, (filterEventsByNonce nonceOf xs n).count ev ≤ xs.count ev)) ∧
    filterSendToInjectiveEventsByNonce [⟨10, 905, "a"⟩, ⟨11, 908, "b"⟩] 10
      = [⟨11, 908, "b"⟩] := by
  refine ⟨?_, ?_, ?_, ?_, ?_, ?_, by decide⟩
  · intro xs n
    rw [filterSendToCosmosEventsByNonce_eq]
    rfl
  · intro xs n
    rw [filterSendToInjectiveEventsByNonce_eq]
    rfl
  · intro xs n
    rw [filterTransactionBatchExecutedEventsByNonce_eq]
    rfl
  · intro xs n
    rw [filterERC20DeployedEventsByNonce_eq]
    rfl
  · intro xs n
    rw [filterValsetUpdateEventsByNonce_eq]
    rfl
  · intro α _ nonceOf xs n
    refine ⟨rfl, List.filter_sublist _, ?_, ?_⟩
    · intro ev
      simp [filterEventsByNonce, List.mem_filter]
    · intro ev
      exact (List.filter_sublist xs).count_le ev

/-- Every event fetch of a scan asks for the blocks from the cursor to the window end. -/
lemma relayEthEvents_fetch_ranges {σ : Type} (s : PeggyOrchestrator σ) (start : Nat) (w : σ)
    (c : Call) (hc : c ∈ (relayEthEvents s start w).calls) (rg : Nat × Nat)
    (hrg : c.fetchRange = some rg) :
    ∃ hdr w1, s.ethereum.HeaderByNumber w = (.ok hdr, w1) ∧
      ¬ subU64 (Uint64 hdr.Number) ethBlockConfirmationDelay < start ∧
      rg = (start, min (subU64 (Uint64 hdr.Number) ethBlockConfirmationDelay)
        (addU64 start defaultBlocksToSearch)) := by
  rcases relayEthEvents_cases s start w with
    ⟨err, w1, h0, hr⟩ | ⟨hdr, w1, h0, hlag, hr⟩ | ⟨hdr, w1, cur, h0, hlag, hcur, hrest⟩
  · rw [hr] at hc
    simp only [List.mem_singleton] at hc
    subst hc
    simp [Call.fetchRange] at hrg
  · rw [hr] at hc
    simp only [List.mem_singleton] at hc
    subst hc
    simp [Call.fetchRange] at hrg
  · refine ⟨hdr, w1, h0, hlag, ?_⟩
    rw [window_end_eq_min] at hcur
    rw [← hcur]
    have hrun : ∃ r : RelayResult σ, relayEthEvents s start w = r ∧
        ∀ c ∈ r.calls, ∀ rg, c.fetchRange = some rg → rg = (start, cur) := by
      rcases hrest with ⟨err, w2, _, hr⟩ | ⟨l1, w2, err, w3, _, _, hr⟩ |
        ⟨l1, w2, l2, w3, err, w4, _, _, _, hr⟩ |
        ⟨l1, w2, l2, w3, l3, w4, err, w5, _, _, _, _, hr⟩ |
        ⟨l1, w2, l2, w3, l3, w4, l4, w5, err, w6, _, _, _, _, _, hr⟩ |
        ⟨l1, w2, l2, w3, l3, w4, l4, w5, l5, w6, _, _, _, _, _,
          ⟨err, w7, _, hr⟩ | ⟨lc, w7, _, _, hr⟩ | ⟨lc, w7, res1, w8, _, _, _, hr⟩⟩
      all_goals
        refine ⟨_, hr, ?_⟩
        simp [readsLog, Call.fetchRange, eq_comm]
    obtain ⟨r, hr, hall⟩ := hrun
    rw [hr] at hc
    exact hall c hc rg hrg

/-- C5: take a call of `relayEthEvents` whose confirmed head `head - 12` (in `uint64`
arithmetic) is not below the cursor and whose six reads succeed. If all five filtered lists
are empty, the call makes the six reads and nothing else; otherwise it makes the six reads
and then exactly one `SendEthereumClaims` call, which carries the nonce of the last claim
read and the five filtered lists. -/
theorem relayEthEvents_submits_one_claim {σ : Type} (s : PeggyOrchestrator σ) (start : Nat)
    (w w1 w2 w3 w4 w5 w6 w7 : σ) (hdr : Header) (cur : Nat)
    (l1 : List PeggySendToCosmosEvent) (l2 : List PeggySendToInjectiveEvent)
    (l3 : List PeggyTransactionBatchExecutedEvent) (l4 : List PeggyERC20DeployedEvent)
    (l5 : List PeggyValsetUpdatedEvent) (lc : LastClaimEvent)
    (h0 : s.ethereum.HeaderByNumber w = (.ok hdr, w1))
    (hge : start ≤ subU64 (Uint64 hdr.Number) ethBlockConfirmationDelay)
    (hcur : cur = min (subU64 (Uint64 hdr.Number) ethBlockConfirmationDelay)
      (addU64 start defaultBlocksToSearch))
    (h1 : s.ethereum.GetSendToCosmosEvents start cur w1 = (.ok l1, w2))
    (h2 : s.ethereum.GetSendToInjectiveEvents start cur w2 = (.ok l2, w3))
    (h3 : s.ethereum.GetTransactionBatchExecutedEvents start cur w3 = (.ok l3, w4))
    (h4 : s.ethereum.GetPeggyERC20DeployedEvents start cur w4 = (.ok l4, w5))
    (h5 : s.ethereum.GetValsetUpdatedEvents start cur w5 = (.ok l5, w6))
    (h6 : s.injective.LastClaimEvent w6 = (.ok lc, w7)) :
    ((filterSendToCosmosEventsByNonce l1 lc.EthereumEventNonce = [] ∧
        filterSendToInjectiveEventsByNonce l2 lc.EthereumEventNonce = [] ∧
        filterTransactionBatchExecutedEventsByNonce l3 lc.EthereumEventNonce = [] ∧
        filterERC20DeployedEventsByNonce l4 lc.EthereumEventNonce = [] ∧
        filterValsetUpdateEventsByNonce l5 lc.EthereumEventNonce = []) →
      (relayEthEvents s start w).calls =
        readsLog hdr start cur l1 l2 l3 l4 l5 ++ [.LastClaimEvent (.ok lc)] ∧
      (relayEthEvents s start w).calls.countP Call.isSendEthereumClaims = 0) ∧
    (¬ (filterSendToCosmosEventsByNonce l1 lc.EthereumEventNonce = [] ∧
        filterSendToInjectiveEventsByNonce l2 lc.EthereumEventNonce = [] ∧
        filterTransactionBatchExecutedEventsByNonce l3 lc.EthereumEventNonce = [] ∧
        filterERC20DeployedEventsByNonce l4 lc.EthereumEventNonce = [] ∧
        filterValsetUpdateEventsByNonce l5 lc.EthereumEventNonce = []) →
      (relayEthEvents s start w).calls =
        readsLog hdr start cur l1 l2 l3 l4 l5 ++ [.LastClaimEvent (.ok lc),
          .SendEthereumClaims lc.EthereumEventNonce
            (filterSendToCosmosEventsByNonce l1 lc.EthereumEventNonce)
            (filterSendToInjectiveEventsByNonce l2 lc.EthereumEventNonce)
            (filterTransactionBatchExecutedEventsByNonce l3 lc.EthereumEventNonce)
            (filterERC20DeployedEventsByNonce l4 lc.EthereumEventNonce)
            (filterValsetUpdateEventsByNonce l5 lc.EthereumEventNonce)
            (s.injective.SendEthereumClaims lc.EthereumEventNonce
              (filterSendToCosmosEventsByNonce l1 lc.EthereumEventNonce)
              (filterSendToInjectiveEventsByNonce l2 lc.EthereumEventNonce)
              (filterTransactionBatchExecutedEventsByNonce l3 lc.EthereumEventNonce)
              (filterERC20DeployedEventsByNonce l4 lc.EthereumEventNonce)
              (filterValsetUpdateEventsByNonce l5 lc.EthereumEventNonce) w7).1] ∧
      (relayEthEvents s start w).calls.countP Call.isSendEthereumClaims = 1) := by
  have hlag : ¬ subU64 (Uint64 hdr.Number) ethBlockConfirmationDelay < start := by omega
  rw [← window_end_eq_min] at hcur
  rw [relayEthEvents_fetched s start w w1 w2 w3 w4 w5 w6 hdr cur l1 l2 l3 l4 l5
    h0 hlag hcur h1 h2 h3 h4 h5, h6]
  constructor
  · rintro ⟨e1, e2, e3, e4, e5⟩
    simp [e1, e2, e3, e4, e5, readsLog, Call.isSendEthereumClaims]
  · intro hne
    have hany : filterSendToCosmosEventsByNonce l1 lc.EthereumEventNonce ≠ [] ∨
        filterSendToInjectiveEventsByNonce l2 lc.EthereumEventNonce ≠ [] ∨
        filterTransactionBatchExecutedEventsByNonce l3 lc.EthereumEventNonce ≠ [] ∨
        filterERC20DeployedEventsByNonce l4 lc.EthereumEventNonce ≠ [] ∨
        filterValsetUpdateEventsByNonce l5 lc.EthereumEventNonce ≠ [] := by
      by_contra hcon
      simp only [not_or, ne_eq, not_not] at hcon
      exact hne hcon
    simp only [hany, if_true]
    simp [readsLog, Call.isSendEthereumClaims, List.countP_cons]

/-- C5 at the seed scenario (head 1000, cursor 900, deposits of nonce 10 and 11, last claim
nonce 9): one `SendEthereumClaims` call with expected nonce 9, both deposits, and the other
four lists empty. -/
theorem relayEthEvents_submits_one_claim_witness :
    (relayEthEvents (scriptedOrchestrator 1000 seedDeposits ⟨9, 0⟩) 900 ()).calls =
      readsLog ⟨1000⟩ 900 920 [] seedDeposits [] [] [] ++ [.LastClaimEvent (.ok ⟨9, 0⟩),
        .SendEthereumClaims 9 [] [⟨10, 905, "a"⟩, ⟨11, 908, "b"⟩] [] [] [] none] ∧
    (relayEthEvents (scriptedOrchestrator 1000 seedDeposits ⟨9, 0⟩) 900 ()).calls.countP
      Call.isSendEthereumClaims = 1 :=
  (relayEthEvents_submits_one_claim (scriptedOrchestrator 1000 seedDeposits ⟨9, 0⟩) 900
    () () () () () () () () ⟨1000⟩ 920 [] seedDeposits [] [] [] ⟨9, 0⟩
    rfl (by decide) (by decide) rfl rfl rfl rfl rfl rfl).2 (by decide)

/-- C6: take a call of `relayEthEvents` that reads a head `h ≥ 12` with `h - 12` not below
the cursor `s`, where `s + 20` fits in 64 bits, and let `to = min (h - 12) (s + 20)`. Every
event fetch of the call asks for the blocks `s` to `to`; the call issues all five fetches
unless one of them fails, which ends the call; a call that returns no error returns `to`;
and `to - s ≤ 20`. -/
theorem relayEthEvents_scan_window {σ : Type} (s : PeggyOrchestrator σ) (start : Nat)
    (w w1 : σ) (hdr : Header)
    (h0 : s.ethereum.HeaderByNumber w = (.ok hdr, w1))
    (h12 : 12 ≤ Uint64 hdr.Number) (hge : start ≤ Uint64 hdr.Number - 12)
    (hrep : start + 20 < 2 ^ 64) :
    (∀ c ∈ (relayEthEvents s start w).calls, ∀ rg, c.fetchRange = some rg →
      rg = (start, min (Uint64 hdr.Number - 12) (start + 20))) ∧
    ((relayEthEvents s start w).calls.filterMap Call.fetchRange =
        List.replicate 5 (start, min (Uint64 hdr.Number - 12) (start + 20)) ∨
      ∃ c, (relayEthEvents s start w).calls.getLast? = some c ∧ c.fetchFailed = true) ∧
    ((relayEthEvents s start w).err = none →
      (relayEthEvents s start w).height = min (Uint64 hdr.Number - 12) (start + 20)) ∧
    min (Uint64 hdr.Number - 12) (start + 20) - start ≤ 20 := by
  have hsub := subU64_delay_of_le _ h12 (Uint64_lt hdr.Number)
  have hadd := addU64_search_of_lt _ hrep
  refine ⟨?_, ?_, ?_, by omega⟩
  · intro c hc rg hrg
    obtain ⟨hdr1, w1a, h0a, -, hrange⟩ := relayEthEvents_fetch_ranges s start w c hc rg hrg
    rw [h0] at h0a
    obtain ⟨rfl, rfl⟩ : hdr = hdr1 ∧ w1 = w1a := by simpa using h0a
    rw [hrange, hsub, hadd]
  · rcases relayEthEvents_cases s start w with
      ⟨err, w1a, h0a, hr⟩ | ⟨hdr1, w1a, h0a, hlag, hr⟩ |
      ⟨hdr1, w1a, cur, h0a, hlag, hcur, hrest⟩
    · rw [h0] at h0a; simp at h0a
    · rw [h0] at h0a
      obtain ⟨rfl, rfl⟩ : hdr = hdr1 ∧ w1 = w1a := by simpa using h0a
      omega
    · rw [h0] at h0a
      obtain ⟨rfl, rfl⟩ : hdr = hdr1 ∧ w1 = w1a := by simpa using h0a
      rw [window_end_eq_min, hsub, hadd] at hcur
      rw [← hcur]
      rcases hrest with ⟨err, w2, _, hr⟩ | ⟨l1, w2, err, w3, _, _, hr⟩ |
        ⟨l1, w2, l2, w3, err, w4, _, _, _, hr⟩ |
        ⟨l1, w2, l2, w3, l3, w4, err, w5, _, _, _, _, hr⟩ |
        ⟨l1, w2, l2, w3, l3, w4, l4, w5, err, w6, _, _, _, _, _, hr⟩ |
        ⟨l1, w2, l2, w3, l3, w4, l4, w5, l5, w6, _, _, _, _, _,
          ⟨err, w7, _, hr⟩ | ⟨lc, w7, _, _, hr⟩ | ⟨lc, w7, res1, w8, _, _, _, hr⟩⟩
      · right; rw [hr]; exact ⟨_, rfl, rfl⟩
      · right; rw [hr]; exact ⟨_, rfl, rfl⟩
      · right; rw [hr]; exact ⟨_, rfl, rfl⟩
      · right; rw [hr]; exact ⟨_, rfl, rfl⟩
      · right; rw [hr]; exact ⟨_, rfl, rfl⟩
      · left; rw [hr]; rfl
      · left; rw [hr]; rfl
      · left; rw [hr]; rfl
  · intro hok
    obtain ⟨hdr1, w1a, h0a, hheight⟩ := relayEthEvents_height_of_ok s start w hok
    rw [h0] at h0a
    obtain ⟨rfl, rfl⟩ : hdr = hdr1 ∧ w1 = w1a := by simpa using h0a
    rw [hheight, hsub, hadd, if_neg (by omega)]

/-- C6 at the block clip scenario: head 2000 and cursor 900 give the raw confirmed head
1988, clipped to 920; every fetch asks for the blocks 900 to 920 and 920 is returned. -/
theorem relayEthEvents_scan_window_witness :
    ((900, 920) : Nat × Nat) = (900, min (Uint64 2000 - 12) (900 + 20)) ∧
    (relayEthEvents (scriptedOrchestrator 2000 seedDeposits ⟨9, 0⟩) 900 ()).height =
      min (Uint64 2000 - 12) (900 + 20) ∧
    min (Uint64 2000 - 12) (900 + 20) = 920 :=
  have h := relayEthEvents_scan_window (scriptedOrchestrator 2000 seedDeposits ⟨9, 0⟩) 900
    () () ⟨2000⟩ rfl (by decide) (by decide) (by norm_num)
  ⟨h.1 (.GetValsetUpdatedEvents 900 920 (.ok [])) (by decide) (900, 920) rfl,
    h.2.2.1 (by decide), by decide⟩

/-- C7, as stated, fails: at head 2000 and cursor 900 the event fetches ask for the
inclusive range 900 to 920, which holds 21 blocks. -/
theorem relayEthEvents_window_holds_21_blocks :
    ∃ c ∈ (relayEthEvents (scriptedOrchestrator 2000 seedDeposits ⟨9, 0⟩) 900 ()).calls,
      ∃ a b, c.fetchRange = some (a, b) ∧ b + 1 - a = 21 ∧ ¬ (b + 1 - a ≤ 20) :=
  ⟨.GetSendToCosmosEvents 900 920 (.ok []), by decide, 900, 920, rfl, by decide, by decide⟩

/-- C7, amended: every event fetch of a call of `relayEthEvents` asks for an inclusive
range that starts at the cursor and ends at most 20 blocks above it, so the range holds at
most 21 blocks: the cursor block, scanned again, and up to 20 blocks after it. -/
theorem relayEthEvents_window_at_most_21_blocks {σ : Type} (s : PeggyOrchestrator σ)
    (start : Nat) (w : σ) (c : Call) (hc : c ∈ (relayEthEvents s start w).calls)
    (a b : Nat) (hrg : c.fetchRange = some (a, b)) :
    a = start ∧ b ≤ start + defaultBlocksToSearch ∧ b + 1 - a ≤ 21 := by
  obtain ⟨hdr, w1, -, -, hrange⟩ := relayEthEvents_fetch_ranges s start w c hc (a, b) hrg
  obtain ⟨ha, hb⟩ := Prod.mk.inj hrange
  have hle := addU64_le start defaultBlocksToSearch
  refine ⟨ha, ?_, ?_⟩
  · omega
  · unfold defaultBlocksToSearch at hle hb
    omega

/-- The amended C7 at head 2000 and cursor 900: the deposit fetch asks for the blocks 900
to 920, which are 21 blocks. -/
theorem relayEthEvents_window_at_most_21_blocks_witness :
    (900 : Nat) = 900 ∧ 920 ≤ 900 + defaultBlocksToSearch ∧ 920 + 1 - 900 ≤ 21 :=
  relayEthEvents_window_at_most_21_blocks (scriptedOrchestrator 2000 seedDeposits ⟨9, 0⟩)
    900 () (.GetSendToInjectiveEvents 900 920 (.ok seedDeposits)) (by decide) 900 920 rfl

/-- The events of a submitted claim are among the events fetched, for the window that ends
at most at the confirmed head. -/
lemma relayEthEvents_claim_from_fetches {σ : Type} (s : PeggyOrchestrator σ) (start : Nat)
    (w : σ) (n : Nat) (l1 : List PeggySendToCosmosEvent) (l2 : List PeggySendToInjectiveEvent)
    (l3 : List PeggyTransactionBatchExecutedEvent) (l4 : List PeggyERC20DeployedEvent)
    (l5 : List PeggyValsetUpdatedEvent) (res : Option Error)
    (hsend : Call.SendEthereumClaims n l1 l2 l3 l4 l5 res ∈ (relayEthEvents s start w).calls) :
    ∃ hdr w1 cur k1 w2 k2 w3 k3 w4 k4 w5 k5 w6,
      s.ethereum.HeaderByNumber w = (.ok hdr, w1) ∧
      cur ≤ subU64 (Uint64 hdr.Number) ethBlockConfirmationDelay ∧
      s.ethereum.GetSendToCosmosEvents start cur w1 = (.ok k1, w2) ∧
      s.ethereum.GetSendToInjectiveEvents start cur w2 = (.ok k2, w3) ∧
      s.ethereum.GetTransactionBatchExecutedEvents start cur w3 = (.ok k3, w4) ∧
      s.ethereum.GetPeggyERC20DeployedEvents start cur w4 = (.ok k4, w5) ∧
      s.ethereum.GetValsetUpdatedEvents start cur w5 = (.ok k5, w6) ∧
      l1 = filterSendToCosmosEventsByNonce k1 n ∧
      l2 = filterSendToInjectiveEventsByNonce k2 n ∧
      l3 = filterTransactionBatchExecutedEventsByNonce k3 n ∧
      l4 = filterERC20DeployedEventsByNonce k4 n ∧
      l5 = filterValsetUpdateEventsByNonce k5 n := by
  rcases relayEthEvents_cases s start w with
    ⟨err, w1, h0, hr⟩ | ⟨hdr, w1, h0, hlag, hr⟩ | ⟨hdr, w1, cur, h0, hlag, hcur, hrest⟩
  · rw [hr] at hsend; simp at hsend
  · rw [hr] at hsend; simp at hsend
  · have hle := (window_end_le (subU64 (Uint64 hdr.Number) ethBlockConfirmationDelay) start).1
    rw [← hcur] at hle
    rcases hrest with ⟨err, w2, _, hr⟩ | ⟨k1, w2, err, w3, _, _, hr⟩ |
      ⟨k1, w2, k2, w3, err, w4, _, _, _, hr⟩ |
      ⟨k1, w2, k2, w3, k3, w4, err, w5, _, _, _, _, hr⟩ |
      ⟨k1, w2, k2, w3, k3, w4, k4, w5, err, w6, _, _, _, _, _, hr⟩ |
      ⟨k1, w2, k2, w3, k3, w4, k4, w5, k5, w6, h1, h2, h3, h4, h5, hlast⟩
    · rw [hr] at hsend; simp at hsend
    · rw [hr] at hsend; simp at hsend
    · rw [hr] at hsend; simp at hsend
    · rw [hr] at hsend; simp at hsend
    · rw [hr] at hsend; simp at hsend
    · rcases hlast with ⟨err, w7, _, hr⟩ | ⟨lc, w7, _, _, hr⟩ | ⟨lc, w7, res1, w8, _, _, _, hr⟩
      · rw [hr] at hsend; simp [readsLog] at hsend
      · rw [hr] at hsend; simp [readsLog] at hsend
      · rw [hr] at hsend
        simp only [readsLog, List.mem_append, List.mem_cons, List.mem_singleton,
          List.not_mem_nil, or_false, reduceCtorEq, false_or, Call.SendEthereumClaims.injEq]
          at hsend
        obtain ⟨rfl, rfl, rfl, rfl, rfl, rfl, -⟩ := hsend
        exact ⟨hdr, w1, cur, k1, w2, k2, w3, k3, w4, k4, w5, k5, w6, h0, hle, h1, h2, h3, h4,
          h5, rfl, rfl, rfl, rfl, rfl⟩

/-- C8: take a call of `relayEthEvents` that reads a head `h ≥ 12`, with event fetches
that answer only with events of the block range asked for. Every event of each of the five
lists passed to `SendEthereumClaims` was emitted in a block of height at most `h - 12`. -/
theorem relayEthEvents_claims_are_confirmed {σ : Type} (s : PeggyOrchestrator σ)
    (start : Nat) (w w1 : σ) (hdr : Header)
    (h0 : s.ethereum.HeaderByNumber w = (.ok hdr, w1))
    (h12 : 12 ≤ Uint64 hdr.Number)
    (hf1 : AnswersWithinRange (fun ev => ev.BlockHeight) s.ethereum.GetSendToCosmosEvents)
    (hf2 : AnswersWithinRange (fun ev => ev.BlockHeight) s.ethereum.GetSendToInjectiveEvents)
    (hf3 : AnswersWithinRange (fun ev => ev.BlockHeight)
      s.ethereum.GetTransactionBatchExecutedEvents)
    (hf4 : AnswersWithinRange (fun ev => ev.BlockHeight)
      s.ethereum.GetPeggyERC20DeployedEvents)
    (hf5 : AnswersWithinRange (fun ev => ev.BlockHeight) s.ethereum.GetValsetUpdatedEvents)
    (n : Nat) (l1 : List PeggySendToCosmosEvent) (l2 : List PeggySendToInjectiveEvent)
    (l3 : List PeggyTransactionBatchExecutedEvent) (l4 : List PeggyERC20DeployedEvent)
    (l5 : List PeggyValsetUpdatedEvent) (res : Option Error)
    (hsend : Call.SendEthereumClaims n l1 l2 l3 l4 l5 res ∈ (relayEthEvents s start w).calls) :
    (∀ ev ∈ l1, ev.BlockHeight ≤ Uint64 hdr.Number - 12) ∧
    (∀ ev ∈ l2, ev.BlockHeight ≤ Uint64 hdr.Number - 12) ∧
    (∀ ev ∈ l3, ev.BlockHeight ≤ Uint64 hdr.Number - 12) ∧
    (∀ ev ∈ l4, ev.BlockHeight ≤ Uint64 hdr.Number - 12) ∧
    (∀ ev ∈ l5, ev.BlockHeight ≤ Uint64 hdr.Number - 12) := by
  obtain ⟨hdr1, w1a, cur, k1, w2, k2, w3, k3, w4, k4, w5, k5, w6, h0a, hle, h1, h2, h3, h4, h5,
    e1, e2, e3, e4, e5⟩ := relayEthEvents_claim_from_fetches s start w n l1 l2 l3 l4 l5 res hsend
  rw [h0] at h0a
  obtain ⟨rfl, rfl⟩ : hdr = hdr1 ∧ w1 = w1a := by simpa using h0a
  rw [subU64_delay_of_le _ h12 (Uint64_lt hdr.Number)] at hle
  refine ⟨?_, ?_, ?_, ?_, ?_⟩
  · intro ev hev
    rw [e1, filterSendToCosmosEventsByNonce_eq] at hev
    have hb : ev.BlockHeight ≤ cur := (hf1 _ _ _ _ _ h1 ev (List.mem_filter.1 hev).1).2
    omega
  · intro ev hev
    rw [e2, filterSendToInjectiveEventsByNonce_eq] at hev
    have hb : ev.BlockHeight ≤ cur := (hf2 _ _ _ _ _ h2 ev (List.mem_filter.1 hev).1).2
    omega
  · intro ev hev
    rw [e3, filterTransactionBatchExecutedEventsByNonce_eq] at hev
    have hb : ev.BlockHeight ≤ cur := (hf3 _ _ _ _ _ h3 ev (List.mem_filter.1 hev).1).2
    omega
  · intro ev hev
    rw [e4, filterERC20DeployedEventsByNonce_eq] at hev
    have hb : ev.BlockHeight ≤ cur := (hf4 _ _ _ _ _ h4 ev (List.mem_filter.1 hev).1).2
    omega
  · intro ev hev
    rw [e5, filterValsetUpdateEventsByNonce_eq] at hev
    have hb : ev.BlockHeight ≤ cur := (hf5 _ _ _ _ _ h5 ev (List.mem_filter.1 hev).1).2
    omega

/-- C8 at the seed scenario: the two deposits submitted at head 1000 lie in blocks of
height at most 988. -/
theorem relayEthEvents_claims_are_confirmed_witness :
    (⟨10, 905, "a"⟩ : PeggySendToInjectiveEvent).BlockHeight ≤ Uint64 1000 - 12 ∧
    (⟨11, 908, "b"⟩ : PeggySendToInjectiveEvent).BlockHeight ≤ Uint64 1000 - 12 :=
  have h := (relayEthEvents_claims_are_confirmed (scriptedOrchestrator 1000 seedDeposits ⟨9, 0⟩) 900
    () () ⟨1000⟩ rfl (by decide)
    (fun a b w evs w1 h ev hev => by
      have hevs : evs = [] := by simpa [scriptedOrchestrator] using (congrArg Prod.fst h).symm
      simp [hevs] at hev)
    (fun a b w evs w1 h ev hev => by
      have hevs : evs = depositsInRange seedDeposits a b := by
        simpa [scriptedOrchestrator] using (congrArg Prod.fst h).symm
      rw [hevs] at hev
      simpa using (List.mem_filter.1 hev).2)
    (fun a b w evs w1 h ev hev => by
      have hevs : evs = [] := by simpa [scriptedOrchestrator] using (congrArg Prod.fst h).symm
      simp [hevs] at hev)
    (fun a b w evs w1 h ev hev => by
      have hevs : evs = [] := by simpa [scriptedOrchestrator] using (congrArg Prod.fst h).symm
      simp [hevs] at hev)
    (fun a b w evs w1 h ev hev => by
      have hevs : evs = [] := by simpa [scriptedOrchestrator] using (congrArg Prod.fst h).symm
      simp [hevs] at hev)
    9 [] seedDeposits [] [] [] none (by decide)).2.1
  ⟨h ⟨10, 905, "a"⟩ (by decide), h ⟨11, 908, "b"⟩ (by decide)⟩

/-! ## Re-scanning after a submission -/

lemma foldl_max_ge (xs : List Nat) (a : Nat) : a ≤ xs.foldl max a := by
  induction xs generalizing a with
  | nil => simp
  | cons x xs ih => exact le_trans (le_max_left a x) (ih (max a x))

lemma le_foldl_max (xs : List Nat) (a x : Nat) (hx : x ∈ xs) : x ≤ xs.foldl max a := by
  induction xs generalizing a with
  | nil => simp at hx
  | cons y ys ih =>
    rcases List.mem_cons.1 hx with rfl | hmem
    · exact le_trans (le_max_right a x) (foldl_max_ge ys (max a x))
    · exact ih (max a y) hmem

lemma le_highestNonce (xs : List Nat) (x : Nat) (hx : x ∈ xs) : x ≤ highestNonce xs :=
  le_foldl_max xs 0 x hx

/-- If something passed the nonce filter, the highest nonce that passed is above the nonce
filtered by. -/
lemma lt_highestNonce_claimNonces (l1 : List PeggySendToCosmosEvent)
    (l2 : List PeggySendToInjectiveEvent) (l3 : List PeggyTransactionBatchExecutedEvent)
    (l4 : List PeggyERC20DeployedEvent) (l5 : List PeggyValsetUpdatedEvent) (n : Nat)
    (hne : ¬ (filterSendToCosmosEventsByNonce l1 n = [] ∧
      filterSendToInjectiveEventsByNonce l2 n = [] ∧
      filterTransactionBatchExecutedEventsByNonce l3 n = [] ∧
      filterERC20DeployedEventsByNonce l4 n = [] ∧
      filterValsetUpdateEventsByNonce l5 n = [])) :
    n < highestNonce (claimNonces (filterSendToCosmosEventsByNonce l1 n)
      (filterSendToInjectiveEventsByNonce l2 n)
      (filterTransactionBatchExecutedEventsByNonce l3 n)
      (filterERC20DeployedEventsByNonce l4 n) (filterValsetUpdateEventsByNonce l5 n)) := by
  have key : ∃ x, x ∈ claimNonces (filterSendToCosmosEventsByNonce l1 n)
      (filterSendToInjectiveEventsByNonce l2 n)
      (filterTransactionBatchExecutedEventsByNonce l3 n)
      (filterERC20DeployedEventsByNonce l4 n) (filterValsetUpdateEventsByNonce l5 n) ∧
      n < x := by
    by_contra hcon
    apply hne
    simp only [claimNonces, filterSendToCosmosEventsByNonce_eq,
      filterSendToInjectiveEventsByNonce_eq, filterTransactionBatchExecutedEventsByNonce_eq,
      filterERC20DeployedEventsByNonce_eq, filterValsetUpdateEventsByNonce_eq] at hcon ⊢
    simp only [List.filter_eq_nil_iff]
    refine ⟨?_, ?_, ?_, ?_, ?_⟩ <;>
    · intro ev hev hgt
      apply hcon
      refine ⟨Uint64 ev.EventNonce, ?_, by simpa using hgt⟩
      simp only [List.mem_append, List.mem_map, List.mem_filter]
      simp only [or_assoc]
      first
        | exact Or.inl ⟨ev, ⟨hev, hgt⟩, rfl⟩
        | exact Or.inr (Or.inl ⟨ev, ⟨hev, hgt⟩, rfl⟩)
        | exact Or.inr (Or.inr (Or.inl ⟨ev, ⟨hev, hgt⟩, rfl⟩))
        | exact Or.inr (Or.inr (Or.inr (Or.inl ⟨ev, ⟨hev, hgt⟩, rfl⟩)))
        | exact Or.inr (Or.inr (Or.inr (Or.inr ⟨ev, ⟨hev, hgt⟩, rfl⟩)))
  obtain ⟨x, hx, hlt⟩ := key
  exact lt_of_lt_of_le hlt (le_highestNonce _ x hx)

/-- Filtering a stream by the highest nonce that passed the filter leaves nothing. -/
lemma filter_highest_eq_nil {α : Type} (nonceOf : α → Nat) (xs : List α) (n m : Nat)
    (hnm : n < m)
    (hm : ∀ ev ∈ xs.filter (fun ev => decide (n < nonceOf ev)), nonceOf ev ≤ m) :
    xs.filter (fun ev => decide (m < nonceOf ev)) = [] := by
  rw [List.filter_eq_nil_iff]
  intro ev hev hgt
  have hgt1 : m < nonceOf ev := by simpa using hgt
  have := hm ev (List.mem_filter.2 ⟨hev, by simpa using lt_trans hnm hgt1⟩)
  omega

/-- A scan that submits a claim made the six reads, all answered, and then the submission;
and one of the fetched streams has an event above the nonce of the last claim read. -/
lemma relayEthEvents_send_only_if_passed {σ : Type} (s : PeggyOrchestrator σ) (start : Nat)
    (w : σ) (c : Call) (hc : c ∈ (relayEthEvents s start w).calls)
    (hsend : c.isSendEthereumClaims = true) :
    ∃ hdr cur k1 k2 k3 k4 k5 lc res,
      (relayEthEvents s start w).calls =
        readsLog hdr start cur k1 k2 k3 k4 k5 ++ [.LastClaimEvent (.ok lc),
          .SendEthereumClaims lc.EthereumEventNonce
            (filterSendToCosmosEventsByNonce k1 lc.EthereumEventNonce)
            (filterSendToInjectiveEventsByNonce k2 lc.EthereumEventNonce)
            (filterTransactionBatchExecutedEventsByNonce k3 lc.EthereumEventNonce)
            (filterERC20DeployedEventsByNonce k4 lc.EthereumEventNonce)
            (filterValsetUpdateEventsByNonce k5 lc.EthereumEventNonce) res] ∧
      ¬ (filterSendToCosmosEventsByNonce k1 lc.EthereumEventNonce = [] ∧
        filterSendToInjectiveEventsByNonce k2 lc.EthereumEventNonce = [] ∧
        filterTransactionBatchExecutedEventsByNonce k3 lc.EthereumEventNonce = [] ∧
        filterERC20DeployedEventsByNonce k4 lc.EthereumEventNonce = [] ∧
        filterValsetUpdateEventsByNonce k5 lc.EthereumEventNonce = []) := by
  have hno : ∀ cs : List Call, (∀ d ∈ cs, d.isSendEthereumClaims = false) → c ∈ cs → False :=
    fun cs hcs hmem => by simpa [hsend] using hcs c hmem
  rcases relayEthEvents_cases s start w with
    ⟨err, w1, h0, hr⟩ | ⟨hdr, w1, h0, hlag, hr⟩ | ⟨hdr, w1, cur, h0, hlag, hcur, hrest⟩
  · rw [hr] at hc
    exact (hno _ (by simp [Call.isSendEthereumClaims]) hc).elim
  · rw [hr] at hc
    exact (hno _ (by simp [Call.isSendEthereumClaims]) hc).elim
  · rcases hrest with ⟨err, w2, _, hr⟩ | ⟨k1, w2, err, w3, _, _, hr⟩ |
      ⟨k1, w2, k2, w3, err, w4, _, _, _, hr⟩ |
      ⟨k1, w2, k2, w3, k3, w4, err, w5, _, _, _, _, hr⟩ |
      ⟨k1, w2, k2, w3, k3, w4, k4, w5, err, w6, _, _, _, _, _, hr⟩ |
      ⟨k1, w2, k2, w3, k3, w4, k4, w5, k5, w6, h1, h2, h3, h4, h5, hlast⟩
    · rw [hr] at hc
      exact (hno _ (by simp [Call.isSendEthereumClaims]) hc).elim
    · rw [hr] at hc
      exact (hno _ (by simp [Call.isSendEthereumClaims]) hc).elim
    · rw [hr] at hc
      exact (hno _ (by simp [Call.isSendEthereumClaims]) hc).elim
    · rw [hr] at hc
      exact (hno _ (by simp [Call.isSendEthereumClaims]) hc).elim
    · rw [hr] at hc
      exact (hno _ (by simp [Call.isSendEthereumClaims]) hc).elim
    · rcases hlast with ⟨err, w7, _, hr⟩ | ⟨lc, w7, _, _, hr⟩ |
        ⟨lc, w7, res1, w8, h6, hany, _, hr⟩
      · rw [hr] at hc
        exact (hno _ (by simp [readsLog, Call.isSendEthereumClaims]) hc).elim
      · rw [hr] at hc
        exact (hno _ (by simp [readsLog, Call.isSendEthereumClaims]) hc).elim
      · refine ⟨hdr, cur, k1, k2, k3, k4, k5, lc, res1, by rw [hr], ?_⟩
        rintro ⟨e1, e2, e3, e4, e5⟩
        simp [e1, e2, e3, e4, e5] at hany

/-- C9: let five event streams be filtered by a nonce `n`, let something pass, and let `m`
be the highest nonce among the events that passed (the events submitted). Filtering the
same five streams by `m` leaves five empty lists; and a call of `relayEthEvents` whose
fetches answer with those streams and whose last claim read answers with the nonce `m`
makes no `SendEthereumClaims` call. -/
theorem rescan_after_submission_passes_nothing (l1 : List PeggySendToCosmosEvent)
    (l2 : List PeggySendToInjectiveEvent) (l3 : List PeggyTransactionBatchExecutedEvent)
    (l4 : List PeggyERC20DeployedEvent) (l5 : List PeggyValsetUpdatedEvent) (n m : Nat)
    (hne : ¬ (filterSendToCosmosEventsByNonce l1 n = [] ∧
      filterSendToInjectiveEventsByNonce l2 n = [] ∧
      filterTransactionBatchExecutedEventsByNonce l3 n = [] ∧
      filterERC20DeployedEventsByNonce l4 n = [] ∧
      filterValsetUpdateEventsByNonce l5 n = []))
    (hm : m = highestNonce (claimNonces (filterSendToCosmosEventsByNonce l1 n)
      (filterSendToInjectiveEventsByNonce l2 n)
      (filterTransactionBatchExecutedEventsByNonce l3 n)
      (filterERC20DeployedEventsByNonce l4 n) (filterValsetUpdateEventsByNonce l5 n))) :
    (filterSendToCosmosEventsByNonce l1 m = [] ∧
      filterSendToInjectiveEventsByNonce l2 m = [] ∧
      filterTransactionBatchExecutedEventsByNonce l3 m = [] ∧
      filterERC20DeployedEventsByNonce l4 m = [] ∧
      filterValsetUpdateEventsByNonce l5 m = []) ∧
    (∀ (σ : Type) (s : PeggyOrchestrator σ) (start : Nat) (w : σ),
      (∀ a b evs, Call.GetSendToCosmosEvents a b (.ok evs) ∈ (relayEthEvents s start w).calls →
        evs = l1) →
      (∀ a b evs,
        Call.GetSendToInjectiveEvents a b (.ok evs) ∈ (relayEthEvents s start w).calls →
        evs = l2) →
      (∀ a b evs,
        Call.GetTransactionBatchExecutedEvents a b (.ok evs) ∈
          (relayEthEvents s start w).calls → evs = l3) →
      (∀ a b evs,
        Call.GetPeggyERC20DeployedEvents a b (.ok evs) ∈ (relayEthEvents s start w).calls →
        evs = l4) →
      (∀ a b evs, Call.GetValsetUpdatedEvents a b (.ok evs) ∈ (relayEthEvents s start w).calls →
        evs = l5) →
      (∀ lc, Call.LastClaimEvent (.ok lc) ∈ (relayEthEvents s start w).calls →
        lc.EthereumEventNonce = m) →
      ∀ c ∈ (relayEthEvents s start w).calls, c.isSendEthereumClaims = false) := by
  have hnm : n < m := hm ▸ lt_highestNonce_claimNonces l1 l2 l3 l4 l5 n hne
  have hall : ∀ x ∈ claimNonces (filterSendToCosmosEventsByNonce l1 n)
      (filterSendToInjectiveEventsByNonce l2 n)
      (filterTransactionBatchExecutedEventsByNonce l3 n)
      (filterERC20DeployedEventsByNonce l4 n) (filterValsetUpdateEventsByNonce l5 n),
      x ≤ m := fun x hx => hm ▸ le_highestNonce _ x hx
  simp only [claimNonces, filterSendToCosmosEventsByNonce_eq,
    filterSendToInjectiveEventsByNonce_eq, filterTransactionBatchExecutedEventsByNonce_eq,
    filterERC20DeployedEventsByNonce_eq, filterValsetUpdateEventsByNonce_eq,
    List.mem_append, List.mem_map] at hall
  have hempty : filterSendToCosmosEventsByNonce l1 m = [] ∧
      filterSendToInjectiveEventsByNonce l2 m = [] ∧
      filterTransactionBatchExecutedEventsByNonce l3 m = [] ∧
      filterERC20DeployedEventsByNonce l4 m = [] ∧
      filterValsetUpdateEventsByNonce l5 m = [] := by
    rw [filterSendToCosmosEventsByNonce_eq, filterSendToInjectiveEventsByNonce_eq,
      filterTransactionBatchExecutedEventsByNonce_eq, filterERC20DeployedEventsByNonce_eq,
      filterValsetUpdateEventsByNonce_eq]
    refine ⟨?_, ?_, ?_, ?_, ?_⟩
    · exact filter_highest_eq_nil (fun ev => Uint64 ev.EventNonce) l1 n m hnm
        (fun ev hev => hall _ (Or.inl (Or.inl (Or.inl (Or.inl ⟨ev, hev, rfl⟩)))))
    · exact filter_highest_eq_nil (fun ev => Uint64 ev.EventNonce) l2 n m hnm
        (fun ev hev => hall _ (Or.inl (Or.inl (Or.inl (Or.inr ⟨ev, hev, rfl⟩)))))
    · exact filter_highest_eq_nil (fun ev => Uint64 ev.EventNonce) l3 n m hnm
        (fun ev hev => hall _ (Or.inl (Or.inl (Or.inr ⟨ev, hev, rfl⟩))))
    · exact filter_highest_eq_nil (fun ev => Uint64 ev.EventNonce) l4 n m hnm
        (fun ev hev => hall _ (Or.inl (Or.inr ⟨ev, hev, rfl⟩)))
    · exact filter_highest_eq_nil (fun ev => Uint64 ev.EventNonce) l5 n m hnm
        (fun ev hev => hall _ (Or.inr ⟨ev, hev, rfl⟩))
  refine ⟨hempty, ?_⟩
  intro σ s start w hs1 hs2 hs3 hs4 hs5 hlc c hc
  by_contra hsend
  have hsend1 : c.isSendEthereumClaims = true := by simpa using hsend
  obtain ⟨hdr, cur, k1, k2, k3, k4, k5, lc, res, hcalls, hpassed⟩ :=
    relayEthEvents_send_only_if_passed s start w c hc hsend1
  have e1 := hs1 start cur k1 (by rw [hcalls]; simp [readsLog])
  have e2 := hs2 start cur k2 (by rw [hcalls]; simp [readsLog])
  have e3 := hs3 start cur k3 (by rw [hcalls]; simp [readsLog])
  have e4 := hs4 start cur k4 (by rw [hcalls]; simp [readsLog])
  have e5 := hs5 start cur k5 (by rw [hcalls]; simp [readsLog])
  have e6 := hlc lc (by rw [hcalls]; simp [readsLog])
  rw [e1, e2, e3, e4, e5, e6] at hpassed
  exact hpassed hempty

/-- C9 at the seed scenario: filtering the two deposits by the nonce 9 passes both, the
highest nonce passed is 11, and a scan that reads 11 as the nonce of the last claim
submits nothing. -/
theorem rescan_after_submission_passes_nothing_witness :
    filterSendToInjectiveEventsByNonce seedDeposits 11 = [] ∧
    ((relayEthEvents (scriptedOrchestrator 1000 seedDeposits ⟨11, 908⟩) 900 ()).calls.all
      (fun c => !c.isSendEthereumClaims)) = true :=
  have h := rescan_after_submission_passes_nothing [] seedDeposits [] [] [] 9 11
    (by decide) (by decide)
  have hcalls :
      (relayEthEvents (scriptedOrchestrator 1000 seedDeposits ⟨11, 908⟩) 900 ()).calls =
        readsLog ⟨1000⟩ 900 920 [] seedDeposits [] [] [] ++ [.LastClaimEvent (.ok ⟨11, 908⟩)] :=
    by decide
  ⟨h.1.2.1, List.all_eq_true.2 fun c hc => by
    rw [h.2 Unit (scriptedOrchestrator 1000 seedDeposits ⟨11, 908⟩) 900 ()
    (fun a b evs hmem => by
      rw [hcalls] at hmem
      simp only [readsLog] at hmem
      simp at hmem
      exact hmem.2.2)
    (fun a b evs hmem => by
      rw [hcalls] at hmem
      simp only [readsLog, List.mem_append, List.mem_cons, List.mem_singleton,
        List.not_mem_nil, or_false, reduceCtorEq, false_or,
        Call.GetSendToInjectiveEvents.injEq, Except.ok.injEq] at hmem
      exact hmem.2.2)
    (fun a b evs hmem => by
      rw [hcalls] at hmem
      simp only [readsLog] at hmem
      simp at hmem
      exact hmem.2.2)
    (fun a b evs hmem => by
      rw [hcalls] at hmem
      simp only [readsLog] at hmem
      simp at hmem
      exact hmem.2.2)
    (fun a b evs hmem => by
      rw [hcalls] at hmem
      simp only [readsLog] at hmem
      simp at hmem
      exact hmem.2.2)
    (fun lc hmem => by
      rw [hcalls] at hmem
      simp only [readsLog, List.mem_append, List.mem_cons, List.mem_singleton,
        List.not_mem_nil, or_false, reduceCtorEq, false_or,
        Call.LastClaimEvent.injEq, Except.ok.injEq] at hmem
      rw [hmem]) c hc]
    rfl⟩

/-! ## The cursor after a successful tick -/

/-- C10: take a tick, with at least one attempt allowed, whose scan reads a head `h ≥ 12`
with `h - 12` not below the cursor and returns no error at the first attempt (all six reads
succeed and the claim, if one is submitted, is accepted), and let the resync not be due
when the scan returns. The tick returns no error and leaves the cursor at
`min (h - 12) (cursor + 20)`, the sum taken in `uint64`; when `cursor + 20` fits in 64 bits
this is the plain minimum. -/
theorem loopBody_cursor_advances {σ : Type} (s : PeggyOrchestrator σ)
    (timeNow : σ → Int × σ) (st : LoopState) (w w1 : σ) (hdr : Header)
    (hattempts : 0 < s.maxAttempts)
    (h0 : s.ethereum.HeaderByNumber w = (.ok hdr, w1))
    (h12 : 12 ≤ Uint64 hdr.Number)
    (hge : st.lastConfirmedEthHeight ≤ Uint64 hdr.Number - 12)
    (hok : (relayEthEvents s st.lastConfirmedEthHeight w).err = none)
    (hfresh : (timeNow (relayEthEvents s st.lastConfirmedEthHeight w).world).1
      - st.lastResync < resyncInterval) :
    (loopBody s timeNow st w).err = none ∧
    (loopBody s timeNow st w).state.lastConfirmedEthHeight =
      min (Uint64 hdr.Number - 12) (addU64 st.lastConfirmedEthHeight defaultBlocksToSearch) ∧
    (st.lastConfirmedEthHeight + 20 < 2 ^ 64 →
      (loopBody s timeNow st w).state.lastConfirmedEthHeight =
        min (Uint64 hdr.Number - 12) (st.lastConfirmedEthHeight + 20)) ∧
    (loopBody s timeNow st w).state.lastResync = st.lastResync := by
  obtain ⟨hdr1, w1a, h0a, hheight⟩ :=
    relayEthEvents_height_of_ok s st.lastConfirmedEthHeight w hok
  rw [h0] at h0a
  obtain ⟨rfl, rfl⟩ : hdr = hdr1 ∧ w1 = w1a := by simpa using h0a
  rw [subU64_delay_of_le _ h12 (Uint64_lt hdr.Number), if_neg (by omega)] at hheight
  have hrun : retryDo (relayAttempt s st.lastConfirmedEthHeight) s.maxAttempts (0, w, []) =
      (none, ((relayEthEvents s st.lastConfirmedEthHeight w).height,
        (relayEthEvents s st.lastConfirmedEthHeight w).world,
        [] ++ (relayEthEvents s st.lastConfirmedEthHeight w).calls)) :=
    retryDo_first_ok _ _ hattempts _ _ (by simp only [relayAttempt, hok])
  have hnot : ¬ (timeNow (relayEthEvents s st.lastConfirmedEthHeight w).world).1
      - st.lastResync ≥ resyncInterval := by omega
  have hcursor : (loopBody s timeNow st w).err = none ∧
      (loopBody s timeNow st w).state.lastConfirmedEthHeight =
        (relayEthEvents s st.lastConfirmedEthHeight w).height ∧
      (loopBody s timeNow st w).state.lastResync = st.lastResync := by
    unfold loopBody
    simp only [hrun, hnot, if_false, and_self]
  refine ⟨hcursor.1, ?_, ?_, hcursor.2.2⟩
  · rw [hcursor.2.1, hheight]
  · intro hrep
    rw [hcursor.2.1, hheight, addU64_search_of_lt _ hrep]

/-- C10 at the seed scenario: at head 1000 the cursor 900 advances to 920. -/
theorem loopBody_cursor_advances_witness :
    (loopBody (scriptedOrchestrator 1000 seedDeposits ⟨9, 0⟩) (fixedClock 5)
      ⟨900, 0⟩ ()).err = none ∧
    (loopBody (scriptedOrchestrator 1000 seedDeposits ⟨9, 0⟩) (fixedClock 5)
      ⟨900, 0⟩ ()).state.lastConfirmedEthHeight = 920 :=
  have h := loopBody_cursor_advances (scriptedOrchestrator 1000 seedDeposits ⟨9, 0⟩)
    (fixedClock 5) ⟨900, 0⟩ () () ⟨1000⟩ (by decide) rfl (by decide) (by decide) (by decide)
    (by decide)
  ⟨h.1, h.2.2.1 (by norm_num)⟩

/-! ## More lemmas on the retry -/

/-- Counting attempts: if `Q k` holds of the closure state after `k` runs, the retry ends
after at most `n` runs, and after exactly `n` runs, with one error each, if it ends with an
error. -/
lemma retryLoop_attempts {S : Type} (fn : S → Option Error × S) (Q : Nat → S → Prop)
    (hstep : ∀ k st, Q k st → Q (k + 1) (fn st).2) (n : Nat) (errorLog : List Error)
    (st : S) (k0 : Nat) (h0 : Q k0 st) :
    ∃ k, k ≤ n ∧ Q (k0 + k) (retryLoop fn n errorLog st).2 ∧
      ∀ errs, (retryLoop fn n errorLog st).1 = some errs →
        k = n ∧ errs.length = errorLog.length + n := by
  induction n generalizing errorLog st k0 with
  | zero =>
    refine ⟨0, le_refl 0, by simpa [retryLoop] using h0, ?_⟩
    intro errs herrs
    simp only [retryLoop, Option.some.injEq] at herrs
    simp [← herrs]
  | succ n ih =>
    have hq := hstep k0 st h0
    rcases hf : fn st with ⟨_ | err, st1⟩
    · rw [hf] at hq
      refine ⟨1, by omega, by simpa [retryLoop, hf] using hq, ?_⟩
      intro errs herrs
      simp [retryLoop, hf] at herrs
    · rw [hf] at hq
      obtain ⟨k, hk, hQ, herr⟩ := ih (errorLog ++ [err]) st1 (k0 + 1) hq
      refine ⟨k + 1, by omega, ?_, ?_⟩
      · simp only [retryLoop, hf]
        rw [show k0 + (k + 1) = k0 + 1 + k by omega]
        exact hQ
      · intro errs herrs
        simp only [retryLoop, hf] at herrs
        obtain ⟨h1, h2⟩ := herr errs herrs
        simp only [List.length_append, List.length_singleton] at h2
        exact ⟨by omega, by omega⟩

/-- A retry of a function that fails in every state ends with an error. -/
lemma retryLoop_all_fail {S : Type} (fn : S → Option Error × S)
    (hfail : ∀ st, (fn st).1 ≠ none) (n : Nat) (errorLog : List Error) (st : S) :
    ∃ errs, (retryLoop fn n errorLog st).1 = some errs := by
  induction n generalizing errorLog st with
  | zero => exact ⟨errorLog, rfl⟩
  | succ n ih =>
    rcases hf : fn st with ⟨_ | err, st1⟩
    · exact absurd (by rw [hf]) (hfail st)
    · simp only [retryLoop, hf]
      exact ih _ _

/-! ## More lemmas on the runs of `relayEthEvents` -/

/-- Every scan reads the header exactly once. -/
lemma relayEthEvents_one_header {σ : Type} (s : PeggyOrchestrator σ) (start : Nat) (w : σ) :
    (relayEthEvents s start w).calls.countP Call.isHeaderByNumber = 1 := by
  rcases relayEthEvents_cases s start w with
    ⟨err, w1, h0, hr⟩ | ⟨hdr, w1, h0, hlag, hr⟩ | ⟨hdr, w1, cur, h0, hlag, hcur, hrest⟩
  · rw [hr]; rfl
  · rw [hr]; rfl
  · rcases hrest with ⟨err, w2, _, hr⟩ | ⟨l1, w2, err, w3, _, _, hr⟩ |
      ⟨l1, w2, l2, w3, err, w4, _, _, _, hr⟩ |
      ⟨l1, w2, l2, w3, l3, w4, err, w5, _, _, _, _, hr⟩ |
      ⟨l1, w2, l2, w3, l3, w4, l4, w5, err, w6, _, _, _, _, _, hr⟩ |
      ⟨l1, w2, l2, w3, l3, w4, l4, w5, l5, w6, _, _, _, _, _,
        ⟨err, w7, _, hr⟩ | ⟨lc, w7, _, _, hr⟩ | ⟨lc, w7, res1, w8, _, _, _, hr⟩⟩
    all_goals
      rw [hr]
      rfl

/-- What a scan with a failed read or a rejected claim in its trace looks like: it returns
an error and the height 0, the failed call is its last call, and only a rejected claim is a
submission. -/
lemma relayEthEvents_failed_call {σ : Type} (s : PeggyOrchestrator σ) (start : Nat) (w : σ)
    (c : Call) (hc : c ∈ (relayEthEvents s start w).calls)
    (hfailed : c.readFailed = true ∨ c.sendRejected = true) :
    (∃ e, (relayEthEvents s start w).err = some e) ∧
    (relayEthEvents s start w).height = 0 ∧
    (relayEthEvents s start w).calls.getLast? = some c ∧
    (c.readFailed = true →
      ∀ d ∈ (relayEthEvents s start w).calls, d.isSendEthereumClaims = false) := by
  have hno : ∀ cs : List Call,
      (∀ d ∈ cs, d.readFailed = false ∧ d.sendRejected = false) → c ∈ cs → False := by
    intro cs hcs hmem
    have := hcs c hmem
    rcases hfailed with h | h <;> simp [h] at this
  rcases relayEthEvents_cases s start w with
    ⟨err, w1, h0, hr⟩ | ⟨hdr, w1, h0, hlag, hr⟩ | ⟨hdr, w1, cur, h0, hlag, hcur, hrest⟩
  · rw [hr] at hc ⊢
    simp only [List.mem_singleton] at hc
    subst hc
    exact ⟨⟨_, rfl⟩, rfl, rfl, fun _ => by simp [Call.isSendEthereumClaims]⟩
  · rw [hr] at hc
    exact (hno _ (by simp [Call.readFailed, Call.sendRejected]) hc).elim
  · rcases hrest with ⟨err, w2, _, hr⟩ | ⟨l1, w2, err, w3, _, _, hr⟩ |
      ⟨l1, w2, l2, w3, err, w4, _, _, _, hr⟩ |
      ⟨l1, w2, l2, w3, l3, w4, err, w5, _, _, _, _, hr⟩ |
      ⟨l1, w2, l2, w3, l3, w4, l4, w5, err, w6, _, _, _, _, _, hr⟩ |
      ⟨l1, w2, l2, w3, l3, w4, l4, w5, l5, w6, _, _, _, _, _,
        ⟨err, w7, _, hr⟩ | ⟨lc, w7, _, _, hr⟩ | ⟨lc, w7, res1, w8, _, _, _, hr⟩⟩
    · rw [hr] at hc ⊢
      simp only [List.mem_cons, List.mem_singleton, List.not_mem_nil, or_false] at hc
      rcases hc with rfl | rfl
      · simp [Call.readFailed, Call.sendRejected] at hfailed
      · exact ⟨⟨_, rfl⟩, rfl, rfl, fun _ => by simp [Call.isSendEthereumClaims]⟩
    · rw [hr] at hc ⊢
      simp only [List.mem_cons, List.mem_singleton, List.not_mem_nil, or_false] at hc
      rcases hc with rfl | rfl | rfl
      · simp [Call.readFailed, Call.sendRejected] at hfailed
      · simp [Call.readFailed, Call.sendRejected] at hfailed
      · exact ⟨⟨_, rfl⟩, rfl, rfl, fun _ => by simp [Call.isSendEthereumClaims]⟩
    · rw [hr] at hc ⊢
      simp only [List.mem_cons, List.mem_singleton, List.not_mem_nil, or_false] at hc
      rcases hc with rfl | rfl | rfl | rfl
      · simp [Call.readFailed, Call.sendRejected] at hfailed
      · simp [Call.readFailed, Call.sendRejected] at hfailed
      · simp [Call.readFailed, Call.sendRejected] at hfailed
      · exact ⟨⟨_, rfl⟩, rfl, rfl, fun _ => by simp [Call.isSendEthereumClaims]⟩
    · rw [hr] at hc ⊢
      simp only [List.mem_cons, List.mem_singleton, List.not_mem_nil, or_false] at hc
      rcases hc with rfl | rfl | rfl | rfl | rfl
      · simp [Call.readFailed, Call.sendRejected] at hfailed
      · simp [Call.readFailed, Call.sendRejected] at hfailed
      · simp [Call.readFailed, Call.sendRejected] at hfailed
      · simp [Call.readFailed, Call.sendRejected] at hfailed
      · exact ⟨⟨_, rfl⟩, rfl, rfl, fun _ => by simp [Call.isSendEthereumClaims]⟩
    · rw [hr] at hc ⊢
      simp only [List.mem_cons, List.mem_singleton, List.not_mem_nil, or_false] at hc
      rcases hc with rfl | rfl | rfl | rfl | rfl | rfl
      · simp [Call.readFailed, Call.sendRejected] at hfailed
      · simp [Call.readFailed, Call.sendRejected] at hfailed
      · simp [Call.readFailed, Call.sendRejected] at hfailed
      · simp [Call.readFailed, Call.sendRejected] at hfailed
      · simp [Call.readFailed, Call.sendRejected] at hfailed
      · exact ⟨⟨_, rfl⟩, rfl, rfl, fun _ => by simp [Call.isSendEthereumClaims]⟩
    · rw [hr] at hc ⊢
      simp only [readsLog, List.mem_append, List.mem_cons, List.mem_singleton,
        List.not_mem_nil, or_false] at hc
      rcases hc with (rfl | rfl | rfl | rfl | rfl | rfl) | rfl
      · simp [Call.readFailed, Call.sendRejected] at hfailed
      · simp [Call.readFailed, Call.sendRejected] at hfailed
      · simp [Call.readFailed, Call.sendRejected] at hfailed
      · simp [Call.readFailed, Call.sendRejected] at hfailed
      · simp [Call.readFailed, Call.sendRejected] at hfailed
      · simp [Call.readFailed, Call.sendRejected] at hfailed
      · exact ⟨⟨_, rfl⟩, rfl, by simp [readsLog],
          fun _ => by simp [readsLog, Call.isSendEthereumClaims]⟩
    · rw [hr] at hc
      exact (hno _ (by simp [readsLog, Call.readFailed, Call.sendRejected]) hc).elim
    · rw [hr] at hc ⊢
      cases res1 with
      | none =>
        exact (hno _ (by simp [readsLog, Call.readFailed, Call.sendRejected]) hc).elim
      | some e =>
        simp only [readsLog, List.mem_append, List.mem_cons, List.mem_singleton,
          List.not_mem_nil, or_false] at hc
        rcases hc with (rfl | rfl | rfl | rfl | rfl | rfl) | rfl | rfl
        · simp [Call.readFailed, Call.sendRejected] at hfailed
        · simp [Call.readFailed, Call.sendRejected] at hfailed
        · simp [Call.readFailed, Call.sendRejected] at hfailed
        · simp [Call.readFailed, Call.sendRejected] at hfailed
        · simp [Call.readFailed, Call.sendRejected] at hfailed
        · simp [Call.readFailed, Call.sendRejected] at hfailed
        · simp [Call.readFailed, Call.sendRejected] at hfailed
        · exact ⟨⟨_, rfl⟩, rfl, by simp [readsLog],
            fun h => by simp [Call.readFailed] at h⟩

/-! ## Claims on the start of the loop and on the resync -/

/-- C11: with at least one attempt allowed, the start of `EthOracleMainLoop` enters the
loop with the cursor at the `EthereumEventHeight` of the last claim when the last claim
read answers with a non-zero height, and at the `BridgeContractStartHeight` of the module
parameters when it answers with the height zero and the parameter read succeeds. -/
theorem EthOracleMainLoop_initial_cursor {σ : Type} (s : PeggyOrchestrator σ)
    (timeNow : σ → Int × σ) (w : σ) (hattempts : 0 < s.maxAttempts) :
    (∀ lc w2, s.injective.LastClaimEvent (timeNow w).2 = (.ok lc, w2) →
      lc.EthereumEventHeight ≠ 0 →
      EthOracleMainLoop s timeNow w =
        .looping ⟨lc.EthereumEventHeight, (timeNow w).1⟩ w2 [.LastClaimEvent (.ok lc)]) ∧
    (∀ lc w2 peggyParams w3, s.injective.LastClaimEvent (timeNow w).2 = (.ok lc, w2) →
      lc.EthereumEventHeight = 0 →
      s.injective.PeggyParams w2 = (.ok peggyParams, w3) →
      EthOracleMainLoop s timeNow w =
        .looping ⟨peggyParams.BridgeContractStartHeight, (timeNow w).1⟩ w3
          [.LastClaimEvent (.ok lc), .PeggyParams (.ok peggyParams)]) := by
  constructor
  · intro lc w2 hlc hne
    have hfn : retryFn s ⟨0, false, (timeNow w).2, []⟩ =
        (none, ⟨lc.EthereumEventHeight, false, w2, [.LastClaimEvent (.ok lc)]⟩) := by
      simp [retryFn, getLastConfirmedEthHeight, hlc, hne]
    unfold EthOracleMainLoop
    simp [retryDo_first_ok _ _ hattempts _ _ hfn]
  · intro lc w2 peggyParams w3 hlc hzero hparams
    have hfn : retryFn s ⟨0, false, (timeNow w).2, []⟩ =
        (none, ⟨peggyParams.BridgeContractStartHeight, false, w3,
          [.LastClaimEvent (.ok lc), .PeggyParams (.ok peggyParams)]⟩) := by
      simp [retryFn, getLastConfirmedEthHeight, hlc, hzero, hparams]
    unfold EthOracleMainLoop
    simp [retryDo_first_ok _ _ hattempts _ _ hfn]

/-- C11 at two starts: a last claim in block 905 puts the cursor at 905; a last claim
with height zero puts it at the start height 800 of the module parameters. -/
theorem EthOracleMainLoop_initial_cursor_witness :
    EthOracleMainLoop (startOrchestrator (.ok ⟨9, 905⟩) (.ok ⟨800⟩) 3) (fixedClock 7) () =
      .looping ⟨905, 7⟩ () [.LastClaimEvent (.ok ⟨9, 905⟩)] ∧
    EthOracleMainLoop (startOrchestrator (.ok ⟨0, 0⟩) (.ok ⟨800⟩) 3) (fixedClock 7) () =
      .looping ⟨800, 7⟩ () [.LastClaimEvent (.ok ⟨0, 0⟩), .PeggyParams (.ok ⟨800⟩)] :=
  ⟨(EthOracleMainLoop_initial_cursor (startOrchestrator (.ok ⟨9, 905⟩) (.ok ⟨800⟩) 3)
      (fixedClock 7) () (by decide)).1 ⟨9, 905⟩ () rfl (by decide),
    (EthOracleMainLoop_initial_cursor (startOrchestrator (.ok ⟨0, 0⟩) (.ok ⟨800⟩) 3)
      (fixedClock 7) () (by decide)).2 ⟨0, 0⟩ () ⟨800⟩ () rfl rfl rfl⟩

/-- A resync read that returns no error returns the height of the last claim it read. -/
lemma resyncAttempt_ok {σ : Type} (s : PeggyOrchestrator σ) (st0 : Nat × σ × List Call)
    (h : Nat) (w3 : σ) (calls3 : List Call)
    (hrun : resyncAttempt s st0 = (none, (h, w3, calls3))) :
    ∃ lc, s.injective.LastClaimEvent st0.2.1 = (.ok lc, w3) ∧
      h = lc.EthereumEventHeight ∧ calls3 = st0.2.2 ++ [.LastClaimEvent (.ok lc)] := by
  unfold resyncAttempt getLastConfirmedEthHeight at hrun
  rcases hlc : s.injective.LastClaimEvent st0.2.1 with ⟨err | lc, w2⟩
  · simp [hlc] at hrun
  · simp only [hlc, Prod.mk.injEq, true_and] at hrun
    obtain ⟨h1, h2, h3⟩ := hrun
    exact ⟨lc, by rw [h2], h1.symm, h3.symm⟩

/-- C12: take a tick whose scan succeeded, returning the height `cur`. If the clock, read
after the scan, shows less than 48 hours since `lastResync`, the tick ends without error
with the cursor at `cur` and `lastResync` unchanged. If it shows 48 hours or more and the
retried read of the last claim succeeds, the tick ends without error with the cursor at the
`EthereumEventHeight` of the last claim read, whatever `cur` and the old cursor were, and
with `lastResync` at the time read after the resync. -/
theorem loopBody_resync {σ : Type} (s : PeggyOrchestrator σ) (timeNow : σ → Int × σ)
    (st : LoopState) (w w1 : σ) (cur : Nat) (calls : List Call)
    (hscan : retryDo (relayAttempt s st.lastConfirmedEthHeight) s.maxAttempts (0, w, []) =
      (none, (cur, w1, calls))) :
    ((timeNow w1).1 - st.lastResync < resyncInterval →
      (loopBody s timeNow st w).err = none ∧
      (loopBody s timeNow st w).state = ⟨cur, st.lastResync⟩ ∧
      (loopBody s timeNow st w).calls = calls) ∧
    ((timeNow w1).1 - st.lastResync ≥ resyncInterval →
      ∀ h w3 calls3,
        retryDo (resyncAttempt s) s.maxAttempts (cur, (timeNow w1).2, calls) =
          (none, (h, w3, calls3)) →
        (loopBody s timeNow st w).err = none ∧
        (loopBody s timeNow st w).state = ⟨h, (timeNow w3).1⟩ ∧
        ∃ lc, calls3.getLast? = some (.LastClaimEvent (.ok lc)) ∧
          (loopBody s timeNow st w).state.lastConfirmedEthHeight = lc.EthereumEventHeight) := by
  constructor
  · intro hfresh
    have hnot : ¬ (timeNow w1).1 - st.lastResync ≥ resyncInterval := by omega
    unfold loopBody
    simp only [hscan, hnot, if_false, and_self]
  · intro hdue h w3 calls3 hresync
    obtain ⟨st0, hst0⟩ := retryLoop_ok _ _ _ _ _ hresync
    obtain ⟨lc, -, hh, hcalls⟩ := resyncAttempt_ok s st0 h w3 calls3 hst0
    unfold loopBody
    simp only [hscan, hdue, if_true, hresync, true_and]
    exact ⟨lc, by rw [hcalls]; simp, hh⟩

/-- C12 at two ticks from the cursor 900 at head 1000: with the clock at 5 the cursor
becomes the scan result 920 and `lastResync` stays 0; with the clock past 48 hours and a
last claim of height 0 the cursor becomes 0 and `lastResync` the clock time. -/
theorem loopBody_resync_witness :
    (loopBody (startOrchestrator (.ok ⟨9, 0⟩) (.ok ⟨800⟩) 3) (fixedClock 5)
      ⟨900, 0⟩ ()).state = ⟨920, 0⟩ ∧
    (loopBody (startOrchestrator (.ok ⟨9, 0⟩) (.ok ⟨800⟩) 3) (fixedClock (resyncInterval + 1))
      ⟨900, 0⟩ ()).state = ⟨0, resyncInterval + 1⟩ :=
  ⟨((loopBody_resync (startOrchestrator (.ok ⟨9, 0⟩) (.ok ⟨800⟩) 3) (fixedClock 5)
      ⟨900, 0⟩ () () 920 _ rfl).1 (by decide)).2.1,
    ((loopBody_resync (startOrchestrator (.ok ⟨9, 0⟩) (.ok ⟨800⟩) 3)
      (fixedClock (resyncInterval + 1)) ⟨900, 0⟩ () () 920 _ rfl).2 (by decide)
      0 () _ rfl).2.1⟩

/-! ## Claims on failures -/

/-- The number of header reads among the calls of the closure state of a retried scan. -/
lemma relayAttempt_header_count {σ : Type} (s : PeggyOrchestrator σ) (start : Nat) (k : Nat)
    (st : Nat × σ × List Call) (hk : st.2.2.countP Call.isHeaderByNumber = k) :
    (relayAttempt s start st).2.2.2.countP Call.isHeaderByNumber = k + 1 := by
  simp only [relayAttempt, List.countP_append, relayEthEvents_one_header, hk]

/-- A resync read adds no header read. -/
lemma resyncAttempt_header_count {σ : Type} (s : PeggyOrchestrator σ) (k : Nat)
    (st : Nat × σ × List Call) (hk : st.2.2.countP Call.isHeaderByNumber = k) :
    (resyncAttempt s st).2.2.2.countP Call.isHeaderByNumber = k := by
  unfold resyncAttempt getLastConfirmedEthHeight
  rcases hlc : s.injective.LastClaimEvent st.2.1 with ⟨err | lc, w2⟩ <;>
    simp [List.countP_append, hk, Call.isHeaderByNumber, List.countP_cons]

/-- A tick makes at most `maxAttempts` scans. -/
lemma loopBody_scans_le {σ : Type} (s : PeggyOrchestrator σ) (timeNow : σ → Int × σ)
    (st : LoopState) (w : σ) :
    (loopBody s timeNow st w).calls.countP Call.isHeaderByNumber ≤ s.maxAttempts := by
  obtain ⟨k, hk, hQ, -⟩ := retryLoop_attempts (relayAttempt s st.lastConfirmedEthHeight)
    (fun k st1 => st1.2.2.countP Call.isHeaderByNumber = k)
    (fun k st1 h => relayAttempt_header_count s _ k st1 h) s.maxAttempts [] (0, w, []) 0 rfl
  unfold loopBody
  rcases hr : retryDo (relayAttempt s st.lastConfirmedEthHeight) s.maxAttempts (0, w, [])
    with ⟨_ | errs, cur, w1, calls⟩
  · have hcount : calls.countP Call.isHeaderByNumber = 0 + k := by
      have := hQ
      unfold retryDo at hr
      rw [hr] at this
      exact this
    simp only
    split
    · obtain ⟨j, -, hQ2, -⟩ := retryLoop_attempts (resyncAttempt s)
        (fun _ st1 => st1.2.2.countP Call.isHeaderByNumber = 0 + k)
        (fun _ st1 h => resyncAttempt_header_count s _ st1 h) s.maxAttempts []
        (cur, (timeNow w1).2, calls) 0 hcount
      rcases hr2 : retryDo (resyncAttempt s) s.maxAttempts (cur, (timeNow w1).2, calls)
        with ⟨_ | errs2, h, w3, calls3⟩
      · unfold retryDo at hr2
        rw [hr2] at hQ2
        simp only at hQ2 ⊢
        omega
      · unfold retryDo at hr2
        rw [hr2] at hQ2
        simp only at hQ2 ⊢
        omega
    · simp only
      omega
  · have hcount : calls.countP Call.isHeaderByNumber = 0 + k := by
      have := hQ
      unfold retryDo at hr
      rw [hr] at this
      exact this
    simp only
    omega

/-- A tick whose scan fails in every world makes `maxAttempts` scans and returns their
errors, leaving the loop variables as they were. -/
lemma loopBody_all_scans_fail {σ : Type} (s : PeggyOrchestrator σ) (timeNow : σ → Int × σ)
    (st : LoopState) (w : σ)
    (hfail : ∀ w1, (relayEthEvents s st.lastConfirmedEthHeight w1).err ≠ none) :
    ∃ errs, (loopBody s timeNow st w).err = some errs ∧ errs.length = s.maxAttempts ∧
      (loopBody s timeNow st w).state = st ∧
      (loopBody s timeNow st w).calls.countP Call.isHeaderByNumber = s.maxAttempts := by
  obtain ⟨errs, herrs⟩ := retryLoop_all_fail (relayAttempt s st.lastConfirmedEthHeight)
    (fun st1 => by simpa [relayAttempt] using hfail st1.2.1) s.maxAttempts [] (0, w, [])
  obtain ⟨k, hk, hQ, hlen⟩ := retryLoop_attempts (relayAttempt s st.lastConfirmedEthHeight)
    (fun k st1 => st1.2.2.countP Call.isHeaderByNumber = k)
    (fun k st1 h => relayAttempt_header_count s _ k st1 h) s.maxAttempts [] (0, w, []) 0 rfl
  obtain ⟨hkn, hlength⟩ := hlen errs herrs
  rcases hr : retryLoop (relayAttempt s st.lastConfirmedEthHeight) s.maxAttempts [] (0, w, [])
    with ⟨res, cur, w1, calls⟩
  rw [hr] at herrs hQ
  simp only at herrs hQ
  subst herrs
  refine ⟨errs, ?_, by simpa using hlength, ?_, ?_⟩
  · unfold loopBody retryDo
    simp only [hr]
  · unfold loopBody retryDo
    simp only [hr]
  · unfold loopBody retryDo
    simp only [hr]
    omega

/-- C13: if one of the six reads of a call of `relayEthEvents` fails, the call returns an
error and the height 0, the failed read is its last wire call (no later read is issued) and
it makes no `SendEthereumClaims` call. A tick makes at most `maxAttempts` scans; and a tick
whose scan fails in every world makes exactly `maxAttempts` scans and returns their
errors. -/
theorem relayEthEvents_read_failure {σ : Type} (s : PeggyOrchestrator σ) (start : Nat)
    (w : σ) (timeNow : σ → Int × σ) (st : LoopState) :
    (∀ c ∈ (relayEthEvents s start w).calls, c.readFailed = true →
      (∃ e, (relayEthEvents s start w).err = some e) ∧
      (relayEthEvents s start w).height = 0 ∧
      (relayEthEvents s start w).calls.getLast? = some c ∧
      ∀ d ∈ (relayEthEvents s start w).calls, d.isSendEthereumClaims = false) ∧
    (loopBody s timeNow st w).calls.countP Call.isHeaderByNumber ≤ s.maxAttempts ∧
    ((∀ w1, (relayEthEvents s st.lastConfirmedEthHeight w1).err ≠ none) →
      ∃ errs, (loopBody s timeNow st w).err = some errs ∧ errs.length = s.maxAttempts ∧
        (loopBody s timeNow st w).calls.countP Call.isHeaderByNumber = s.maxAttempts) := by
  refine ⟨?_, loopBody_scans_le s timeNow st w, ?_⟩
  · intro c hc hfailed
    obtain ⟨h1, h2, h3, h4⟩ := relayEthEvents_failed_call s start w c hc (Or.inl hfailed)
    exact ⟨h1, h2, h3, h4 hfailed⟩
  · intro hfail
    obtain ⟨errs, h1, h2, -, h4⟩ := loopBody_all_scans_fail s timeNow st w hfail
    exact ⟨errs, h1, h2, h4⟩

/-- C13 with a deposit fetch that times out and three attempts allowed: the scan returns
the wrapped error and the height 0 after three wire calls, and the tick makes three scans
and returns three errors. -/
theorem relayEthEvents_read_failure_witness :
    (relayEthEvents (failingOrchestrator 3) 900 ()).err =
      some "failed to get SendToInjective events: timeout" ∧
    (relayEthEvents (failingOrchestrator 3) 900 ()).height = 0 ∧
    (relayEthEvents (failingOrchestrator 3) 900 ()).calls.getLast? =
      some (.GetSendToInjectiveEvents 900 920 (.error "timeout")) ∧
    (relayEthEvents (failingOrchestrator 3) 900 ()).calls.length = 3 ∧
    (loopBody (failingOrchestrator 3) (fixedClock 5) ⟨900, 0⟩ ()).calls.countP
      Call.isHeaderByNumber = 3 ∧
    ((loopBody (failingOrchestrator 3) (fixedClock 5) ⟨900, 0⟩ ()).err.map List.length)
      = some 3 :=
  have h := relayEthEvents_read_failure (failingOrchestrator 3) 900 () (fixedClock 5) ⟨900, 0⟩
  have h1 := h.1 (.GetSendToInjectiveEvents 900 920 (.error "timeout")) (by decide) rfl
  ⟨by decide, h1.2.1, h1.2.2.1, by decide, by decide, by decide⟩

/-- C20: take a tick whose retried scan ends with an error, that is, in which
`relayEthEvents` returned an error at each of the `maxAttempts` attempts. The tick body
returns that error, one entry per attempt; the loop variables are those from before the
tick, the height 0 returned with the errors is not stored; and the tick ends where the
retry ended, with no wire call after those of the scans and `lastResync` unchanged. -/
theorem loopBody_scan_exhausted {σ : Type} (s : PeggyOrchestrator σ)
    (timeNow : σ → Int × σ) (st : LoopState) (w w1 : σ) (errs : List Error) (cur : Nat)
    (calls : List Call)
    (hscan : retryDo (relayAttempt s st.lastConfirmedEthHeight) s.maxAttempts (0, w, []) =
      (some errs, (cur, w1, calls))) :
    (loopBody s timeNow st w).err = some errs ∧
    errs.length = s.maxAttempts ∧
    (loopBody s timeNow st w).state = st ∧
    (loopBody s timeNow st w).world = w1 ∧
    (loopBody s timeNow st w).calls = calls ∧
    calls.countP Call.isHeaderByNumber = s.maxAttempts := by
  obtain ⟨k, hk, hQ, hlen⟩ := retryLoop_attempts (relayAttempt s st.lastConfirmedEthHeight)
    (fun k st1 => st1.2.2.countP Call.isHeaderByNumber = k)
    (fun k st1 h => relayAttempt_header_count s _ k st1 h) s.maxAttempts [] (0, w, []) 0 rfl
  have hscan1 := hscan
  unfold retryDo at hscan1
  rw [hscan1] at hQ hlen
  obtain ⟨hkn, hlength⟩ := hlen errs rfl
  refine ⟨?_, by simpa using hlength, ?_, ?_, ?_, ?_⟩
  · unfold loopBody
    simp only [hscan]
  · unfold loopBody
    simp only [hscan]
  · unfold loopBody
    simp only [hscan]
  · unfold loopBody
    simp only [hscan]
  · simp only at hQ
    omega

/-- C20 with a node that rejects every claim and two attempts allowed: the tick returns
the two errors, the cursor stays 900 and `lastResync` stays 0, also with the resync due. -/
theorem loopBody_scan_exhausted_witness :
    (loopBody (rejectingOrchestrator 2) (fixedClock (resyncInterval + 1)) ⟨900, 0⟩ ()).err =
      some ["failed to send event claims to Injective: rejected",
        "failed to send event claims to Injective: rejected"] ∧
    (loopBody (rejectingOrchestrator 2) (fixedClock (resyncInterval + 1)) ⟨900, 0⟩ ()).state =
      ⟨900, 0⟩ :=
  have h := loopBody_scan_exhausted (rejectingOrchestrator 2) (fixedClock (resyncInterval + 1))
    ⟨900, 0⟩ () () _ 0 _ rfl
  ⟨h.1, h.2.2.1⟩

/-- C14, as stated, fails: take a tick of the seed scenario in which the node rejects the
claim and one in which the deposit fetch fails, one attempt each. Both ticks end with an
error and the cursor unchanged. Whichever way the driver treats a body error, it is not the
case that the loop goes on after the rejection and exits after the read failure: a driver
that returns errors exits on both, a driver that logs and continues exits on neither. -/
theorem rejection_and_read_failure_end_alike :
    (loopBody (rejectingOrchestrator 1) (fixedClock 5) ⟨900, 0⟩ ()).err =
      some ["failed to send event claims to Injective: rejected"] ∧
    (loopBody (rejectingOrchestrator 1) (fixedClock 5) ⟨900, 0⟩ ()).state = ⟨900, 0⟩ ∧
    (loopBody (failingOrchestrator 1) (fixedClock 5) ⟨900, 0⟩ ()).err =
      some ["failed to get SendToInjective events: timeout"] ∧
    ¬ ((RunLoop true (loopBody (rejectingOrchestrator 1) (fixedClock 5)) 3 0
          ⟨900, 0⟩ ()).err = none ∧
        (RunLoop true (loopBody (failingOrchestrator 1) (fixedClock 5)) 3 0
          ⟨900, 0⟩ ()).err ≠ none) ∧
    ¬ ((RunLoop false (loopBody (rejectingOrchestrator 1) (fixedClock 5)) 3 0
          ⟨900, 0⟩ ()).err = none ∧
        (RunLoop false (loopBody (failingOrchestrator 1) (fixedClock 5)) 3 0
          ⟨900, 0⟩ ()).err ≠ none) := by
  decide

/-- C14, amended: take a tick in which every scan ends in a rejected claim, or in which
every scan ends in a failed read. In both cases alike the scan is made `maxAttempts` times
and the tick ends with the errors of the attempts and with the loop variables unchanged.
The driver gets the error in the same way in both cases: a driver that returns body errors
ends the loop with it at this tick, a driver that logs and continues runs the next tick
from the unchanged cursor. -/
theorem loopBody_rejection_like_read_failure {σ : Type} (s : PeggyOrchestrator σ)
    (timeNow : σ → Int × σ) (st : LoopState) (w : σ)
    (hkind :
      (∀ w1, ∃ c, (relayEthEvents s st.lastConfirmedEthHeight w1).calls.getLast? = some c ∧
        c.sendRejected = true) ∨
      (∀ w1, ∃ c, (relayEthEvents s st.lastConfirmedEthHeight w1).calls.getLast? = some c ∧
        c.readFailed = true)) :
    ∃ errs, (loopBody s timeNow st w).err = some errs ∧ errs.length = s.maxAttempts ∧
      (loopBody s timeNow st w).state = st ∧
      (loopBody s timeNow st w).calls.countP Call.isHeaderByNumber = s.maxAttempts ∧
      (∀ budget ticks, RunLoop true (loopBody s timeNow) (budget + 1) ticks st w =
        ⟨some errs, ticks + 1, st, (loopBody s timeNow st w).world⟩) ∧
      (∀ budget ticks, RunLoop false (loopBody s timeNow) (budget + 1) ticks st w =
        RunLoop false (loopBody s timeNow) budget (ticks + 1) st
          (loopBody s timeNow st w).world) := by
  have hfail : ∀ w1, (relayEthEvents s st.lastConfirmedEthHeight w1).err ≠ none := by
    intro w1
    rcases hkind with hrej | hread
    · obtain ⟨c, hlast, hc⟩ := hrej w1
      obtain ⟨⟨e, he⟩, -⟩ := relayEthEvents_failed_call s _ w1 c
        (List.mem_of_getLast?_eq_some hlast) (Or.inr hc)
      simp [he]
    · obtain ⟨c, hlast, hc⟩ := hread w1
      obtain ⟨⟨e, he⟩, -⟩ := relayEthEvents_failed_call s _ w1 c
        (List.mem_of_getLast?_eq_some hlast) (Or.inl hc)
      simp [he]
  obtain ⟨errs, herr, hlen, hstate, hcount⟩ := loopBody_all_scans_fail s timeNow st w hfail
  refine ⟨errs, herr, hlen, hstate, hcount, ?_, ?_⟩
  · intro budget ticks
    simp only [RunLoop, herr, hstate, if_true]
  · intro budget ticks
    simp only [RunLoop, herr, hstate]
    rfl

/-- The amended C14 at the seed scenario with two attempts: the tick of the rejecting node
and the tick of the failing node both return two errors and leave the cursor at 900. -/
theorem loopBody_rejection_like_read_failure_witness :
    (∃ errs, (loopBody (rejectingOrchestrator 2) (fixedClock 5) ⟨900, 0⟩ ()).err = some errs ∧
      errs.length = 2 ∧
      (loopBody (rejectingOrchestrator 2) (fixedClock 5) ⟨900, 0⟩ ()).state = ⟨900, 0⟩) ∧
    (∃ errs, (loopBody (failingOrchestrator 2) (fixedClock 5) ⟨900, 0⟩ ()).err = some errs ∧
      errs.length = 2 ∧
      (loopBody (failingOrchestrator 2) (fixedClock 5) ⟨900, 0⟩ ()).state = ⟨900, 0⟩) :=
  have h1 := loopBody_rejection_like_read_failure (rejectingOrchestrator 2) (fixedClock 5)
    ⟨900, 0⟩ () (Or.inl fun _ => ⟨.SendEthereumClaims 9 [] seedDeposits [] [] []
      (some "rejected"), rfl, rfl⟩)
  have h2 := loopBody_rejection_like_read_failure (failingOrchestrator 2) (fixedClock 5)
    ⟨900, 0⟩ () (Or.inr fun _ => ⟨.GetSendToInjectiveEvents 900 920 (.error "timeout"),
      rfl, rfl⟩)
  ⟨h1.elim fun errs h => ⟨errs, h.1, h.2.1, h.2.2.1⟩,
    h2.elim fun errs h => ⟨errs, h.1, h.2.1, h.2.2.1⟩⟩

/-! ## Claims on the two edges of the guard -/

/-- C18: take a call of `relayEthEvents` that reads a head `h ≥ 12` with `h - 12` equal to
the cursor `s`. The call does not stop after the header read: it issues the first event
fetch from block `s`; every event fetch asks for the blocks `s` to `min s (s + 20)`, the
sum taken in `uint64`, which is `s` to `s` when `s + 20` fits in 64 bits; all five fetches
are issued unless one of them fails; if no fetch fails the last claim is read next;
and a call that returns no error returns `s`. -/
theorem relayEthEvents_one_block_window {σ : Type} (s : PeggyOrchestrator σ) (start : Nat)
    (w w1 : σ) (hdr : Header)
    (h0 : s.ethereum.HeaderByNumber w = (.ok hdr, w1))
    (h12 : 12 ≤ Uint64 hdr.Number) (heq : Uint64 hdr.Number - 12 = start) :
    (∃ res rest, (relayEthEvents s start w).calls =
      .HeaderByNumber (.ok hdr) ::
        .GetSendToCosmosEvents start (min start (addU64 start defaultBlocksToSearch)) res ::
        rest) ∧
    (∀ c ∈ (relayEthEvents s start w).calls, ∀ rg, c.fetchRange = some rg →
      rg = (start, min start (addU64 start defaultBlocksToSearch))) ∧
    (start + 20 < 2 ^ 64 → min start (addU64 start defaultBlocksToSearch) = start) ∧
    ((relayEthEvents s start w).calls.filterMap Call.fetchRange =
        List.replicate 5 (start, min start (addU64 start defaultBlocksToSearch)) ∨
      ∃ c, (relayEthEvents s start w).calls.getLast? = some c ∧ c.fetchFailed = true) ∧
    ((∀ c ∈ (relayEthEvents s start w).calls, c.fetchFailed = false) →
      ∃ res, (relayEthEvents s start w).calls.get? 6 = some (.LastClaimEvent res)) ∧
    ((relayEthEvents s start w).err = none →
      (relayEthEvents s start w).height =
        min start (addU64 start defaultBlocksToSearch)) := by
  have hsub : subU64 (Uint64 hdr.Number) ethBlockConfirmationDelay = start := by
    rw [subU64_delay_of_le _ h12 (Uint64_lt hdr.Number), heq]
  refine ⟨?_, ?_, ?_, ?_, ?_, ?_⟩
  · rcases relayEthEvents_cases s start w with
      ⟨err, w1a, h0a, hr⟩ | ⟨hdr1, w1a, h0a, hlag, hr⟩ |
      ⟨hdr1, w1a, cur, h0a, hlag, hcur, hrest⟩
    · rw [h0] at h0a; simp at h0a
    · rw [h0] at h0a
      obtain ⟨rfl, rfl⟩ : hdr = hdr1 ∧ w1 = w1a := by simpa using h0a
      omega
    · rw [h0] at h0a
      obtain ⟨rfl, rfl⟩ : hdr = hdr1 ∧ w1 = w1a := by simpa using h0a
      rw [window_end_eq_min, hsub] at hcur
      rw [← hcur]
      rcases hrest with ⟨err, w2, _, hr⟩ | ⟨l1, w2, err, w3, _, _, hr⟩ |
        ⟨l1, w2, l2, w3, err, w4, _, _, _, hr⟩ |
        ⟨l1, w2, l2, w3, l3, w4, err, w5, _, _, _, _, hr⟩ |
        ⟨l1, w2, l2, w3, l3, w4, l4, w5, err, w6, _, _, _, _, _, hr⟩ |
        ⟨l1, w2, l2, w3, l3, w4, l4, w5, l5, w6, _, _, _, _, _,
          ⟨err, w7, _, hr⟩ | ⟨lc, w7, _, _, hr⟩ | ⟨lc, w7, res1, w8, _, _, _, hr⟩⟩
      all_goals
        rw [hr]
        exact ⟨_, _, rfl⟩
  · intro c hc rg hrg
    obtain ⟨hdr1, w1a, h0a, -, hrange⟩ := relayEthEvents_fetch_ranges s start w c hc rg hrg
    rw [h0] at h0a
    obtain ⟨rfl, rfl⟩ : hdr = hdr1 ∧ w1 = w1a := by simpa using h0a
    rw [hrange, hsub]
  · intro hrep
    rw [addU64_search_of_lt _ hrep]
    omega
  · rcases relayEthEvents_cases s start w with
      ⟨err, w1a, h0a, hr⟩ | ⟨hdr1, w1a, h0a, hlag, hr⟩ |
      ⟨hdr1, w1a, cur, h0a, hlag, hcur, hrest⟩
    · rw [h0] at h0a; simp at h0a
    · rw [h0] at h0a
      obtain ⟨rfl, rfl⟩ : hdr = hdr1 ∧ w1 = w1a := by simpa using h0a
      omega
    · rw [h0] at h0a
      obtain ⟨rfl, rfl⟩ : hdr = hdr1 ∧ w1 = w1a := by simpa using h0a
      rw [window_end_eq_min, hsub] at hcur
      rw [← hcur]
      rcases hrest with ⟨err, w2, _, hr⟩ | ⟨l1, w2, err, w3, _, _, hr⟩ |
        ⟨l1, w2, l2, w3, err, w4, _, _, _, hr⟩ |
        ⟨l1, w2, l2, w3, l3, w4, err, w5, _, _, _, _, hr⟩ |
        ⟨l1, w2, l2, w3, l3, w4, l4, w5, err, w6, _, _, _, _, _, hr⟩ |
        ⟨l1, w2, l2, w3, l3, w4, l4, w5, l5, w6, _, _, _, _, _,
          ⟨err, w7, _, hr⟩ | ⟨lc, w7, _, _, hr⟩ | ⟨lc, w7, res1, w8, _, _, _, hr⟩⟩
      · right; rw [hr]; exact ⟨_, rfl, rfl⟩
      · right; rw [hr]; exact ⟨_, rfl, rfl⟩
      · right; rw [hr]; exact ⟨_, rfl, rfl⟩
      · right; rw [hr]; exact ⟨_, rfl, rfl⟩
      · right; rw [hr]; exact ⟨_, rfl, rfl⟩
      · left; rw [hr]; rfl
      · left; rw [hr]; rfl
      · left; rw [hr]; rfl
  · rcases relayEthEvents_cases s start w with
      ⟨err, w1a, h0a, hr⟩ | ⟨hdr1, w1a, h0a, hlag, hr⟩ |
      ⟨hdr1, w1a, cur, h0a, hlag, hcur, hrest⟩
    · rw [h0] at h0a; simp at h0a
    · rw [h0] at h0a
      obtain ⟨rfl, rfl⟩ : hdr = hdr1 ∧ w1 = w1a := by simpa using h0a
      omega
    · rcases hrest with ⟨err, w2, _, hr⟩ | ⟨l1, w2, err, w3, _, _, hr⟩ |
        ⟨l1, w2, l2, w3, err, w4, _, _, _, hr⟩ |
        ⟨l1, w2, l2, w3, l3, w4, err, w5, _, _, _, _, hr⟩ |
        ⟨l1, w2, l2, w3, l3, w4, l4, w5, err, w6, _, _, _, _, _, hr⟩ |
        ⟨l1, w2, l2, w3, l3, w4, l4, w5, l5, w6, _, _, _, _, _,
          ⟨err, w7, _, hr⟩ | ⟨lc, w7, _, _, hr⟩ | ⟨lc, w7, res1, w8, _, _, _, hr⟩⟩
      · rw [hr]; intro hnone; simp [Call.fetchFailed] at hnone
      · rw [hr]; intro hnone; simp [Call.fetchFailed] at hnone
      · rw [hr]; intro hnone; simp [Call.fetchFailed] at hnone
      · rw [hr]; intro hnone; simp [Call.fetchFailed] at hnone
      · rw [hr]; intro hnone; simp [Call.fetchFailed] at hnone
      · rw [hr]; intro _; exact ⟨_, rfl⟩
      · rw [hr]; intro _; exact ⟨_, rfl⟩
      · rw [hr]; intro _; exact ⟨_, rfl⟩
  · intro hok
    obtain ⟨hdr1, w1a, h0a, hheight⟩ := relayEthEvents_height_of_ok s start w hok
    rw [h0] at h0a
    obtain ⟨rfl, rfl⟩ : hdr = hdr1 ∧ w1 = w1a := by simpa using h0a
    rw [hheight, hsub, if_neg (by omega)]

/-- C18 at head 912 and cursor 900: the scan asks for the one block 900, reads the last
claim and returns 900. -/
theorem relayEthEvents_one_block_window_witness :
    (relayEthEvents (scriptedOrchestrator 912 seedDeposits ⟨9, 0⟩) 900 ()).calls =
      readsLog ⟨912⟩ 900 900 [] [] [] [] [] ++ [.LastClaimEvent (.ok ⟨9, 0⟩)] ∧
    ((900, 900) : Nat × Nat) = (900, min 900 (addU64 900 defaultBlocksToSearch)) ∧
    (relayEthEvents (scriptedOrchestrator 912 seedDeposits ⟨9, 0⟩) 900 ()).height =
      min 900 (addU64 900 defaultBlocksToSearch) ∧
    min 900 (addU64 900 defaultBlocksToSearch) = 900 :=
  have h := relayEthEvents_one_block_window (scriptedOrchestrator 912 seedDeposits ⟨9, 0⟩)
    900 () () ⟨912⟩ rfl (by decide) (by decide)
  ⟨by decide, h.2.1 (.GetValsetUpdatedEvents 900 900 (.ok [])) (by decide) (900, 900) rfl,
    h.2.2.2.2.2 (by decide), h.2.2.1 (by norm_num)⟩

/-- C19: a call of `relayEthEvents` that reads a head `h ≥ 12` with `h - 12` below the
cursor makes no wire call after the header read (no event fetch, no last claim read, no
claim submission) and returns without error; the height it returns is `h - 12`. -/
theorem relayEthEvents_lagging_head {σ : Type} (s : PeggyOrchestrator σ) (start : Nat)
    (w w1 : σ) (hdr : Header)
    (h0 : s.ethereum.HeaderByNumber w = (.ok hdr, w1))
    (h12 : 12 ≤ Uint64 hdr.Number) (hlt : Uint64 hdr.Number - 12 < start) :
    relayEthEvents s start w =
      ⟨Uint64 hdr.Number - 12, none, w1, [.HeaderByNumber (.ok hdr)]⟩ := by
  have hsub := subU64_delay_of_le _ h12 (Uint64_lt hdr.Number)
  unfold relayEthEvents
  simp only [h0, hsub, hlt, if_true]

/-- C19 at head 100 and cursor 900: the header read is the only wire call, no error is
returned and the height returned is 88. -/
theorem relayEthEvents_lagging_head_witness :
    relayEthEvents (scriptedOrchestrator 100 seedDeposits ⟨9, 0⟩) 900 () =
      ⟨Uint64 100 - 12, none, (), [.HeaderByNumber (.ok ⟨100⟩)]⟩ :=
  relayEthEvents_lagging_head (scriptedOrchestrator 100 seedDeposits ⟨9, 0⟩) 900 () ()
    ⟨100⟩ rfl (by decide) (by decide)

/-! ## Lemmas on the stages of the relayer -/

/-- The choice of the candidate valset: its steps are confirm fetches; if a candidate is
chosen it is one of the valsets, its confirms are not empty and were the answer of the last
fetch; if every valset has an empty confirm list no candidate is chosen; and a failed
fetch is the error of the stage. -/
lemma firstConfirmedValset_spec {σ : Type} (inj : RelayerInjectiveNetwork σ)
    (vs : List Valset) (w : σ) :
    (∀ c ∈ (firstConfirmedValset inj vs w).calls,
      c.onEthereum = false ∧ c.isSubmission = false) ∧
    (∀ cand confs, (firstConfirmedValset inj vs w).val = .ok (some (cand, confs)) →
      cand ∈ vs ∧ confs ≠ [] ∧
      (firstConfirmedValset inj vs w).calls.getLast? =
        some (.AllValsetConfirms cand.Nonce (.ok confs))) ∧
    ((∀ v ∈ vs, ∀ w1, (inj.AllValsetConfirms v.Nonce w1).1 = .ok []) →
      (firstConfirmedValset inj vs w).val = .ok none) ∧
    (∀ n err, RelayerCall.AllValsetConfirms n (.error err) ∈
        (firstConfirmedValset inj vs w).calls →
      (firstConfirmedValset inj vs w).val = .error err) := by
  induction vs generalizing w with
  | nil => simp [firstConfirmedValset]
  | cons v rest ih =>
    rcases hcall : inj.AllValsetConfirms v.Nonce w with ⟨err | sigs, w1⟩
    · simp only [firstConfirmedValset, hcall]
      refine ⟨by simp [RelayerCall.onEthereum, RelayerCall.isSubmission], by simp, ?_, ?_⟩
      · intro hall
        have := hall v (List.mem_cons_self _ _) w
        simp [hcall] at this
      · intro n e hmem
        simp only [List.mem_singleton, RelayerCall.AllValsetConfirms.injEq,
          Except.error.injEq] at hmem
        rw [hmem.2]
    · by_cases hlen : sigs.length = 0
      · obtain ⟨ih1, ih2, ih3, ih4⟩ := ih w1
        simp only [firstConfirmedValset, hcall, hlen, if_true]
        refine ⟨?_, ?_, ?_, ?_⟩
        · intro c hc
          rcases List.mem_cons.1 hc with rfl | hc
          · simp [RelayerCall.onEthereum, RelayerCall.isSubmission]
          · exact ih1 c hc
        · intro cand confs hval
          obtain ⟨h1, h2, h3⟩ := ih2 cand confs hval
          refine ⟨List.mem_cons_of_mem _ h1, h2, ?_⟩
          rw [List.getLast?_cons, h3]
          rfl
        · intro hall
          exact ih3 (fun v1 hv1 => hall v1 (List.mem_cons_of_mem _ hv1))
        · intro n e hmem
          rcases List.mem_cons.1 hmem with heq | hmem
          · simp at heq
          · exact ih4 n e hmem
      · simp only [firstConfirmedValset, hcall, hlen, if_false]
        refine ⟨by simp [RelayerCall.onEthereum, RelayerCall.isSubmission], ?_, ?_, by simp⟩
        · intro cand confs hval
          simp only [Except.ok.injEq, Option.some.injEq, Prod.mk.injEq] at hval
          obtain ⟨rfl, rfl⟩ := hval
          refine ⟨List.mem_cons_self _ _, ?_, rfl⟩
          intro hnil
          exact hlen (by simp [hnil])
        · intro hall
          have := hall v (List.mem_cons_self _ _) w
          simp only [hcall, Except.ok.injEq] at this
          exact absurd (by simp [this]) hlen

/-- The choice of the candidate batch, the mirror of `firstConfirmedValset_spec`. -/
lemma firstConfirmedBatch_spec {σ : Type} (inj : RelayerInjectiveNetwork σ)
    (bs : List OutgoingTxBatch) (w : σ) :
    (∀ c ∈ (firstConfirmedBatch inj bs w).calls,
      c.onEthereum = false ∧ c.isSubmission = false) ∧
    (∀ cand confs, (firstConfirmedBatch inj bs w).val = .ok (some (cand, confs)) →
      cand ∈ bs ∧ confs ≠ [] ∧
      (firstConfirmedBatch inj bs w).calls.getLast? =
        some (.TransactionBatchSignatures cand.BatchNonce cand.TokenContract (.ok confs))) ∧
    ((∀ b ∈ bs, ∀ w1,
        (inj.TransactionBatchSignatures b.BatchNonce b.TokenContract w1).1 = .ok []) →
      (firstConfirmedBatch inj bs w).val = .ok none) ∧
    (∀ n t err, RelayerCall.TransactionBatchSignatures n t (.error err) ∈
        (firstConfirmedBatch inj bs w).calls →
      (firstConfirmedBatch inj bs w).val = .error err) := by
  induction bs generalizing w with
  | nil => simp [firstConfirmedBatch]
  | cons v rest ih =>
    rcases hcall : inj.TransactionBatchSignatures v.BatchNonce v.TokenContract w
      with ⟨err | sigs, w1⟩
    · simp only [firstConfirmedBatch, hcall]
      refine ⟨by simp [RelayerCall.onEthereum, RelayerCall.isSubmission], by simp, ?_, ?_⟩
      · intro hall
        have := hall v (List.mem_cons_self _ _) w
        simp [hcall] at this
      · intro n t e hmem
        simp only [List.mem_singleton, RelayerCall.TransactionBatchSignatures.injEq,
          Except.error.injEq] at hmem
        rw [hmem.2.2]
    · by_cases hlen : sigs.length = 0
      · obtain ⟨ih1, ih2, ih3, ih4⟩ := ih w1
        simp only [firstConfirmedBatch, hcall, hlen, if_true]
        refine ⟨?_, ?_, ?_, ?_⟩
        · intro c hc
          rcases List.mem_cons.1 hc with rfl | hc
          · simp [RelayerCall.onEthereum, RelayerCall.isSubmission]
          · exact ih1 c hc
        · intro cand confs hval
          obtain ⟨h1, h2, h3⟩ := ih2 cand confs hval
          refine ⟨List.mem_cons_of_mem _ h1, h2, ?_⟩
          rw [List.getLast?_cons, h3]
          rfl
        · intro hall
          exact ih3 (fun v1 hv1 => hall v1 (List.mem_cons_of_mem _ hv1))
        · intro n t e hmem
          rcases List.mem_cons.1 hmem with heq | hmem
          · simp at heq
          · exact ih4 n t e hmem
      · simp only [firstConfirmedBatch, hcall, hlen, if_false]
        refine ⟨by simp [RelayerCall.onEthereum, RelayerCall.isSubmission], ?_, ?_, by simp⟩
        · intro cand confs hval
          simp only [Except.ok.injEq, Option.some.injEq, Prod.mk.injEq] at hval
          obtain ⟨rfl, rfl⟩ := hval
          refine ⟨List.mem_cons_self _ _, ?_, rfl⟩
          intro hnil
          exact hlen (by simp [hnil])
        · intro hall
          have := hall v (List.mem_cons_self _ _) w
          simp only [hcall, Except.ok.injEq] at this
          exact absurd (by simp [this]) hlen

/-- The reads of the state of the contract: none of them is a submission or a clock
reading; and if they succeed, the four calls were answered, the valset returned is the
Injective valset at the valset nonce of the contract, and the event returned is the one
with the highest nonce among the events fetched. -/
lemma latestValsetOnEth_spec {σ : Type} (window : Nat) (inj : RelayerInjectiveNetwork σ)
    (eth : RelayerEthereumNetwork σ) (w : σ) :
    (∀ c ∈ (latestValsetOnEth window inj eth w).calls, c.isSubmission = false) ∧
    (∀ previous latest, (latestValsetOnEth window inj eth w).val = .ok (previous, latest) →
      ∃ header valsetNonce events,
        (latestValsetOnEth window inj eth w).calls =
          [.HeaderByNumber (.ok header), .GetValsetNonce (.ok valsetNonce),
            .ValsetAt valsetNonce (.ok previous),
            .GetValsetUpdatedEvents (Uint64 header.Number - window) (Uint64 header.Number)
              (.ok events)] ∧
        highestValsetEvent events = some latest) := by
  unfold latestValsetOnEth
  rcases h1 : eth.HeaderByNumber w with ⟨err | header, w1⟩
  · simp [RelayerCall.isSubmission]
  rcases h2 : eth.GetValsetNonce w1 with ⟨err | valsetNonce, w2⟩
  · simp [h2, RelayerCall.isSubmission]
  rcases h3 : inj.ValsetAt valsetNonce w2 with ⟨err | previous, w3⟩
  · simp [h2, h3, RelayerCall.isSubmission]
  rcases h4 : eth.GetValsetUpdatedEvents (Uint64 header.Number - window)
    (Uint64 header.Number) w3 with ⟨err | events, w4⟩
  · simp [h2, h3, h4, RelayerCall.isSubmission]
  simp only [h2, h3, h4]
  refine ⟨by simp [RelayerCall.isSubmission], ?_⟩
  intro prev latest hval
  rcases hhigh : highestValsetEvent events with _ | ev
  · simp [hhigh] at hval
  · simp only [hhigh, Except.ok.injEq, Prod.mk.injEq] at hval
    obtain ⟨rfl, rfl⟩ := hval
    exact ⟨header, valsetNonce, events, rfl, hhigh⟩

/-- The offset gate: none of its steps is a submission; and if it returns a verdict, the
block was fetched, the clock was read, and the verdict is open exactly if the offset has
elapsed since the time of the block. -/
lemma offsetElapsed_spec {σ : Type} (inj : RelayerInjectiveNetwork σ)
    (timeNow : σ → Int × σ) (height : Nat) (offset : Int) (w : σ) :
    (∀ c ∈ (offsetElapsed inj timeNow height offset w).calls, c.isSubmission = false) ∧
    (∀ verdict, (offsetElapsed inj timeNow height offset w).val = .ok verdict →
      ∃ block now,
        (offsetElapsed inj timeNow height offset w).calls =
          [.GetBlock height (.ok block), .TimeNow now] ∧
        (verdict = true ↔ offset ≤ now - block.Time)) := by
  unfold offsetElapsed
  rcases h1 : inj.GetBlock height w with ⟨err | block, w1⟩
  · simp [RelayerCall.isSubmission]
  · refine ⟨by simp [RelayerCall.isSubmission], ?_⟩
    intro verdict hval
    simp only [Except.ok.injEq] at hval
    refine ⟨block, (timeNow w1).1, rfl, ?_⟩
    rw [← hval]
    simp

/-! ## Lemmas on the two duties of the relayer -/

lemma countP_isSubmission_eq_zero (l : List RelayerCall)
    (h : ∀ c ∈ l, c.isSubmission = false) : l.countP RelayerCall.isSubmission = 0 := by
  rw [List.countP_eq_zero]
  intro c hc
  simp [h c hc]

/-- A tick of the valset duty either makes no submission, or it chose a candidate, read
the state of the contract, found the nonce of the candidate above the nonce of the latest
valset on Ethereum and the offset gate open, and ended with the one submission. -/
lemma relayValsets_cases {σ : Type} (r : relayer) (window : Nat)
    (inj : RelayerInjectiveNetwork σ) (eth : RelayerEthereumNetwork σ)
    (timeNow : σ → Int × σ) (w0 : σ) :
    (∀ c ∈ (relayValsets r window inj eth timeNow w0).calls, c.isSubmission = false) ∨
    (∃ vs w1 cand confs prev latest chosen onEth gate,
      inj.LatestValsets w0 = (.ok vs, w1) ∧
      chosen = firstConfirmedValset inj vs w1 ∧
      chosen.val = .ok (some (cand, confs)) ∧
      onEth = latestValsetOnEth window inj eth chosen.world ∧
      onEth.val = .ok (prev, latest) ∧
      latest.NewValsetNonce < cand.Nonce ∧
      gate = offsetElapsed inj timeNow cand.Height r.relayValsetOffsetDur onEth.world ∧
      gate.val = .ok true ∧
      relayValsets r window inj eth timeNow w0 =
        ⟨(eth.SendEthValsetUpdate cand prev confs gate.world).1,
          (eth.SendEthValsetUpdate cand prev confs gate.world).2,
          RelayerCall.LatestValsets (.ok vs) :: chosen.calls ++ onEth.calls ++ gate.calls ++
            [.SendEthValsetUpdate cand prev confs
              (eth.SendEthValsetUpdate cand prev confs gate.world).1]⟩) := by
  rcases hL : inj.LatestValsets w0 with ⟨err | vs, w1⟩
  · left
    simp [relayValsets, hL, RelayerCall.isSubmission]
  have hchosen := (firstConfirmedValset_spec inj vs w1).1
  have hLV : ∀ c ∈ [RelayerCall.LatestValsets (.ok vs)], c.isSubmission = false := by
    simp [RelayerCall.isSubmission]
  rcases hC : (firstConfirmedValset inj vs w1).val with err | _ | ⟨cand, confs⟩
  · left
    simp only [relayValsets, hL, hC]
    intro c hc
    rcases List.mem_cons.1 hc with rfl | hc
    · rfl
    · exact (hchosen c hc).2
  · left
    simp only [relayValsets, hL, hC]
    intro c hc
    rcases List.mem_cons.1 hc with rfl | hc
    · rfl
    · exact (hchosen c hc).2
  have honEth := (latestValsetOnEth_spec window inj eth (firstConfirmedValset inj vs w1).world).1
  have hpre : ∀ c ∈ RelayerCall.LatestValsets (.ok vs) :: (firstConfirmedValset inj vs w1).calls
      ++ (latestValsetOnEth window inj eth (firstConfirmedValset inj vs w1).world).calls,
      c.isSubmission = false := by
    intro c hc
    rcases List.mem_append.1 hc with hc | hc
    · rcases List.mem_cons.1 hc with rfl | hc
      · rfl
      · exact (hchosen c hc).2
    · exact honEth c hc
  rcases hE : (latestValsetOnEth window inj eth (firstConfirmedValset inj vs w1).world).val
    with err | ⟨prev, latest⟩
  · left
    simp only [relayValsets, hL, hC, hE]
    exact hpre
  by_cases hnonce : cand.Nonce ≤ latest.NewValsetNonce
  · left
    simp only [relayValsets, hL, hC, hE, hnonce, if_true]
    exact hpre
  have hgate := (offsetElapsed_spec inj timeNow cand.Height r.relayValsetOffsetDur
    (latestValsetOnEth window inj eth (firstConfirmedValset inj vs w1).world).world).1
  have hpre2 : ∀ c ∈ RelayerCall.LatestValsets (.ok vs) ::
      (firstConfirmedValset inj vs w1).calls
      ++ (latestValsetOnEth window inj eth (firstConfirmedValset inj vs w1).world).calls
      ++ (offsetElapsed inj timeNow cand.Height r.relayValsetOffsetDur
        (latestValsetOnEth window inj eth (firstConfirmedValset inj vs w1).world).world).calls,
      c.isSubmission = false := by
    intro c hc
    rcases List.mem_append.1 hc with hc | hc
    · exact hpre c hc
    · exact hgate c hc
  rcases hG : (offsetElapsed inj timeNow cand.Height r.relayValsetOffsetDur
    (latestValsetOnEth window inj eth (firstConfirmedValset inj vs w1).world).world).val
    with err | _ | _
  · left
    simp only [relayValsets, hL, hC, hE, hnonce, if_false, hG]
    exact hpre2
  · left
    simp only [relayValsets, hL, hC, hE, hnonce, if_false, hG]
    exact hpre2
  · right
    refine ⟨vs, w1, cand, confs, prev, latest, _, _, _, rfl, rfl, hC, rfl, hE, by omega, rfl,
      hG, ?_⟩
    simp only [relayValsets, hL, hC, hE, hnonce, if_false, hG]

/-- A tick of the batch duty either makes no submission, or it chose a candidate, found
its nonce above the batch nonce of the contract, read the state of the contract, found the
offset gate open, and ended with the one submission. -/
lemma relayBatches_cases {σ : Type} (r : relayer) (window : Nat)
    (inj : RelayerInjectiveNetwork σ) (eth : RelayerEthereumNetwork σ)
    (timeNow : σ → Int × σ) (w0 : σ) :
    (∀ c ∈ (relayBatches r window inj eth timeNow w0).calls, c.isSubmission = false) ∨
    (∃ bs w1 cand confs onChainNonce w2 valset latest chosen onEth gate,
      inj.LatestTransactionBatches w0 = (.ok bs, w1) ∧
      chosen = firstConfirmedBatch inj bs w1 ∧
      chosen.val = .ok (some (cand, confs)) ∧
      eth.GetTxBatchNonce cand.TokenContract chosen.world = (.ok onChainNonce, w2) ∧
      onChainNonce < cand.BatchNonce ∧
      onEth = latestValsetOnEth window inj eth w2 ∧
      onEth.val = .ok (valset, latest) ∧
      gate = offsetElapsed inj timeNow cand.Block r.relayBatchOffsetDur onEth.world ∧
      gate.val = .ok true ∧
      relayBatches r window inj eth timeNow w0 =
        ⟨(eth.SendTransactionBatch valset cand confs gate.world).1,
          (eth.SendTransactionBatch valset cand confs gate.world).2,
          RelayerCall.LatestTransactionBatches (.ok bs) :: chosen.calls ++
            [.GetTxBatchNonce cand.TokenContract (.ok onChainNonce)] ++ onEth.calls ++
            gate.calls ++
            [.SendTransactionBatch valset cand confs
              (eth.SendTransactionBatch valset cand confs gate.world).1]⟩) := by
  rcases hL : inj.LatestTransactionBatches w0 with ⟨err | bs, w1⟩
  · left
    simp [relayBatches, hL, RelayerCall.isSubmission]
  have hchosen := (firstConfirmedBatch_spec inj bs w1).1
  have hpre0 : ∀ c ∈ RelayerCall.LatestTransactionBatches (.ok bs) ::
      (firstConfirmedBatch inj bs w1).calls, c.isSubmission = false := by
    intro c hc
    rcases List.mem_cons.1 hc with rfl | hc
    · rfl
    · exact (hchosen c hc).2
  rcases hC : (firstConfirmedBatch inj bs w1).val with err | _ | ⟨cand, confs⟩
  · left
    simp only [relayBatches, hL, hC]
    exact hpre0
  · left
    simp only [relayBatches, hL, hC]
    exact hpre0
  rcases hN : eth.GetTxBatchNonce cand.TokenContract (firstConfirmedBatch inj bs w1).world
    with ⟨err | onChainNonce, w2⟩
  · left
    simp only [relayBatches, hL, hC, hN]
    intro c hc
    rcases List.mem_append.1 hc with hc | hc
    · exact hpre0 c hc
    · simp only [List.mem_singleton] at hc
      subst hc
      rfl
  have hpre1 : ∀ c ∈ RelayerCall.LatestTransactionBatches (.ok bs) ::
      (firstConfirmedBatch inj bs w1).calls ++
      [RelayerCall.GetTxBatchNonce cand.TokenContract (.ok onChainNonce)],
      c.isSubmission = false := by
    intro c hc
    rcases List.mem_append.1 hc with hc | hc
    · exact hpre0 c hc
    · simp only [List.mem_singleton] at hc
      subst hc
      rfl
  by_cases hnonce : cand.BatchNonce ≤ onChainNonce
  · left
    simp only [relayBatches, hL, hC, hN, hnonce, if_true]
    exact hpre1
  have honEth := (latestValsetOnEth_spec window inj eth w2).1
  have hpre2 : ∀ c ∈ RelayerCall.LatestTransactionBatches (.ok bs) ::
      (firstConfirmedBatch inj bs w1).calls ++
      [RelayerCall.GetTxBatchNonce cand.TokenContract (.ok onChainNonce)] ++
      (latestValsetOnEth window inj eth w2).calls, c.isSubmission = false := by
    intro c hc
    rcases List.mem_append.1 hc with hc | hc
    · exact hpre1 c hc
    · exact honEth c hc
  rcases hE : (latestValsetOnEth window inj eth w2).val with err | ⟨valset, latest⟩
  · left
    simp only [relayBatches, hL, hC, hN, hnonce, if_false, hE]
    exact hpre2
  have hgate := (offsetElapsed_spec inj timeNow cand.Block r.relayBatchOffsetDur
    (latestValsetOnEth window inj eth w2).world).1
  have hpre3 : ∀ c ∈ RelayerCall.LatestTransactionBatches (.ok bs) ::
      (firstConfirmedBatch inj bs w1).calls ++
      [RelayerCall.GetTxBatchNonce cand.TokenContract (.ok onChainNonce)] ++
      (latestValsetOnEth window inj eth w2).calls ++
      (offsetElapsed inj timeNow cand.Block r.relayBatchOffsetDur
        (latestValsetOnEth window inj eth w2).world).calls, c.isSubmission = false := by
    intro c hc
    rcases List.mem_append.1 hc with hc | hc
    · exact hpre2 c hc
    · exact hgate c hc
  rcases hG : (offsetElapsed inj timeNow cand.Block r.relayBatchOffsetDur
    (latestValsetOnEth window inj eth w2).world).val with err | _ | _
  · left
    simp only [relayBatches, hL, hC, hN, hnonce, if_false, hE, hG]
    exact hpre3
  · left
    simp only [relayBatches, hL, hC, hN, hnonce, if_false, hE, hG]
    exact hpre3
  · right
    refine ⟨bs, w1, cand, confs, onChainNonce, w2, valset, latest, _, _, _, rfl, rfl, hC, hN,
      by omega, rfl, hE, rfl, hG, ?_⟩
    simp only [relayBatches, hL, hC, hN, hnonce, if_false, hE, hG]

/-! ## Claims on the relayer -/

/-- C15: in a tick of the valset duty, `SendEthValsetUpdate` is invoked only for the
candidate (a valset returned by the Injective chain whose confirm list, fetched in this
tick, is not empty), only if its nonce is above the nonce of the latest `ValsetUpdated`
event on Ethereum and the offset has elapsed since the time of its creation block; the call
carries the candidate, the Injective valset at the valset nonce of the contract and the
confirms, it is the only submission, and the tick returns its result. With the candidate
chosen and the state of the contract read: if the nonce is not above, the tick returns nil
without a submission; if it is above and the block of the candidate is fetched, the tick
returns nil without a submission while the offset has not elapsed, and otherwise ends with
that one submission and returns nil exactly if it succeeds. -/
theorem relayValsets_arbitration {σ : Type} (r : relayer) (window : Nat)
    (inj : RelayerInjectiveNetwork σ) (eth : RelayerEthereumNetwork σ)
    (timeNow : σ → Int × σ) (w0 : σ) :
    (∀ cand prev confs out,
      RelayerCall.SendEthValsetUpdate cand prev confs out ∈
        (relayValsets r window inj eth timeNow w0).calls →
      confs ≠ [] ∧
      (∃ vs, RelayerCall.LatestValsets (.ok vs) ∈
          (relayValsets r window inj eth timeNow w0).calls ∧ cand ∈ vs) ∧
      RelayerCall.AllValsetConfirms cand.Nonce (.ok confs) ∈
        (relayValsets r window inj eth timeNow w0).calls ∧
      (∃ nonce, RelayerCall.GetValsetNonce (.ok nonce) ∈
          (relayValsets r window inj eth timeNow w0).calls ∧
        RelayerCall.ValsetAt nonce (.ok prev) ∈
          (relayValsets r window inj eth timeNow w0).calls) ∧
      (∃ a b events latest, RelayerCall.GetValsetUpdatedEvents a b (.ok events) ∈
          (relayValsets r window inj eth timeNow w0).calls ∧
        highestValsetEvent events = some latest ∧ latest.NewValsetNonce < cand.Nonce) ∧
      (∃ block now, RelayerCall.GetBlock cand.Height (.ok block) ∈
          (relayValsets r window inj eth timeNow w0).calls ∧
        RelayerCall.TimeNow now ∈ (relayValsets r window inj eth timeNow w0).calls ∧
        r.relayValsetOffsetDur ≤ now - block.Time) ∧
      (relayValsets r window inj eth timeNow w0).err = out ∧
      (relayValsets r window inj eth timeNow w0).calls.countP RelayerCall.isSubmission = 1) ∧
    (∀ vs w1 cand confs prev latest,
      inj.LatestValsets w0 = (.ok vs, w1) →
      (firstConfirmedValset inj vs w1).val = .ok (some (cand, confs)) →
      (latestValsetOnEth window inj eth (firstConfirmedValset inj vs w1).world).val =
        .ok (prev, latest) →
      (cand.Nonce ≤ latest.NewValsetNonce →
        (relayValsets r window inj eth timeNow w0).err = none ∧
        ∀ c ∈ (relayValsets r window inj eth timeNow w0).calls, c.isSubmission = false) ∧
      (latest.NewValsetNonce < cand.Nonce →
        ∀ block w4,
          inj.GetBlock cand.Height
            (latestValsetOnEth window inj eth (firstConfirmedValset inj vs w1).world).world =
            (.ok block, w4) →
          ((timeNow w4).1 - block.Time < r.relayValsetOffsetDur →
            (relayValsets r window inj eth timeNow w0).err = none ∧
            ∀ c ∈ (relayValsets r window inj eth timeNow w0).calls, c.isSubmission = false) ∧
          (r.relayValsetOffsetDur ≤ (timeNow w4).1 - block.Time →
            (relayValsets r window inj eth timeNow w0).calls.getLast? =
              some (.SendEthValsetUpdate cand prev confs
                (eth.SendEthValsetUpdate cand prev confs (timeNow w4).2).1) ∧
            (relayValsets r window inj eth timeNow w0).err =
              (eth.SendEthValsetUpdate cand prev confs (timeNow w4).2).1 ∧
            (relayValsets r window inj eth timeNow w0).calls.countP
              RelayerCall.isSubmission = 1))) := by
  constructor
  · intro cand prev confs out hsend
    rcases relayValsets_cases r window inj eth timeNow w0 with hnone |
      ⟨vs, w1, cand1, confs1, prev1, latest, chosen, onEth, gate, hL, hchosen, hC, honEth, hE,
        hnonce, hgate, hG, hres⟩
    · have := hnone _ hsend
      simp [RelayerCall.isSubmission] at this
    · have hc1 := firstConfirmedValset_spec inj vs w1
      have he1 := latestValsetOnEth_spec window inj eth chosen.world
      have hg1 := offsetElapsed_spec inj timeNow cand1.Height r.relayValsetOffsetDur
        onEth.world
      rw [← hchosen] at hc1
      rw [← honEth] at he1
      rw [← hgate] at hg1
      obtain ⟨hmem, hne, hlast⟩ := hc1.2.1 cand1 confs1 hC
      obtain ⟨header, nonce, events, hcalls3, hhigh⟩ := he1.2 prev1 latest hE
      obtain ⟨block, now, hcalls4, hverdict⟩ := hg1.2 true hG
      have hnosub : ∀ c ∈ RelayerCall.LatestValsets (.ok vs) :: chosen.calls ++ onEth.calls ++
          gate.calls, c.isSubmission = false := by
        intro c hc
        rcases List.mem_append.1 hc with hc | hc
        · rcases List.mem_append.1 hc with hc | hc
          · rcases List.mem_cons.1 hc with rfl | hc
            · rfl
            · exact (hc1.1 c hc).2
          · exact he1.1 c hc
        · exact hg1.1 c hc
      rw [hres] at hsend ⊢
      simp only at hsend ⊢
      rcases List.mem_append.1 hsend with hsend | hsend
      · have := hnosub _ hsend
        simp [RelayerCall.isSubmission] at this
      simp only [List.mem_singleton, RelayerCall.SendEthValsetUpdate.injEq] at hsend
      obtain ⟨rfl, rfl, rfl, rfl⟩ := hsend
      refine ⟨hne, ⟨vs, by simp, hmem⟩, ?_, ⟨nonce, ?_, ?_⟩, ⟨Uint64 header.Number - window,
        Uint64 header.Number, events, latest, ?_, hhigh, hnonce⟩, ⟨block, now, ?_, ?_, hverdict.1 rfl⟩, rfl, ?_⟩
      · have := List.mem_of_getLast?_eq_some hlast
        simp [this]
      · simp [hcalls3]
      · simp [hcalls3]
      · simp only [hcalls3]
        simp
      · simp [hcalls4]
      · simp [hcalls4]
      · rw [List.countP_append, countP_isSubmission_eq_zero _ hnosub]
        rfl
  · intro vs w1 cand confs prev latest hL hC hE
    have hc1 := firstConfirmedValset_spec inj vs w1
    have he1 := latestValsetOnEth_spec window inj eth (firstConfirmedValset inj vs w1).world
    have hpre : ∀ c ∈ RelayerCall.LatestValsets (.ok vs) ::
        (firstConfirmedValset inj vs w1).calls ++
        (latestValsetOnEth window inj eth (firstConfirmedValset inj vs w1).world).calls,
        c.isSubmission = false := by
      intro c hc
      rcases List.mem_append.1 hc with hc | hc
      · rcases List.mem_cons.1 hc with rfl | hc
        · rfl
        · exact (hc1.1 c hc).2
      · exact he1.1 c hc
    constructor
    · intro hnonce
      simp only [relayValsets, hL, hC, hE, hnonce, if_true, true_and]
      exact hpre
    · intro hnonce block w4 hB
      have hnot : ¬ cand.Nonce ≤ latest.NewValsetNonce := by omega
      have hgcalls : ∀ c ∈ [RelayerCall.GetBlock cand.Height (.ok block),
          RelayerCall.TimeNow (timeNow w4).1], c.isSubmission = false := by
        simp [RelayerCall.isSubmission]
      have hpre2 : ∀ c ∈ RelayerCall.LatestValsets (.ok vs) ::
          (firstConfirmedValset inj vs w1).calls ++
          (latestValsetOnEth window inj eth (firstConfirmedValset inj vs w1).world).calls ++
          [RelayerCall.GetBlock cand.Height (.ok block), RelayerCall.TimeNow (timeNow w4).1],
          c.isSubmission = false := by
        intro c hc
        rcases List.mem_append.1 hc with hc | hc
        · exact hpre c hc
        · exact hgcalls c hc
      constructor
      · intro hearly
        simp only [relayValsets, hL, hC, hE, hnot, if_false, offsetElapsed, hB, hearly,
          not_true_eq_false, decide_False, true_and]
        exact hpre2
      · intro hripe
        have hnotearly : ¬ (timeNow w4).1 - block.Time < r.relayValsetOffsetDur := by omega
        simp only [relayValsets, hL, hC, hE, hnot, if_false, offsetElapsed, hB, hnotearly,
          not_false_eq_true, decide_True, true_and]
        refine ⟨List.getLast?_eq_some_iff.2 ⟨_, rfl⟩, ?_⟩
        rw [List.countP_append, countP_isSubmission_eq_zero _ hpre2]
        rfl

/-- C15 at the three valset scenarios of the tests (clock at 1000 s, offset 5 s): with
the candidate 333 and the latest valset on Ethereum 333 the tick returns nil without a
submission; with the candidate 444 created an hour from now it returns nil without a
submission; with the candidate 444 created at time 0 it ends with the one submission of
valset 444, previous valset 333 and the confirm, and returns nil. -/
theorem relayValsets_arbitration_witness :
    ((relayValsets testRelayer 20 (testInjective 333 202 [testValsetConfirm] [] 0)
        (testEthereum 333 202) (fixedClock 1000000000000) ()).err = none ∧
      (relayValsets testRelayer 20 (testInjective 333 202 [testValsetConfirm] [] 0)
        (testEthereum 333 202) (fixedClock 1000000000000) ()).calls.countP
          RelayerCall.isSubmission = 0) ∧
    ((relayValsets testRelayer 20
        (testInjective 444 202 [testValsetConfirm] [] 4600000000000)
        (testEthereum 333 202) (fixedClock 1000000000000) ()).err = none ∧
      (relayValsets testRelayer 20
        (testInjective 444 202 [testValsetConfirm] [] 4600000000000)
        (testEthereum 333 202) (fixedClock 1000000000000) ()).calls.countP
          RelayerCall.isSubmission = 0) ∧
    ((relayValsets testRelayer 20 (testInjective 444 202 [testValsetConfirm] [] 0)
        (testEthereum 333 202) (fixedClock 1000000000000) ()).calls.getLast? =
        some (.SendEthValsetUpdate (testValset 444) (testValset 333) [testValsetConfirm]
          none) ∧
      (relayValsets testRelayer 20 (testInjective 444 202 [testValsetConfirm] [] 0)
        (testEthereum 333 202) (fixedClock 1000000000000) ()).err = none ∧
      (relayValsets testRelayer 20 (testInjective 444 202 [testValsetConfirm] [] 0)
        (testEthereum 333 202) (fixedClock 1000000000000) ()).calls.countP
          RelayerCall.isSubmission = 1) :=
  have h1 := ((relayValsets_arbitration testRelayer 20
    (testInjective 333 202 [testValsetConfirm] [] 0) (testEthereum 333 202)
    (fixedClock 1000000000000) ()).2 [testValset 333] () (testValset 333) [testValsetConfirm]
    (testValset 333) ⟨0, 0, "", 333⟩ rfl rfl rfl).1 (by decide)
  have h2 := ((((relayValsets_arbitration testRelayer 20
    (testInjective 444 202 [testValsetConfirm] [] 4600000000000) (testEthereum 333 202)
    (fixedClock 1000000000000) ()).2 [testValset 444] () (testValset 444) [testValsetConfirm]
    (testValset 333) ⟨0, 0, "", 333⟩ rfl rfl rfl).2 (by decide)) ⟨4600000000000⟩ () rfl).1
    (by decide)
  have h3 := ((((relayValsets_arbitration testRelayer 20
    (testInjective 444 202 [testValsetConfirm] [] 0) (testEthereum 333 202)
    (fixedClock 1000000000000) ()).2 [testValset 444] () (testValset 444) [testValsetConfirm]
    (testValset 333) ⟨0, 0, "", 333⟩ rfl rfl rfl).2 (by decide)) ⟨0⟩ () rfl).2 (by decide)
  ⟨⟨h1.1, countP_isSubmission_eq_zero _ h1.2⟩, ⟨h2.1, countP_isSubmission_eq_zero _ h2.2⟩, h3⟩

/-- C16: in a tick of the batch duty, `SendTransactionBatch` is invoked only for the
candidate (a batch returned by the Injective chain whose confirm list, fetched in this
tick, is not empty), only if its nonce is above the batch nonce of the contract for its
token and the offset has elapsed since the time of its creation block; the call is the only
submission and the tick returns its result. With the candidate chosen and the batch nonce
of the contract read: if the nonce is not above, the tick returns nil without a
submission; if it is above, the state of the contract is read and the block of the
candidate is fetched, the tick returns nil without a submission while the offset has not
elapsed, and otherwise ends with that one submission and returns nil exactly if it
succeeds. -/
theorem relayBatches_arbitration {σ : Type} (r : relayer) (window : Nat)
    (inj : RelayerInjectiveNetwork σ) (eth : RelayerEthereumNetwork σ)
    (timeNow : σ → Int × σ) (w0 : σ) :
    (∀ valset cand confs out,
      RelayerCall.SendTransactionBatch valset cand confs out ∈
        (relayBatches r window inj eth timeNow w0).calls →
      confs ≠ [] ∧
      (∃ bs, RelayerCall.LatestTransactionBatches (.ok bs) ∈
          (relayBatches r window inj eth timeNow w0).calls ∧ cand ∈ bs) ∧
      RelayerCall.TransactionBatchSignatures cand.BatchNonce cand.TokenContract (.ok confs) ∈
        (relayBatches r window inj eth timeNow w0).calls ∧
      (∃ onChainNonce, RelayerCall.GetTxBatchNonce cand.TokenContract (.ok onChainNonce) ∈
          (relayBatches r window inj eth timeNow w0).calls ∧
        onChainNonce < cand.BatchNonce) ∧
      (∃ nonce, RelayerCall.GetValsetNonce (.ok nonce) ∈
          (relayBatches r window inj eth timeNow w0).calls ∧
        RelayerCall.ValsetAt nonce (.ok valset) ∈
          (relayBatches r window inj eth timeNow w0).calls) ∧
      (∃ block now, RelayerCall.GetBlock cand.Block (.ok block) ∈
          (relayBatches r window inj eth timeNow w0).calls ∧
        RelayerCall.TimeNow now ∈ (relayBatches r window inj eth timeNow w0).calls ∧
        r.relayBatchOffsetDur ≤ now - block.Time) ∧
      (relayBatches r window inj eth timeNow w0).err = out ∧
      (relayBatches r window inj eth timeNow w0).calls.countP RelayerCall.isSubmission = 1) ∧
    (∀ bs w1 cand confs onChainNonce w2,
      inj.LatestTransactionBatches w0 = (.ok bs, w1) →
      (firstConfirmedBatch inj bs w1).val = .ok (some (cand, confs)) →
      eth.GetTxBatchNonce cand.TokenContract (firstConfirmedBatch inj bs w1).world =
        (.ok onChainNonce, w2) →
      (cand.BatchNonce ≤ onChainNonce →
        (relayBatches r window inj eth timeNow w0).err = none ∧
        ∀ c ∈ (relayBatches r window inj eth timeNow w0).calls, c.isSubmission = false) ∧
      (onChainNonce < cand.BatchNonce →
        ∀ valset latest block w4,
          (latestValsetOnEth window inj eth w2).val = .ok (valset, latest) →
          inj.GetBlock cand.Block (latestValsetOnEth window inj eth w2).world =
            (.ok block, w4) →
          ((timeNow w4).1 - block.Time < r.relayBatchOffsetDur →
            (relayBatches r window inj eth timeNow w0).err = none ∧
            ∀ c ∈ (relayBatches r window inj eth timeNow w0).calls, c.isSubmission = false) ∧
          (r.relayBatchOffsetDur ≤ (timeNow w4).1 - block.Time →
            (relayBatches r window inj eth timeNow w0).calls.getLast? =
              some (.SendTransactionBatch valset cand confs
                (eth.SendTransactionBatch valset cand confs (timeNow w4).2).1) ∧
            (relayBatches r window inj eth timeNow w0).err =
              (eth.SendTransactionBatch valset cand confs (timeNow w4).2).1 ∧
            (relayBatches r window inj eth timeNow w0).calls.countP
              RelayerCall.isSubmission = 1))) := by
  constructor
  · intro valset cand confs out hsend
    rcases relayBatches_cases r window inj eth timeNow w0 with hnone |
      ⟨bs, w1, cand1, confs1, onChainNonce, w2, valset1, latest, chosen, onEth, gate, hL,
        hchosen, hC, hN, hnonce, honEth, hE, hgate, hG, hres⟩
    · have := hnone _ hsend
      simp [RelayerCall.isSubmission] at this
    · have hc1 := firstConfirmedBatch_spec inj bs w1
      have he1 := latestValsetOnEth_spec window inj eth w2
      have hg1 := offsetElapsed_spec inj timeNow cand1.Block r.relayBatchOffsetDur onEth.world
      rw [← hchosen] at hc1
      rw [← honEth] at he1
      rw [← hgate] at hg1
      obtain ⟨hmem, hne, hlast⟩ := hc1.2.1 cand1 confs1 hC
      obtain ⟨header, nonce, events, hcalls3, hhigh⟩ := he1.2 valset1 latest hE
      obtain ⟨block, now, hcalls4, hverdict⟩ := hg1.2 true hG
      have hnosub : ∀ c ∈ RelayerCall.LatestTransactionBatches (.ok bs) :: chosen.calls ++
          [RelayerCall.GetTxBatchNonce cand1.TokenContract (.ok onChainNonce)] ++
          onEth.calls ++ gate.calls, c.isSubmission = false := by
        intro c hc
        rcases List.mem_append.1 hc with hc | hc
        · rcases List.mem_append.1 hc with hc | hc
          · rcases List.mem_append.1 hc with hc | hc
            · rcases List.mem_cons.1 hc with rfl | hc
              · rfl
              · exact (hc1.1 c hc).2
            · simp only [List.mem_singleton] at hc
              subst hc
              rfl
          · exact he1.1 c hc
        · exact hg1.1 c hc
      rw [hres] at hsend ⊢
      simp only at hsend ⊢
      rcases List.mem_append.1 hsend with hsend | hsend
      · have := hnosub _ hsend
        simp [RelayerCall.isSubmission] at this
      simp only [List.mem_singleton, RelayerCall.SendTransactionBatch.injEq] at hsend
      obtain ⟨rfl, rfl, rfl, rfl⟩ := hsend
      refine ⟨hne, ⟨bs, by simp, hmem⟩, ?_, ⟨onChainNonce, by simp, hnonce⟩, ⟨nonce, ?_, ?_⟩,
        ⟨block, now, ?_, ?_, hverdict.1 rfl⟩, rfl, ?_⟩
      · have := List.mem_of_getLast?_eq_some hlast
        simp [this]
      · simp [hcalls3]
      · simp [hcalls3]
      · simp [hcalls4]
      · simp [hcalls4]
      · rw [List.countP_append, countP_isSubmission_eq_zero _ hnosub]
        rfl
  · intro bs w1 cand confs onChainNonce w2 hL hC hN
    have hc1 := firstConfirmedBatch_spec inj bs w1
    have hpre : ∀ c ∈ RelayerCall.LatestTransactionBatches (.ok bs) ::
        (firstConfirmedBatch inj bs w1).calls ++
        [RelayerCall.GetTxBatchNonce cand.TokenContract (.ok onChainNonce)],
        c.isSubmission = false := by
      intro c hc
      rcases List.mem_append.1 hc with hc | hc
      · rcases List.mem_cons.1 hc with rfl | hc
        · rfl
        · exact (hc1.1 c hc).2
      · simp only [List.mem_singleton] at hc
        subst hc
        rfl
    constructor
    · intro hnonce
      simp only [relayBatches, hL, hC, hN, hnonce, if_true, true_and]
      exact hpre
    · intro hnonce valset latest block w4 hE hB
      have he1 := latestValsetOnEth_spec window inj eth w2
      have hnot : ¬ cand.BatchNonce ≤ onChainNonce := by omega
      have hpre2 : ∀ c ∈ RelayerCall.LatestTransactionBatches (.ok bs) ::
          (firstConfirmedBatch inj bs w1).calls ++
          [RelayerCall.GetTxBatchNonce cand.TokenContract (.ok onChainNonce)] ++
          (latestValsetOnEth window inj eth w2).calls ++
          [RelayerCall.GetBlock cand.Block (.ok block), RelayerCall.TimeNow (timeNow w4).1],
          c.isSubmission = false := by
        intro c hc
        rcases List.mem_append.1 hc with hc | hc
        · rcases List.mem_append.1 hc with hc | hc
          · exact hpre c hc
          · exact he1.1 c hc
        · simp only [List.mem_cons, List.mem_singleton, List.not_mem_nil, or_false] at hc
          rcases hc with rfl | rfl <;> rfl
      constructor
      · intro hearly
        simp only [relayBatches, hL, hC, hN, hE, hnot, if_false, offsetElapsed, hB, hearly,
          not_true_eq_false, decide_False, true_and]
        exact hpre2
      · intro hripe
        have hnotearly : ¬ (timeNow w4).1 - block.Time < r.relayBatchOffsetDur := by omega
        simp only [relayBatches, hL, hC, hN, hE, hnot, if_false, offsetElapsed, hB, hnotearly,
          not_false_eq_true, decide_True, true_and]
        refine ⟨List.getLast?_eq_some_iff.2 ⟨_, rfl⟩, ?_⟩
        rw [List.countP_append, countP_isSubmission_eq_zero _ hpre2]
        rfl

/-- C16 at the three batch scenarios of the tests (clock at 1000 s, offset 5 s): with
the candidate 202 and the batch nonce 202 of the contract the tick returns nil without a
submission; with the batch nonce 201 and the candidate created an hour from now it returns
nil without a submission; with the batch nonce 201 and the candidate created at time 0 it
ends with the one submission and returns nil. -/
theorem relayBatches_arbitration_witness :
    ((relayBatches testRelayer 20 (testInjective 444 202 [] [⟨"o", "e", "s"⟩] 0)
        (testEthereum 202 202) (fixedClock 1000000000000) ()).err = none ∧
      (relayBatches testRelayer 20 (testInjective 444 202 [] [⟨"o", "e", "s"⟩] 0)
        (testEthereum 202 202) (fixedClock 1000000000000) ()).calls.countP
          RelayerCall.isSubmission = 0) ∧
    ((relayBatches testRelayer 20
        (testInjective 444 202 [] [⟨"o", "e", "s"⟩] 4600000000000)
        (testEthereum 202 201) (fixedClock 1000000000000) ()).err = none ∧
      (relayBatches testRelayer 20
        (testInjective 444 202 [] [⟨"o", "e", "s"⟩] 4600000000000)
        (testEthereum 202 201) (fixedClock 1000000000000) ()).calls.countP
          RelayerCall.isSubmission = 0) ∧
    ((relayBatches testRelayer 20 (testInjective 444 202 [] [⟨"o", "e", "s"⟩] 0)
        (testEthereum 202 201) (fixedClock 1000000000000) ()).calls.getLast? =
        some (.SendTransactionBatch (testValset 333) (testBatch 202) [⟨"o", "e", "s"⟩] none) ∧
      (relayBatches testRelayer 20 (testInjective 444 202 [] [⟨"o", "e", "s"⟩] 0)
        (testEthereum 202 201) (fixedClock 1000000000000) ()).err = none ∧
      (relayBatches testRelayer 20 (testInjective 444 202 [] [⟨"o", "e", "s"⟩] 0)
        (testEthereum 202 201) (fixedClock 1000000000000) ()).calls.countP
          RelayerCall.isSubmission = 1) :=
  have h1 := ((relayBatches_arbitration testRelayer 20
    (testInjective 444 202 [] [⟨"o", "e", "s"⟩] 0) (testEthereum 202 202)
    (fixedClock 1000000000000) ()).2 [testBatch 202] () (testBatch 202) [⟨"o", "e", "s"⟩]
    202 () rfl rfl rfl).1 (by decide)
  have h2 := ((((relayBatches_arbitration testRelayer 20
    (testInjective 444 202 [] [⟨"o", "e", "s"⟩] 4600000000000) (testEthereum 202 201)
    (fixedClock 1000000000000) ()).2 [testBatch 202] () (testBatch 202) [⟨"o", "e", "s"⟩]
    201 () rfl rfl rfl).2 (by decide)) (testValset 333) ⟨0, 0, "", 202⟩ ⟨4600000000000⟩ ()
    rfl rfl).1 (by decide)
  have h3 := ((((relayBatches_arbitration testRelayer 20
    (testInjective 444 202 [] [⟨"o", "e", "s"⟩] 0) (testEthereum 202 201)
    (fixedClock 1000000000000) ()).2 [testBatch 202] () (testBatch 202) [⟨"o", "e", "s"⟩]
    201 () rfl rfl rfl).2 (by decide)) (testValset 333) ⟨0, 0, "", 202⟩ ⟨0⟩ ()
    rfl rfl).2 (by decide)
  ⟨⟨h1.1, countP_isSubmission_eq_zero _ h1.2⟩, ⟨h2.1, countP_isSubmission_eq_zero _ h2.2⟩, h3⟩

/-- C17: in a tick of the valset duty (and likewise of the batch duty) in which every
valset (batch) returned by the Injective chain has an empty confirm list, the tick returns
nil, makes no call of the Ethereum client, and is the same whatever the Ethereum client is.
If the fetch of the valsets (batches) fails, or a fetch of confirms fails, the tick
returns that error. -/
theorem relayer_without_confirms {σ : Type} (r : relayer) (window : Nat)
    (inj : RelayerInjectiveNetwork σ) (eth : RelayerEthereumNetwork σ)
    (timeNow : σ → Int × σ) (w0 : σ) :
    (∀ vs w1, inj.LatestValsets w0 = (.ok vs, w1) →
      (∀ v ∈ vs, ∀ w, (inj.AllValsetConfirms v.Nonce w).1 = .ok []) →
      (relayValsets r window inj eth timeNow w0).err = none ∧
      (∀ c ∈ (relayValsets r window inj eth timeNow w0).calls, c.onEthereum = false) ∧
      ∀ eth2, relayValsets r window inj eth2 timeNow w0 =
        relayValsets r window inj eth timeNow w0) ∧
    (∀ err w1, inj.LatestValsets w0 = (.error err, w1) →
      (relayValsets r window inj eth timeNow w0).err = some err) ∧
    (∀ vs w1 n err, inj.LatestValsets w0 = (.ok vs, w1) →
      RelayerCall.AllValsetConfirms n (.error err) ∈ (firstConfirmedValset inj vs w1).calls →
      (relayValsets r window inj eth timeNow w0).err = some err) ∧
    (∀ bs w1, inj.LatestTransactionBatches w0 = (.ok bs, w1) →
      (∀ b ∈ bs, ∀ w,
        (inj.TransactionBatchSignatures b.BatchNonce b.TokenContract w).1 = .ok []) →
      (relayBatches r window inj eth timeNow w0).err = none ∧
      (∀ c ∈ (relayBatches r window inj eth timeNow w0).calls, c.onEthereum = false) ∧
      ∀ eth2, relayBatches r window inj eth2 timeNow w0 =
        relayBatches r window inj eth timeNow w0) ∧
    (∀ err w1, inj.LatestTransactionBatches w0 = (.error err, w1) →
      (relayBatches r window inj eth timeNow w0).err = some err) ∧
    (∀ bs w1 n t err, inj.LatestTransactionBatches w0 = (.ok bs, w1) →
      RelayerCall.TransactionBatchSignatures n t (.error err) ∈
        (firstConfirmedBatch inj bs w1).calls →
      (relayBatches r window inj eth timeNow w0).err = some err) := by
  refine ⟨?_, ?_, ?_, ?_, ?_, ?_⟩
  · intro vs w1 hL hall
    have hspec := firstConfirmedValset_spec inj vs w1
    have hnone := hspec.2.2.1 hall
    have hrun : ∀ eth1 : RelayerEthereumNetwork σ, relayValsets r window inj eth1 timeNow w0 =
        ⟨none, (firstConfirmedValset inj vs w1).world,
          RelayerCall.LatestValsets (.ok vs) :: (firstConfirmedValset inj vs w1).calls⟩ := by
      intro eth1
      simp only [relayValsets, hL, hnone]
    refine ⟨by rw [hrun eth], ?_, fun eth2 => by rw [hrun eth2, hrun eth]⟩
    rw [hrun eth]
    intro c hc
    rcases List.mem_cons.1 hc with rfl | hc
    · rfl
    · exact (hspec.1 c hc).1
  · intro err w1 hL
    simp only [relayValsets, hL]
  · intro vs w1 n err hL hmem
    have hval := (firstConfirmedValset_spec inj vs w1).2.2.2 n err hmem
    simp only [relayValsets, hL, hval]
  · intro bs w1 hL hall
    have hspec := firstConfirmedBatch_spec inj bs w1
    have hnone := hspec.2.2.1 hall
    have hrun : ∀ eth1 : RelayerEthereumNetwork σ, relayBatches r window inj eth1 timeNow w0 =
        ⟨none, (firstConfirmedBatch inj bs w1).world,
          RelayerCall.LatestTransactionBatches (.ok bs) ::
            (firstConfirmedBatch inj bs w1).calls⟩ := by
      intro eth1
      simp only [relayBatches, hL, hnone]
    refine ⟨by rw [hrun eth], ?_, fun eth2 => by rw [hrun eth2, hrun eth]⟩
    rw [hrun eth]
    intro c hc
    rcases List.mem_cons.1 hc with rfl | hc
    · rfl
    · exact (hspec.1 c hc).1
  · intro err w1 hL
    simp only [relayBatches, hL]
  · intro bs w1 n t err hL hmem
    have hval := (firstConfirmedBatch_spec inj bs w1).2.2.2 n t err hmem
    simp only [relayBatches, hL, hval]

/-- C17 at the scenario of the tests with no confirms and an Ethereum node that is down:
both duties return nil after the two Injective calls, and give the same with the working
Ethereum node. -/
theorem relayer_without_confirms_witness :
    (relayValsets testRelayer 20 (testInjective 444 202 [] [] 0) downEthereum
      (fixedClock 1000000000000) ()).err = none ∧
    (relayValsets testRelayer 20 (testInjective 444 202 [] [] 0) downEthereum
      (fixedClock 1000000000000) ()).calls =
      [.LatestValsets (.ok [testValset 444]), .AllValsetConfirms 444 (.ok [])] ∧
    relayValsets testRelayer 20 (testInjective 444 202 [] [] 0) (testEthereum 333 201)
        (fixedClock 1000000000000) () =
      relayValsets testRelayer 20 (testInjective 444 202 [] [] 0) downEthereum
        (fixedClock 1000000000000) () ∧
    (relayBatches testRelayer 20 (testInjective 444 202 [] [] 0) downEthereum
      (fixedClock 1000000000000) ()).err = none ∧
    (relayBatches testRelayer 20 (testInjective 444 202 [] [] 0) downEthereum
      (fixedClock 1000000000000) ()).calls =
      [.LatestTransactionBatches (.ok [testBatch 202]),
        .TransactionBatchSignatures 202 "tokenContract" (.ok [])] :=
  have h := relayer_without_confirms testRelayer 20 (testInjective 444 202 [] [] 0)
    downEthereum (fixedClock 1000000000000) ()
  have hv := h.1 [testValset 444] () rfl (fun _ _ _ => rfl)
  have hb := h.2.2.2.1 [testBatch 202] () rfl (fun _ _ _ => rfl)
  ⟨hv.1, by decide, hv.2.2 (testEthereum 333 201), hb.1, by decide⟩


/-! ## Claims on failed reads of the last claim -/

/-- A retry that returns no error made at least one attempt. -/
lemma retryDo_ok_attempts {S : Type} (fn : S → Option Error × S) (n : Nat) (st st1 : S)
    (h : retryDo fn n st = (none, st1)) : 0 < n := by
  rcases n with _ | n
  · simp [retryDo, retryLoop] at h
  · omega

/-- A retried resync read that ends with an error: each of the `n` attempts was a failed
read of the last claim, the errors returned are those of the reads in order, and after at
least one attempt the cursor variable holds the 0 returned with the error. -/
lemma resyncAttempt_retry_exhausted {σ : Type} (s : PeggyOrchestrator σ) (n : Nat)
    (errorLog : List Error) (st0 : Nat × σ × List Call) (errs : List Error) (h : Nat)
    (w3 : σ) (calls3 : List Call)
    (hrun : retryLoop (resyncAttempt s) n errorLog st0 = (some errs, (h, w3, calls3))) :
    ∃ fails : List Error, fails.length = n ∧ errs = errorLog ++ fails ∧
      calls3 = st0.2.2 ++ fails.map (fun e => Call.LastClaimEvent (.error e)) ∧
      (0 < n → h = 0) ∧ (n = 0 → h = st0.1) := by
  induction n generalizing errorLog st0 with
  | zero =>
    simp only [retryLoop, Prod.mk.injEq, Option.some.injEq] at hrun
    obtain ⟨h1, h2⟩ := hrun
    refine ⟨[], rfl, by simp [h1], ?_, by omega, ?_⟩
    · rw [h2]; simp
    · intro _; rw [h2]
  | succ n ih =>
    rcases hlc : s.injective.LastClaimEvent st0.2.1 with ⟨e | lc, w2⟩
    · have hfn : resyncAttempt s st0 =
          (some e, (0, w2, st0.2.2 ++ [.LastClaimEvent (.error e)])) := by
        simp [resyncAttempt, getLastConfirmedEthHeight, hlc]
      simp only [retryLoop, hfn] at hrun
      obtain ⟨fails, hlen, herrs, hcalls, hpos, hzero⟩ := ih _ _ hrun
      refine ⟨e :: fails, by simp [hlen], by simp [herrs], by simp [hcalls], ?_, by omega⟩
      intro _
      rcases Nat.eq_zero_or_pos n with hn | hn
      · exact hzero hn
      · exact hpos hn
    · have hfn : resyncAttempt s st0 =
          (none, (lc.EthereumEventHeight, w2, st0.2.2 ++ [.LastClaimEvent (.ok lc)])) := by
        simp [resyncAttempt, getLastConfirmedEthHeight, hlc]
      simp [retryLoop, hfn] at hrun

/-- A retried resync read only appends reads of the last claim to the calls made before
it, at least one of them when an attempt is allowed. -/
lemma resyncAttempt_retry_calls {σ : Type} (s : PeggyOrchestrator σ) (n : Nat)
    (errorLog : List Error) (st0 : Nat × σ × List Call) :
    ∃ reads : List Call,
      (retryLoop (resyncAttempt s) n errorLog st0).2.2.2 = st0.2.2 ++ reads ∧
      (∀ c ∈ reads, ∃ res, c = Call.LastClaimEvent res) ∧ (0 < n → reads ≠ []) := by
  induction n generalizing errorLog st0 with
  | zero => exact ⟨[], by simp [retryLoop], by simp, by omega⟩
  | succ n ih =>
    rcases hlc : s.injective.LastClaimEvent st0.2.1 with ⟨e | lc, w2⟩
    · have hfn : resyncAttempt s st0 =
          (some e, (0, w2, st0.2.2 ++ [.LastClaimEvent (.error e)])) := by
        simp [resyncAttempt, getLastConfirmedEthHeight, hlc]
      obtain ⟨reads, hcalls, hall, -⟩ :=
        ih (errorLog ++ [e]) (0, w2, st0.2.2 ++ [.LastClaimEvent (.error e)])
      refine ⟨.LastClaimEvent (.error e) :: reads, ?_, ?_, by simp⟩
      · simp only [retryLoop, hfn]
        rw [hcalls]
        simp
      · intro c hc
        rcases List.mem_cons.1 hc with rfl | hc
        · exact ⟨_, rfl⟩
        · exact hall c hc
    · have hfn : resyncAttempt s st0 =
          (none, (lc.EthereumEventHeight, w2, st0.2.2 ++ [.LastClaimEvent (.ok lc)])) := by
        simp [resyncAttempt, getLastConfirmedEthHeight, hlc]
      refine ⟨[.LastClaimEvent (.ok lc)], ?_, ?_, by simp⟩
      · simp only [retryLoop, hfn]
      · intro c hc
        exact ⟨_, List.mem_singleton.1 hc⟩

/-- C21: take a tick whose scan succeeded, on which the clock shows the resync as due and
the retried read of the last claim ends with an error, so that the read failed at each of
the `maxAttempts` attempts up to the final one. The tick body returns that error, one entry
per failed read; the cursor is 0, neither the cursor from before the tick nor the height
`cur` the scan returned; `lastResync` is unchanged. So on a following tick whose scan
succeeds, with a clock that has not gone back, the resync is due again and the last claim
is read right after the scan. -/
theorem loopBody_resync_exhausted {σ : Type} (s : PeggyOrchestrator σ)
    (timeNow : σ → Int × σ) (st : LoopState) (w w1 : σ) (cur : Nat) (calls : List Call)
    (hscan : retryDo (relayAttempt s st.lastConfirmedEthHeight) s.maxAttempts (0, w, []) =
      (none, (cur, w1, calls)))
    (hdue : (timeNow w1).1 - st.lastResync ≥ resyncInterval)
    (errs : List Error) (h : Nat) (w3 : σ) (calls3 : List Call)
    (hresync : retryDo (resyncAttempt s) s.maxAttempts (cur, (timeNow w1).2, calls) =
      (some errs, (h, w3, calls3))) :
    (loopBody s timeNow st w).err = some errs ∧
    (loopBody s timeNow st w).state = ⟨0, st.lastResync⟩ ∧
    (loopBody s timeNow st w).world = w3 ∧
    (loopBody s timeNow st w).calls =
      calls ++ errs.map (fun e => Call.LastClaimEvent (.error e)) ∧
    errs.length = s.maxAttempts ∧ 0 < s.maxAttempts ∧
    (∀ w0 cur0 w10 calls0,
      retryDo (relayAttempt s 0) s.maxAttempts (0, w0, []) = (none, (cur0, w10, calls0)) →
      (timeNow w1).1 ≤ (timeNow w10).1 →
      ∃ res, (loopBody s timeNow (loopBody s timeNow st w).state w0).calls.get?
        calls0.length = some (.LastClaimEvent res)) := by
  have hpos : 0 < s.maxAttempts := retryDo_ok_attempts _ _ _ _ hscan
  obtain ⟨fails, hlen, herrs, hcalls, hzero, -⟩ :=
    resyncAttempt_retry_exhausted s s.maxAttempts [] _ errs h w3 calls3 hresync
  have hh : h = 0 := hzero hpos
  have hfails : errs = fails := by simpa using herrs
  have hstate : (loopBody s timeNow st w).state = ⟨0, st.lastResync⟩ := by
    unfold loopBody
    simp only [hscan, hdue, if_true, hresync, hh]
  refine ⟨?_, hstate, ?_, ?_, by rw [hfails]; exact hlen, hpos, ?_⟩
  · unfold loopBody
    simp only [hscan, hdue, if_true, hresync]
  · unfold loopBody
    simp only [hscan, hdue, if_true, hresync]
  · unfold loopBody
    simp only [hscan, hdue, if_true, hresync]
    rw [hcalls, hfails]
  · intro w0 cur0 w10 calls0 hscan0 hmono
    rw [hstate]
    have hdue0 : (timeNow w10).1 - st.lastResync ≥ resyncInterval := by omega
    obtain ⟨reads, hreads, hall, hne⟩ :=
      resyncAttempt_retry_calls s s.maxAttempts [] (cur0, (timeNow w10).2, calls0)
    obtain ⟨c, rest, hcons⟩ : ∃ c rest, reads = c :: rest := by
      rcases reads with _ | ⟨c, rest⟩
      · exact absurd rfl (hne hpos)
      · exact ⟨c, rest, rfl⟩
    obtain ⟨res, hres⟩ := hall c (by rw [hcons]; exact List.mem_cons_self _ _)
    refine ⟨res, ?_⟩
    have hget : (calls0 ++ reads).get? calls0.length = some (.LastClaimEvent res) := by
      rw [hcons, hres, List.get?_eq_getElem?, List.getElem?_append_right (le_refl _)]
      simp
    unfold loopBody
    rcases hr2 : retryDo (resyncAttempt s) s.maxAttempts (cur0, (timeNow w10).2, calls0)
      with ⟨_ | errs2, h2, w32, calls32⟩
    · have hc : calls32 = calls0 ++ reads := by
        unfold retryDo at hr2
        rw [hr2] at hreads
        exact hreads
      simp only [hscan0, hdue0, if_true, hr2]
      rw [hc]
      exact hget
    · have hc : calls32 = calls0 ++ reads := by
        unfold retryDo at hr2
        rw [hr2] at hreads
        exact hreads
      simp only [hscan0, hdue0, if_true, hr2]
      rw [hc]
      exact hget

/-- C21 at a tick from the cursor 900 at head 1000, three attempts allowed, the resync
due, with a node that answers the last claim read of the scan and fails the next three:
the tick returns the three errors with the cursor at 0, not at 900 or at the scan result
920, and `lastResync` still 0; the following tick reads the last claim again after its
scan, as its eighth call. -/
theorem loopBody_resync_exhausted_witness :
    (loopBody (flakyOrchestrator [1, 2, 3] 3) (countingClock (resyncInterval + 1))
      ⟨900, 0⟩ 0).err = some ["down", "down", "down"] ∧
    (loopBody (flakyOrchestrator [1, 2, 3] 3) (countingClock (resyncInterval + 1))
      ⟨900, 0⟩ 0).state = ⟨0, 0⟩ ∧
    (∃ res, (loopBody (flakyOrchestrator [1, 2, 3] 3) (countingClock (resyncInterval + 1))
      (loopBody (flakyOrchestrator [1, 2, 3] 3) (countingClock (resyncInterval + 1))
        ⟨900, 0⟩ 0).state 4).calls.get? 7 = some (.LastClaimEvent res)) :=
  have h := loopBody_resync_exhausted (flakyOrchestrator [1, 2, 3] 3)
    (countingClock (resyncInterval + 1)) ⟨900, 0⟩ 0 1 920 _ rfl (by decide)
    ["down", "down", "down"] 0 4 _ rfl
  ⟨h.1, h.2.1, h.2.2.2.2.2.2 4 20 5 _ rfl (le_refl _)⟩

/-- The closure `retryFn` returns no error, whatever its reads answer. -/
lemma retryFn_no_error {σ : Type} (s : PeggyOrchestrator σ) (st : StartState σ) :
    (retryFn s st).1 = none := by
  unfold retryFn
  simp only
  split
  · split <;> rfl
  · rfl

/-- With no attempt allowed the start makes no call and returns the empty collection of
errors of the retry. -/
lemma EthOracleMainLoop_no_attempts {σ : Type} (s : PeggyOrchestrator σ)
    (timeNow : σ → Int × σ) (w : σ) (h0 : s.maxAttempts = 0) :
    EthOracleMainLoop s timeNow w = .failed [] (timeNow w).2 [] := by
  unfold EthOracleMainLoop
  simp [h0, retryDo, retryLoop]

/-- C22: take a start of `EthOracleMainLoop`, with at least one attempt allowed, whose
first read of the last claim fails. The closure `retryFn` returns no error, so the retry
ends after its first run and the failed read is the only read of the last claim. The
closure goes on to the module parameters: if that read succeeds the loop is entered with
the cursor at `BridgeContractStartHeight`, if it fails the process exits. In the cursor,
the exit flag, the world and the calls after the first, the closure leaves what it leaves
when the read answers with a last claim of height zero. -/
theorem EthOracleMainLoop_failed_read_not_retried {σ : Type} (s : PeggyOrchestrator σ)
    (timeNow : σ → Int × σ) (w : σ) (hattempts : 0 < s.maxAttempts) (err : Error) (w2 : σ)
    (hlc : s.injective.LastClaimEvent (timeNow w).2 = (.error err, w2)) :
    (retryFn s ⟨0, false, (timeNow w).2, []⟩).1 = none ∧
    retryDo (retryFn s) s.maxAttempts ⟨0, false, (timeNow w).2, []⟩ =
      (none, (retryFn s ⟨0, false, (timeNow w).2, []⟩).2) ∧
    (∀ peggyParams w3, s.injective.PeggyParams w2 = (.ok peggyParams, w3) →
      EthOracleMainLoop s timeNow w =
        .looping ⟨peggyParams.BridgeContractStartHeight, (timeNow w).1⟩ w3
          [.LastClaimEvent (.error err), .PeggyParams (.ok peggyParams)]) ∧
    (∀ perr w3, s.injective.PeggyParams w2 = (.error perr, w3) →
      EthOracleMainLoop s timeNow w =
        .exited w3 [.LastClaimEvent (.error err), .PeggyParams (.error perr)]) ∧
    (∀ (s0 : PeggyOrchestrator σ) (lc : LastClaimEvent),
      s0.injective.PeggyParams = s.injective.PeggyParams →
      s0.injective.LastClaimEvent (timeNow w).2 = (.ok lc, w2) →
      lc.EthereumEventHeight = 0 →
      (retryFn s ⟨0, false, (timeNow w).2, []⟩).1 =
        (retryFn s0 ⟨0, false, (timeNow w).2, []⟩).1 ∧
      (retryFn s ⟨0, false, (timeNow w).2, []⟩).2.lastConfirmedEthHeight =
        (retryFn s0 ⟨0, false, (timeNow w).2, []⟩).2.lastConfirmedEthHeight ∧
      (retryFn s ⟨0, false, (timeNow w).2, []⟩).2.exited =
        (retryFn s0 ⟨0, false, (timeNow w).2, []⟩).2.exited ∧
      (retryFn s ⟨0, false, (timeNow w).2, []⟩).2.world =
        (retryFn s0 ⟨0, false, (timeNow w).2, []⟩).2.world ∧
      (retryFn s ⟨0, false, (timeNow w).2, []⟩).2.calls.tail =
        (retryFn s0 ⟨0, false, (timeNow w).2, []⟩).2.calls.tail) := by
  have hnone := retryFn_no_error s ⟨0, false, (timeNow w).2, []⟩
  have hdo : retryDo (retryFn s) s.maxAttempts ⟨0, false, (timeNow w).2, []⟩ =
      (none, (retryFn s ⟨0, false, (timeNow w).2, []⟩).2) :=
    retryDo_first_ok _ _ hattempts _ _ (Prod.ext hnone rfl)
  refine ⟨hnone, hdo, ?_, ?_, ?_⟩
  · intro peggyParams w3 hparams
    unfold EthOracleMainLoop
    simp [hdo, retryFn, getLastConfirmedEthHeight, hlc, hparams]
  · intro perr w3 hparams
    unfold EthOracleMainLoop
    simp [hdo, retryFn, getLastConfirmedEthHeight, hlc, hparams]
  · intro s0 lc hsame hlc0 hzero
    unfold retryFn getLastConfirmedEthHeight
    simp only [hlc, hlc0, hzero, hsame, if_true]
    rcases s.injective.PeggyParams w2 with ⟨perr | peggyParams, w3⟩ <;> simp

/-- C22 at a start with three attempts allowed and a node that fails every read of the
last claim: the loop is entered with the cursor at the start height 800 of the module
parameters after one read of the last claim and one of the parameters. -/
theorem EthOracleMainLoop_failed_read_not_retried_witness :
    EthOracleMainLoop (startOrchestrator (.error "down") (.ok ⟨800⟩) 3) (fixedClock 7) () =
      .looping ⟨800, 7⟩ () [.LastClaimEvent (.error "down"), .PeggyParams (.ok ⟨800⟩)] :=
  (EthOracleMainLoop_failed_read_not_retried (startOrchestrator (.error "down") (.ok ⟨800⟩) 3)
    (fixedClock 7) () (by decide) "down" () rfl).2.2.1 ⟨800⟩ () rfl

/-! ## The algebra of the filters -/

/-- The laws of a nonce filter hold of `List.filter` with the test "the nonce exceeds". -/
lemma filter_nonceFilterLaws {α : Type} (nonceOf : α → Nat) :
    NonceFilterLaws nonceOf
      (fun xs n => xs.filter (fun ev => decide (n < nonceOf ev))) := by
  intro xs n m
  have hcomp : ∀ a b : Nat,
      (xs.filter (fun ev => decide (a < nonceOf ev))).filter
        (fun ev => decide (b < nonceOf ev)) =
        xs.filter (fun ev => decide (max a b < nonceOf ev)) := by
    intro a b
    rw [List.filter_filter]
    congr 1
    funext ev
    rw [Bool.eq_iff_iff]
    simp only [Bool.and_eq_true, decide_eq_true_eq, max_lt_iff]
    exact and_comm
  refine ⟨hcomp n m, ?_, ?_, ?_, ?_⟩
  · have h := hcomp n n
    rwa [max_self] at h
  · intro hnm
    have h := hcomp n m
    rw [max_eq_right hnm] at h
    simp only
    rw [← h]
    exact List.filter_sublist _
  · intro hall
    simp only [List.filter_eq_nil_iff, decide_eq_true_eq, not_lt]
    exact hall
  · intro hall
    simp only [List.filter_eq_self, decide_eq_true_eq]
    exact hall

/-- C23: each of the five nonce filters, over the nonce read as `uint64` from the event,
satisfies the laws of a nonce filter: filtering by `n` and then by `m` equals filtering
once by `max n m`; so filtering twice by one nonce is filtering once, and a higher nonce
keeps a sublist of what a lower nonce keeps; a nonce at or above the nonce of every event
gives the empty list, and a nonce below the nonce of every event gives the list back. The
nonce read is at most the nonce of the event and, below `2 ^ 64`, equal to it. -/
theorem filters_nonce_algebra :
    NonceFilterLaws (fun ev : PeggySendToCosmosEvent => Uint64 ev.EventNonce)
      filterSendToCosmosEventsByNonce ∧
    NonceFilterLaws (fun ev : PeggySendToInjectiveEvent => Uint64 ev.EventNonce)
      filterSendToInjectiveEventsByNonce ∧
    NonceFilterLaws (fun ev : PeggyTransactionBatchExecutedEvent => Uint64 ev.EventNonce)
      filterTransactionBatchExecutedEventsByNonce ∧
    NonceFilterLaws (fun ev : PeggyERC20DeployedEvent => Uint64 ev.EventNonce)
      filterERC20DeployedEventsByNonce ∧
    NonceFilterLaws (fun ev : PeggyValsetUpdatedEvent => Uint64 ev.EventNonce)
      filterValsetUpdateEventsByNonce ∧
    (∀ x : Nat, Uint64 x ≤ x ∧ (x < 2 ^ 64 → Uint64 x = x)) := by
  refine ⟨?_, ?_, ?_, ?_, ?_, fun x => ⟨Nat.mod_le _ _, fun hx => Nat.mod_eq_of_lt hx⟩⟩
  · intro xs n m
    simp only [filterSendToCosmosEventsByNonce_eq]
    exact filter_nonceFilterLaws _ xs n m
  · intro xs n m
    simp only [filterSendToInjectiveEventsByNonce_eq]
    exact filter_nonceFilterLaws _ xs n m
  · intro xs n m
    simp only [filterTransactionBatchExecutedEventsByNonce_eq]
    exact filter_nonceFilterLaws _ xs n m
  · intro xs n m
    simp only [filterERC20DeployedEventsByNonce_eq]
    exact filter_nonceFilterLaws _ xs n m
  · intro xs n m
    simp only [filterValsetUpdateEventsByNonce_eq]
    exact filter_nonceFilterLaws _ xs n m

/-- C23 on the two deposits of the seed scenario (nonces 10 and 11): filtering by 9 and
then by 10 is filtering by 10 and leaves the deposit of nonce 11; filtering by 10 twice is
filtering by 10 once; filtering by 11 leaves nothing; filtering by 9 leaves both. -/
theorem filters_nonce_algebra_witness :
    filterSendToInjectiveEventsByNonce (filterSendToInjectiveEventsByNonce seedDeposits 9) 10 =
      filterSendToInjectiveEventsByNonce seedDeposits 10 ∧
    filterSendToInjectiveEventsByNonce seedDeposits 10 = [⟨11, 908, "b"⟩] ∧
    filterSendToInjectiveEventsByNonce (filterSendToInjectiveEventsByNonce seedDeposits 10) 10 =
      filterSendToInjectiveEventsByNonce seedDeposits 10 ∧
    filterSendToInjectiveEventsByNonce seedDeposits 11 = [] ∧
    filterSendToInjectiveEventsByNonce seedDeposits 9 = seedDeposits :=
  ⟨(filters_nonce_algebra.2.1 seedDeposits 9 10).1, by decide,
    (filters_nonce_algebra.2.1 seedDeposits 10 10).2.1,
    (filters_nonce_algebra.2.1 seedDeposits 11 11).2.2.2.1 (by decide),
    (filters_nonce_algebra.2.1 seedDeposits 9 9).2.2.2.2 (by decide)⟩

end Peggo
